import Mathlib

/-!
PackageKit: the transaction list (`src/pk-transaction-list.c`).

A shallow embedding of the transaction list of the PackageKit daemon and proofs of
its queueing properties.

The list owns a `GPtrArray` of heap-allocated `PkTransactionItem`s.  The embedding keeps
the array as a Lean list of item records.  Every element of the array is a distinct heap
object (`g_ptr_array_add` is only ever called in `pk_transaction_list_create`, with an
item that was allocated a few lines before), so a write through an element pointer
changes exactly one position of the list.  The address of an item is kept in the record
(field `ptr`) because two places of the source identify an item by its address:
`g_ptr_array_remove` and the grace timer armed by the `finished` callback.

Calls that only log (`egg_debug`, `egg_warning`) are dropped.  `egg_error` terminates the
process; functions that can reach it return an `Option` and `none` stands for the
terminated process.  The checks `g_return_val_if_fail (PK_IS_TRANSACTION_LIST (tlist), _)`
and `g_return_val_if_fail (tid != NULL, _)` hold by typing: a `PkTransactionList` is a
list object and a `String` is a non-NULL C string.
-/

namespace PackageKit

/-! ## Data model -/

/-- Modelled from the spec: the enumeration `PkRoleEnum` is declared in `pk-enum.h`, which
is not among the sources.  The spec lists the roles as
`{unknown, query, refresh-cache, install, remove, update, system-update}`; the
constructors carry the names under which `pk-backend.c` uses them. -/
inductive PkRoleEnum where
  | PK_ROLE_ENUM_UNKNOWN
  | PK_ROLE_ENUM_QUERY
  | PK_ROLE_ENUM_REFRESH_CACHE
  | PK_ROLE_ENUM_PACKAGE_INSTALL
  | PK_ROLE_ENUM_PACKAGE_REMOVE
  | PK_ROLE_ENUM_PACKAGE_UPDATE
  | PK_ROLE_ENUM_SYSTEM_UPDATE
  deriving DecidableEq, Repr

/-- Modelled from the spec: `PkTransaction` is implemented in `pk-transaction.c`, which is
not among the sources.  The transaction list reads two things from a transaction: its TID
(`pk_transaction_get_tid`) and its role (`pk_transaction_priv_get_role`); the spec
describes a transaction as "a stable identifier plus a bound Backend Engine instance and
a role selector". -/
structure PkTransaction where
  tid : String
  role : PkRoleEnum
  deriving DecidableEq, Repr

/-- The record `PkTransactionItem` of the source.  `ptr` is the address of the record (the
value of the C pointer `item`); the other fields are the fields of the C struct.
`transaction` is `none` for the NULL pointer. -/
structure PkTransactionItem where
  ptr : Nat
  committed : Bool
  running : Bool
  finished : Bool
  transaction : Option PkTransaction
  tid : String
  deriving DecidableEq, Repr

/-- The object `PkTransactionList`: its private data is the pointer array `array`. -/
structure PkTransactionList where
  array : List PkTransactionItem
  deriving DecidableEq, Repr

/-- How long a finished transaction stays queriable, in seconds
(`PK_TRANSACTION_LIST_KEEP_FINISHED_TIMEOUT`). -/
def PK_TRANSACTION_LIST_KEEP_FINISHED_TIMEOUT : Nat := 5

/-- What a list operation does to the world outside the array:
* `changed`: `g_signal_emit (tlist, signals [PK_TRANSACTION_LIST_CHANGED], 0)`;
* `timeout_add_seconds s item`: `g_timeout_add_seconds (s, pk_transaction_list_remove_item_timeout, finished)`
  with `finished->item = item`;
* `transaction_run item`: `pk_transaction_run (item->transaction)`, recorded with the
  address of the item whose transaction is run. -/
inductive PkEffect where
  | changed
  | timeout_add_seconds (seconds : Nat) (item : Nat)
  | transaction_run (item : Nat)
  deriving DecidableEq, Repr

/-- What a list operation with a `gboolean` result leaves behind: the list, the returned
value and the effects in the order in which they happen. -/
structure PkOutcome where
  tlist : PkTransactionList
  ret : Bool
  effects : List PkEffect
  deriving DecidableEq, Repr

/-! ## Collaborators that are not among the sources -/

/-- Modelled from the spec: `pk_transaction_get_tid` (`pk-transaction.c`, not among the
sources) returns the TID held by the transaction; for the NULL transaction its
`g_return_val_if_fail` guard returns NULL. -/
def pk_transaction_get_tid (transaction : Option PkTransaction) : Option String :=
  transaction.map (fun t => t.tid)

/-- Modelled from the spec: `pk_transaction_priv_get_role` (`pk-transaction.c`, not among
the sources) returns the role selected on the transaction. -/
def pk_transaction_priv_get_role (transaction : PkTransaction) : PkRoleEnum :=
  transaction.role

/-- Modelled from the spec: `egg_strequal` (`egg-string.c`, not among the sources)
compares two C strings for equality; a NULL argument compares unequal to everything. -/
def egg_strequal (id1 id2 : Option String) : Bool :=
  match id1, id2 with
  | some a, some b => decide (a = b)
  | _, _ => false

/-- The GLib function `g_ptr_array_remove`: it removes the first occurrence of the given
pointer from the pointer array, keeping the order of the other elements, and returns
whether the pointer was found. -/
def g_ptr_array_remove : List PkTransactionItem → Nat → List PkTransactionItem × Bool
  | [], _ => ([], false)
  | x :: rest, item =>
    if x.ptr = item then (rest, true)
    else ((x :: (g_ptr_array_remove rest item).1), (g_ptr_array_remove rest item).2)

/-- Modelled from the spec: `pk_ptr_array_to_argv` (`pk-common.c`, not among the sources)
copies the strings of a pointer array, in order, into a NULL-terminated vector. -/
def pk_ptr_array_to_argv (parray : List String) : List String := parray

/-! ## The operations of `pk-transaction-list.c` -/

/-- The test of the lookup loop: `egg_strequal (pk_transaction_get_tid (item->transaction), tid)`. -/
def pk_tid_matches (tid : String) (item : PkTransactionItem) : Bool :=
  egg_strequal (pk_transaction_get_tid item.transaction) (some tid)

/-- The function `pk_transaction_list_get_from_tid`: the first item of the array whose
transaction has the given TID, `none` for NULL. -/
def pk_transaction_list_get_from_tid (tlist : PkTransactionList) (tid : String) :
    Option PkTransactionItem :=
  tlist.array.find? (pk_tid_matches tid)

/-- A write through the pointer returned by `pk_transaction_list_get_from_tid`: the first
item of the array whose transaction has the given TID is replaced by `f item`. -/
def pk_item_write (tid : String) (f : PkTransactionItem → PkTransactionItem) :
    List PkTransactionItem → List PkTransactionItem
  | [] => []
  | item :: rest =>
    if pk_tid_matches tid item then f item :: rest
    else item :: pk_item_write tid f rest

/-- The loop of `pk_transaction_list_role_present` over the array. -/
def pk_transaction_list_role_present_loop (role : PkRoleEnum) : List PkTransactionItem → Bool
  | [] => false
  | item :: rest =>
    -- we might have recently finished this, but not removed it
    if item.finished then pk_transaction_list_role_present_loop role rest
    else
      -- we might not have this set yet
      match item.transaction with
      | none => pk_transaction_list_role_present_loop role rest
      | some transaction =>
        if pk_transaction_priv_get_role transaction = role then true
        else pk_transaction_list_role_present_loop role rest

/-- The function `pk_transaction_list_role_present`. -/
def pk_transaction_list_role_present (tlist : PkTransactionList) (role : PkRoleEnum) : Bool :=
  pk_transaction_list_role_present_loop role tlist.array

/-- The function `pk_transaction_list_remove_internal`, called with the address of an
item: the item is taken out of the array, and `FALSE` is returned when the array does not
hold it. -/
def pk_transaction_list_remove_internal (tlist : PkTransactionList) (item : Nat) :
    PkTransactionList × Bool :=
  let r := g_ptr_array_remove tlist.array item
  if r.2 then (⟨r.1⟩, true) else (tlist, false)

/-- The function `pk_transaction_list_remove`. -/
def pk_transaction_list_remove (tlist : PkTransactionList) (tid : String) :
    PkTransactionList × Bool :=
  match pk_transaction_list_get_from_tid tlist tid with
  | none => (tlist, false)
  | some item =>
    if item.finished then (tlist, false)
    else pk_transaction_list_remove_internal tlist item.ptr

/-- The function `pk_transaction_list_remove_item_timeout`, the grace timer callback; its
argument is the item stored in the `PkTransactionFinished` record.  The result of the
removal is dropped and the callback returns `FALSE`, so the timer does not fire again. -/
def pk_transaction_list_remove_item_timeout (tlist : PkTransactionList) (item : Nat) :
    PkTransactionList × Bool :=
  ((pk_transaction_list_remove_internal tlist item).1, false)

/-- The dispatch loop at the end of `pk_transaction_list_transaction_finished_cb`.  The
oracle `pk_transaction_run` gives, for the address of an item, what `pk_transaction_run`
returns on the transaction of that item. -/
def pk_transaction_list_dispatch (pk_transaction_run : Nat → Bool) :
    List PkTransactionItem → List PkTransactionItem × List PkEffect
  | [] => ([], [])
  | item :: rest =>
    if item.committed && !item.running && !item.finished then
      if pk_transaction_run item.ptr then
        -- only stop looking if we run the job
        ({ item with running := true } :: rest, [PkEffect.transaction_run item.ptr])
      else
        ({ item with running := true } :: (pk_transaction_list_dispatch pk_transaction_run rest).1,
          PkEffect.transaction_run item.ptr ::
            (pk_transaction_list_dispatch pk_transaction_run rest).2)
    else
      (item :: (pk_transaction_list_dispatch pk_transaction_run rest).1,
        (pk_transaction_list_dispatch pk_transaction_run rest).2)

/-- The function `pk_transaction_list_transaction_finished_cb`, the handler of the
`finished` signal of `transaction`.  `none` is the process terminated by
`egg_error ("no transaction list item found!")`. -/
def pk_transaction_list_transaction_finished_cb (transaction : PkTransaction)
    (tlist : PkTransactionList) (pk_transaction_run : Nat → Bool) :
    Option (PkTransactionList × List PkEffect) :=
  let tid := transaction.tid
  match pk_transaction_list_get_from_tid tlist tid with
  | none => none
  | some item =>
    -- transaction is already finished?
    if item.finished then some (tlist, [])
    else
      let array1 := pk_item_write tid (fun i => { i with finished := true }) tlist.array
      let r := pk_transaction_list_dispatch pk_transaction_run array1
      some (⟨r.1⟩,
        [PkEffect.changed,
         PkEffect.timeout_add_seconds PK_TRANSACTION_LIST_KEEP_FINISHED_TIMEOUT item.ptr] ++ r.2)

/-- The function `pk_transaction_list_create`.  `item` is the address returned by
`g_new0 (PkTransactionItem, 1)`, `connection` tells whether `dbus_g_bus_get` returned a
connection and `set_tid` is the result of `pk_transaction_set_tid`.  `none` is the process
terminated by one of the two `egg_error` calls.  The new transaction is the one made by
`pk_transaction_new` after `pk_transaction_set_tid`: it holds the TID and no role yet. -/
def pk_transaction_list_create (tlist : PkTransactionList) (tid : String) (item : Nat)
    (connection : Bool) (set_tid : Bool) : Option (PkTransactionList × Bool) :=
  -- already added?
  match pk_transaction_list_get_from_tid tlist tid with
  | some _ => some (tlist, false)
  | none =>
    if !connection then none
    else if !set_tid then none
    else
      some (⟨tlist.array ++
        [{ ptr := item, committed := false, running := false, finished := false,
           transaction := some ⟨tid, PkRoleEnum.PK_ROLE_ENUM_UNKNOWN⟩, tid := tid }]⟩, true)

/-- The loop of `pk_transaction_list_number_running`; `count` is the running total. -/
def pk_transaction_list_number_running_loop : List PkTransactionItem → Nat → Nat
  | [], count => count
  | item :: rest, count =>
    if item.committed && item.running && !item.finished then
      pk_transaction_list_number_running_loop rest (count + 1)
    else pk_transaction_list_number_running_loop rest count

/-- The function `pk_transaction_list_number_running`.  The counter is a `guint`; it is
bounded by the length of the array, itself a `guint`, so it never wraps. -/
def pk_transaction_list_number_running (tlist : PkTransactionList) : Nat :=
  pk_transaction_list_number_running_loop tlist.array 0

/-- The function `pk_transaction_list_commit`. -/
def pk_transaction_list_commit (tlist : PkTransactionList) (tid : String)
    (pk_transaction_run : Nat → Bool) : PkOutcome :=
  match pk_transaction_list_get_from_tid tlist tid with
  | none => ⟨tlist, false, []⟩
  | some item =>
    let tlist1 : PkTransactionList :=
      ⟨pk_item_write tid (fun i => { i with committed := true }) tlist.array⟩
    -- do the transaction now if we have no other in progress
    if pk_transaction_list_number_running tlist1 = 0 then
      let tlist2 : PkTransactionList :=
        ⟨pk_item_write tid (fun i => { i with running := true }) tlist1.array⟩
      if !pk_transaction_run item.ptr then
        ⟨tlist2, false, [PkEffect.changed, PkEffect.transaction_run item.ptr]⟩
      else ⟨tlist2, true, [PkEffect.changed, PkEffect.transaction_run item.ptr]⟩
    else ⟨tlist1, true, [PkEffect.changed]⟩

/-- The loop of `pk_transaction_list_get_array`; `parray` is the temporary array. -/
def pk_transaction_list_get_array_loop : List PkTransactionItem → List String → List String
  | [], parray => parray
  | item :: rest, parray =>
    -- only return in the list if its committed and not finished
    if item.committed && !item.finished then
      pk_transaction_list_get_array_loop rest (parray ++ [item.tid])
    else pk_transaction_list_get_array_loop rest parray

/-- The function `pk_transaction_list_get_array`. -/
def pk_transaction_list_get_array (tlist : PkTransactionList) : List String :=
  pk_ptr_array_to_argv (pk_transaction_list_get_array_loop tlist.array [])

/-- The function `pk_transaction_list_get_size`. -/
def pk_transaction_list_get_size (tlist : PkTransactionList) : Nat :=
  tlist.array.length

/-- The list made by `pk_transaction_list_init`: an empty array. -/
def pk_transaction_list_init : PkTransactionList := ⟨[]⟩

/-! ## The list inside the main loop -/

/-- The transaction list together with the grace timers that the main loop holds for it:
`timeouts` are the addresses of the items for which a
`pk_transaction_list_remove_item_timeout` source is pending. -/
structure PkState where
  tlist : PkTransactionList
  timeouts : List Nat
  deriving DecidableEq, Repr

/-- The state after `pk_transaction_list_new`: an empty array and no pending timer. -/
def PkState.init : PkState := ⟨pk_transaction_list_init, []⟩

/-- The events that act on the list.
* `create tid item`: a call of `pk_transaction_list_create`, the allocator returning `item`;
* `commit tid run`: a call of `pk_transaction_list_commit`;
* `remove tid`: a call of `pk_transaction_list_remove`;
* `finished transaction run`: the `finished` signal of `transaction`;
* `timeout item`: the grace timer armed for `item` fires.
`run` is the oracle for the results of `pk_transaction_run` during the event. -/
inductive PkEvent where
  | create (tid : String) (item : Nat)
  | commit (tid : String) (run : Nat → Bool)
  | remove (tid : String)
  | finished (transaction : PkTransaction) (run : Nat → Bool)
  | timeout (item : Nat)

/-- The addresses of the items for which the effects arm a grace timer. -/
def pk_armed : List PkEffect → List Nat
  | [] => []
  | PkEffect.timeout_add_seconds _ item :: rest => item :: pk_armed rest
  | _ :: rest => pk_armed rest

/-- One event of the main loop; `none` when the event cannot happen in the state or
terminates the process.
* The allocator never returns the address of a live item, and an item is live as long as
  the array or a pending timer holds it.  The system bus is taken to be available and
  `pk_transaction_set_tid` to succeed on the new transaction.
* The `finished` signal is emitted by a transaction that an item of the array owns: the
  handler is connected in `pk_transaction_list_create` and the transaction is released in
  `pk_transaction_list_remove_internal`.
* A grace timer fires once, and only if it is pending. -/
def PkState.step (s : PkState) : PkEvent → Option PkState
  | PkEvent.create tid item =>
    if item ∈ s.tlist.array.map (fun i => i.ptr) ∨ item ∈ s.timeouts then none
    else
      match pk_transaction_list_create s.tlist tid item true true with
      | none => none
      | some r => some { s with tlist := r.1 }
  | PkEvent.commit tid run =>
    some { s with tlist := (pk_transaction_list_commit s.tlist tid run).tlist }
  | PkEvent.remove tid =>
    some { s with tlist := (pk_transaction_list_remove s.tlist tid).1 }
  | PkEvent.finished transaction run =>
    if s.tlist.array.any (fun i => decide (i.transaction = some transaction)) then
      match pk_transaction_list_transaction_finished_cb transaction s.tlist run with
      | none => none
      | some r => some { tlist := r.1, timeouts := s.timeouts ++ pk_armed r.2 }
    else none
  | PkEvent.timeout item =>
    if item ∈ s.timeouts then
      some { tlist := (pk_transaction_list_remove_item_timeout s.tlist item).1,
             timeouts := s.timeouts.erase item }
    else none

/-- A run of events from a state, `none` as soon as one of them cannot happen. -/
def PkState.run : PkState → List PkEvent → Option PkState
  | s, [] => some s
  | s, e :: rest =>
    match s.step e with
    | none => none
    | some s' => PkState.run s' rest

/-- The states the list can be in: those reached from the initial state by events. -/
inductive PkReachable : PkState → Prop where
  | init : PkReachable PkState.init
  | step (s s' : PkState) (e : PkEvent) :
      PkReachable s → s.step e = some s' → PkReachable s'

/-! ## Predicates on items and lists -/

/-- An item counted by `pk_transaction_list_number_running`: committed, running and not
finished. -/
def pk_item_in_progress (item : PkTransactionItem) : Bool :=
  item.committed && item.running && !item.finished

/-- An item the dispatch loop starts: committed, not running and not finished. -/
def pk_item_queued (item : PkTransactionItem) : Bool :=
  item.committed && !item.running && !item.finished

/-- The new item that `pk_transaction_list_create` adds for `tid` at address `item`. -/
def pk_new_item (tid : String) (item : Nat) : PkTransactionItem :=
  { ptr := item, committed := false, running := false, finished := false,
    transaction := some ⟨tid, PkRoleEnum.PK_ROLE_ENUM_UNKNOWN⟩, tid := tid }

/-- An item with its `running` flag cleared: what the dispatch loop leaves alone. -/
def pk_item_forget_running (item : PkTransactionItem) : PkTransactionItem :=
  { item with running := false }

/-- The part of an item that no list operation writes: its address, its transaction and
its TID. -/
def pk_item_key (item : PkTransactionItem) : Nat × Option PkTransaction × String :=
  (item.ptr, item.transaction, item.tid)

/-- The array holds distinct heap objects: no address occurs twice. -/
def pk_distinct_items (tlist : PkTransactionList) : Prop :=
  (tlist.array.map (fun i => i.ptr)).Nodup

instance (tlist : PkTransactionList) : Decidable (pk_distinct_items tlist) := by
  unfold pk_distinct_items
  infer_instance

/-- A well-formed list: its items are distinct heap objects, no TID occurs twice, and
every item owns a transaction that carries the TID of the item.  This is what
`pk_transaction_list_create` establishes for each item it adds. -/
def pk_well_formed (tlist : PkTransactionList) : Prop :=
  (tlist.array.map (fun i => i.ptr)).Nodup ∧
  (tlist.array.map (fun i => i.tid)).Nodup ∧
  ∀ item ∈ tlist.array, pk_transaction_get_tid item.transaction = some item.tid

instance (tlist : PkTransactionList) : Decidable (pk_well_formed tlist) := by
  unfold pk_well_formed
  infer_instance

/-- The scheduling invariant of the list: at most one item is in progress, and an item
that is running is committed. -/
def pk_serial (tlist : PkTransactionList) : Prop :=
  tlist.array.countP pk_item_in_progress ≤ 1 ∧
  ∀ x ∈ tlist.array, x.running = true → x.committed = true

/-! ## Regular runs -/

/-- An event of a regular run: a `finished` signal comes from a transaction whose item is
in progress (or was already finished, in which case the signal is ignored), and
`pk_transaction_run` returns TRUE at every start attempt that the callback makes.  The
other events are free, and so is the result of `pk_transaction_run` in `commit`. -/
def PkEvent.regular (s : PkState) : PkEvent → Prop
  | PkEvent.finished transaction run =>
    (∀ item, pk_transaction_list_get_from_tid s.tlist transaction.tid = some item →
      item.finished = true ∨ pk_item_in_progress item = true) ∧
    (∀ r, pk_transaction_list_transaction_finished_cb transaction s.tlist run = some r →
      ∀ p, PkEffect.transaction_run p ∈ r.2 → run p = true)
  | _ => True

/-- The states reached from the initial state by regular events. -/
inductive PkReachableRegular : PkState → Prop where
  | init : PkReachableRegular PkState.init
  | step (s s' : PkState) (e : PkEvent) :
      PkReachableRegular s → PkEvent.regular s e → s.step e = some s' →
      PkReachableRegular s'

/-! ## Example states and runs -/

/-- The oracle of a `pk_transaction_run` that always succeeds. -/
def pk_run_ok : Nat → Bool := fun _ => true

/-- The oracle of a `pk_transaction_run` that fails for the item at address 2 only. -/
def pk_run_fails_at_2 : Nat → Bool := fun p => decide (p ≠ 2)

/-- A list with one item that was created and given the role of a system update, and is
not committed yet. -/
def pk_example_uncommitted : PkTransactionList :=
  ⟨[{ ptr := 0, committed := false, running := false, finished := false,
      transaction := some ⟨"/1_aaaa", PkRoleEnum.PK_ROLE_ENUM_SYSTEM_UPDATE⟩,
      tid := "/1_aaaa" }]⟩

/-- An item that is committed and running: `/1_aaaa` at address 10. -/
def pk_example_started : PkTransactionItem :=
  { ptr := 10, committed := true, running := true, finished := false,
    transaction := some ⟨"/1_aaaa", PkRoleEnum.PK_ROLE_ENUM_QUERY⟩, tid := "/1_aaaa" }

/-- An item that is committed and waits to be run: `/2_bbbb` at address 20. -/
def pk_example_queued : PkTransactionItem :=
  { ptr := 20, committed := true, running := false, finished := false,
    transaction := some ⟨"/2_bbbb", PkRoleEnum.PK_ROLE_ENUM_PACKAGE_INSTALL⟩,
    tid := "/2_bbbb" }

/-- An item that is finished and waits for its grace timer: `/3_cccc` at address 30. -/
def pk_example_done : PkTransactionItem :=
  { ptr := 30, committed := true, running := true, finished := true,
    transaction := some ⟨"/3_cccc", PkRoleEnum.PK_ROLE_ENUM_QUERY⟩, tid := "/3_cccc" }

/-- A list with the running item `/1_aaaa`, the queued item `/2_bbbb` and the finished
item `/3_cccc`. -/
def pk_example_three : PkTransactionList :=
  ⟨[pk_example_started, pk_example_queued, pk_example_done]⟩

/-- The list after `/1_aaaa` was created and committed and its transaction was started. -/
def pk_example_running : PkTransactionList :=
  ⟨[{ ptr := 1, committed := true, running := true, finished := false,
      transaction := some ⟨"/1_aaaa", PkRoleEnum.PK_ROLE_ENUM_UNKNOWN⟩, tid := "/1_aaaa" }]⟩

/-- Three transactions are created and committed, the first one runs; it finishes, the
start of the second fails and the third is started. -/
def pk_example_failed_start : List PkEvent :=
  [PkEvent.create "/1_aaaa" 1, PkEvent.create "/2_bbbb" 2, PkEvent.create "/3_cccc" 3,
   PkEvent.commit "/1_aaaa" pk_run_ok, PkEvent.commit "/2_bbbb" pk_run_ok,
   PkEvent.commit "/3_cccc" pk_run_ok,
   PkEvent.finished ⟨"/1_aaaa", PkRoleEnum.PK_ROLE_ENUM_UNKNOWN⟩ pk_run_fails_at_2]

/-- The state at the end of `pk_example_failed_start`. -/
def pk_example_two_running : PkState :=
  { tlist := ⟨[{ ptr := 1, committed := true, running := true, finished := true,
                 transaction := some ⟨"/1_aaaa", PkRoleEnum.PK_ROLE_ENUM_UNKNOWN⟩,
                 tid := "/1_aaaa" },
               { ptr := 2, committed := true, running := true, finished := false,
                 transaction := some ⟨"/2_bbbb", PkRoleEnum.PK_ROLE_ENUM_UNKNOWN⟩,
                 tid := "/2_bbbb" },
               { ptr := 3, committed := true, running := true, finished := false,
                 transaction := some ⟨"/3_cccc", PkRoleEnum.PK_ROLE_ENUM_UNKNOWN⟩,
                 tid := "/3_cccc" }]⟩,
    timeouts := [1] }

/-- Three transactions are created and committed, the first one runs; then the `finished`
signal arrives for the second, which never ran, and the dispatch starts the third. -/
def pk_example_early_finish : List PkEvent :=
  [PkEvent.create "/1_aaaa" 1, PkEvent.create "/2_bbbb" 2, PkEvent.create "/3_cccc" 3,
   PkEvent.commit "/1_aaaa" pk_run_ok, PkEvent.commit "/2_bbbb" pk_run_ok,
   PkEvent.commit "/3_cccc" pk_run_ok,
   PkEvent.finished ⟨"/2_bbbb", PkRoleEnum.PK_ROLE_ENUM_UNKNOWN⟩ pk_run_ok]

/-! ## Runs under a condition on the events -/

/-- The states reached from the initial state by events that satisfy `P` in the state in
which they happen. -/
inductive PkReachableWhen (P : PkState → PkEvent → Prop) : PkState → Prop where
  | init : PkReachableWhen P PkState.init
  | step (s s' : PkState) (e : PkEvent) :
      PkReachableWhen P s → P s e → s.step e = some s' → PkReachableWhen P s'

/-- The condition that a `finished` signal comes from a transaction whose item is
committed; the other events are free. -/
def PkEvent.for_committed (s : PkState) : PkEvent → Prop
  | PkEvent.finished transaction _ =>
    ∀ item, pk_transaction_list_get_from_tid s.tlist transaction.tid = some item →
      item.committed = true
  | _ => True

/-- The transaction `/1_aaaa` is created, committed and started, and finishes. -/
def pk_example_run_and_finish : List PkEvent :=
  [PkEvent.create "/1_aaaa" 1, PkEvent.commit "/1_aaaa" pk_run_ok,
   PkEvent.finished ⟨"/1_aaaa", PkRoleEnum.PK_ROLE_ENUM_UNKNOWN⟩ pk_run_ok]

/-- The item of `/1_aaaa` at the end of `pk_example_run_and_finish`. -/
def pk_example_retired : PkTransactionItem :=
  { ptr := 1, committed := true, running := true, finished := true,
    transaction := some ⟨"/1_aaaa", PkRoleEnum.PK_ROLE_ENUM_UNKNOWN⟩, tid := "/1_aaaa" }

/-- The state at the end of `pk_example_run_and_finish`: the item is in its grace window. -/
def pk_example_finished : PkState :=
  { tlist := ⟨[pk_example_retired]⟩, timeouts := [1] }

/-- The transaction `/1_aaaa` is created and its `finished` signal arrives before it was
committed. -/
def pk_example_finish_uncommitted : List PkEvent :=
  [PkEvent.create "/1_aaaa" 1,
   PkEvent.finished ⟨"/1_aaaa", PkRoleEnum.PK_ROLE_ENUM_UNKNOWN⟩ pk_run_ok]

/-! ## The backend engine (`src/pk-backend.c`): data model

The engine keeps its state in `PkBackendPrivate`.  The embedding keeps the fields that the
functions of the file read or write; the module handle, the timer, the network object, the
thread list and the signal handler ids only appear through the effects below.  `pk_error`
and `g_error` terminate the process, and a call of `g_vsnprintf` whose format reads an
argument that was not passed has no defined behaviour: functions that can reach one of
these return an `Option`, and `none` stands for the absence of a defined result.  Calls
that only log (`pk_debug`, `pk_warning`) are dropped.  A C string is written as a Lean
string, one character for each byte. -/

/-- Modelled from the spec: the enumeration `PkStatusEnum` of `pk-enum.h` (not among the
sources); the spec lists `{unknown, setup, query, remove, download, install, update, exit}`. -/
inductive PkStatusEnum where
  | PK_STATUS_ENUM_UNKNOWN
  | PK_STATUS_ENUM_SETUP
  | PK_STATUS_ENUM_QUERY
  | PK_STATUS_ENUM_REMOVE
  | PK_STATUS_ENUM_DOWNLOAD
  | PK_STATUS_ENUM_INSTALL
  | PK_STATUS_ENUM_UPDATE
  | PK_STATUS_ENUM_EXIT
  deriving DecidableEq, Repr

/-- Modelled from the spec: the enumeration `PkExitEnum` of `pk-enum.h` (not among the
sources); the spec lists `{success, failed, canceled}`. -/
inductive PkExitEnum where
  | PK_EXIT_ENUM_SUCCESS
  | PK_EXIT_ENUM_FAILED
  | PK_EXIT_ENUM_CANCELED
  deriving DecidableEq, Repr

/-- Modelled from the spec: the enumeration `PkErrorCodeEnum` of `pk-enum.h` (not among the
sources).  `pk-backend.c` names two of its values, *internal-error* and *not-supported*;
`PK_ERROR_ENUM_OTHER code` stands for the enumerators that it does not name. -/
inductive PkErrorCodeEnum where
  | PK_ERROR_ENUM_INTERNAL_ERROR
  | PK_ERROR_ENUM_NOT_SUPPORTED
  | PK_ERROR_ENUM_OTHER (code : Nat)
  deriving DecidableEq, Repr

/-- Modelled from the spec: the enumeration `PkRestartEnum` of `pk-enum.h` (not among the
sources).  The engine only passes its values on, as the unsigned integer of the signal. -/
abbrev PkRestartEnum := Nat

/-- Modelled from the spec: the enumeration `PkGroupEnum` of `pk-enum.h` (not among the
sources).  The engine only passes its values on, as the unsigned integer of the signal. -/
abbrev PkGroupEnum := Nat

/-- The signals of the engine with the values they are emitted with.  `allow_interrupt`
carries none: `pk_backend_allow_interrupt` emits it without passing the flag. -/
inductive PkBackendSignal where
  | job_status_changed (status : PkStatusEnum)
  | percentage_changed (percentage : Nat)
  | sub_percentage_changed (percentage : Nat)
  | no_percentage_updates
  | description (package_id licence : String) (group : PkGroupEnum) (text url : String)
  | package (value : Nat) (package_id summary : String)
  | update_detail (package_id updates obsoletes url restart update_text : String)
  | error_code (code : PkErrorCodeEnum) (buffer : String)
  | require_restart (restart : PkRestartEnum) (details : String)
  | finished (exit : PkExitEnum)
  | allow_interrupt
  deriving DecidableEq, Repr

/-- Modelled from the spec: the entries of the plugin descriptor `PkBackendDesc`
(`pk-backend.h`, not among the sources), as the spec and the uses `backend->desc->...` of
`pk-backend.c` name them (`initialise` for the entry that the descriptor spells with a
`z`). -/
inductive PkBackendEntry where
  | initialise
  | destroy
  | cancel_job_try
  | get_depends
  | get_description
  | get_requires
  | get_updates
  | get_update_detail
  | install_package
  | refresh_cache
  | remove_package
  | search_details
  | search_file
  | search_group
  | search_name
  | update_package
  | update_system
  | get_groups
  | get_filters
  deriving DecidableEq, Repr

/-- What an engine function does outside the private data:
* `emit signal`: `g_signal_emit (backend, signals [...], 0, ...)`;
* `thread_list_wait`: `pk_thread_list_wait (backend->priv->thread_list)`;
* `timeout_add interval`: `g_timeout_add (interval, pk_backend_finished_delay, backend)`;
* `desc_call entry`: a call `backend->desc->entry (backend, ...)` into the plugin;
* `spawn_command command`: `pk_spawn_command (backend->priv->spawn, command)`;
* `spawn_kill`: `pk_spawn_kill (backend->priv->spawn)`;
* `thread_create`: `pk_thread_list_create (backend->priv->thread_list, ...)`. -/
inductive PkBackendEffect where
  | emit (signal : PkBackendSignal)
  | thread_list_wait
  | timeout_add (interval : Nat)
  | desc_call (entry : PkBackendEntry)
  | spawn_command (command : String)
  | spawn_kill
  | thread_create
  deriving DecidableEq, Repr

/-- The private data of a `PkBackend`.  `name` is `none` for NULL, `spawn` tells whether
`backend->priv->spawn` holds a `PkSpawn` object, `package_id` and `last_package` are
`none` for NULL. -/
structure PkBackend where
  name : Option String
  role : PkRoleEnum
  status : PkStatusEnum
  package_id : Option String
  exit : PkExitEnum
  spawn : Bool
  is_killable : Bool
  assigned : Bool
  last_percentage : Nat
  last_subpercentage : Nat
  last_package : Option String
  deriving DecidableEq, Repr

/-- What an engine function with a `gboolean` result leaves behind: the private data, the
returned value and the effects in the order in which they happen. -/
structure PkBackendOutcome where
  backend : PkBackend
  ret : Bool
  effects : List PkBackendEffect
  deriving DecidableEq, Repr

/-- What `pk-backend.c` takes from its build, from the machine and from files that are not
among the sources: the data directory, `g_build_filename` of GLib, the syntactic check of
package identifiers (`pk-package-id.c`) and the text tables of `pk-enum.c`.

The field `g_strjoinv_va_list` is what the machine makes of
`g_strjoinv (" ", (gchar **)(void *)args)` in `pk_backend_spawn_helper`, where `args` is
the `va_list` of the function, for the variadic arguments that the caller passed before
the closing NULL.  The source reads the `va_list` as if it were a vector of strings, which
C leaves undefined.  Where `va_list` is a pointer to the argument slots (64-bit PowerPC,
RISC-V) the read finds the arguments themselves and the result is their join with
blanks; where `va_list` is a record (x86-64) the first word of the record is taken for the
address of a string and the process ends at the read, which is `none`. -/
structure PkBackendEnv where
  DATADIR : String
  g_build_filename : List String → String
  g_strjoinv_va_list : List String → Option String
  pk_package_id_check : String → Bool
  pk_group_enum_from_text : String → PkGroupEnum
  pk_error_enum_from_text : String → PkErrorCodeEnum
  pk_restart_enum_from_text : String → PkRestartEnum
  pk_status_enum_from_text : String → PkStatusEnum

/-! ## The C library functions that the engine uses -/

/-- The expansion of a `printf` format with string arguments.  `%%` gives a percent sign
and `%s` the next argument; `none` when a `%s` finds no argument left or when the format
holds another conversion: the formats of `pk-backend.c` use `%s` only, and any conversion
in a text that is passed as a format without arguments reads an argument that was not
passed. -/
def pk_format : List Char → List String → Option (List Char)
  | [], _ => some []
  | '%' :: '%' :: rest, args => (pk_format rest args).map (fun out => '%' :: out)
  | '%' :: 's' :: rest, a :: args => (pk_format rest args).map (fun out => a.data ++ out)
  | '%' :: _, _ => none
  | c :: rest, args => (pk_format rest args).map (fun out => c :: out)

/-- The GLib function `g_vsnprintf (buffer, n, format, args)`: the expanded format, cut to
the `n - 1` bytes that fit in front of the terminating NUL. -/
def g_vsnprintf (n : Nat) (format : String) (args : List String) : Option String :=
  (pk_format format.data args).map (fun out => String.mk (out.take (n - 1)))

/-- The fields of a text between the occurrences of a delimiter character. -/
def pk_split (delimiter : Char) : List Char → List (List Char)
  | [] => [[]]
  | c :: rest =>
    if c = delimiter then [] :: pk_split delimiter rest
    else
      match pk_split delimiter rest with
      | [] => [[c]]
      | field :: fields => (c :: field) :: fields

/-- The GLib function `g_strsplit (string, delimiter, 0)` for a delimiter of one
character: the fields between the delimiters, and the empty vector for the empty string. -/
def g_strsplit (string : String) (delimiter : Char) : List String :=
  if string.data = [] then [] else (pk_split delimiter string.data).map String.mk

/-- The test `strstr (line, "\t") != NULL`: the line holds a tab. -/
def pk_has_tab (line : String) : Bool :=
  line.data.contains (Char.ofNat 9)

/-- The C predicate `isspace` in the C locale. -/
def pk_isspace (c : Char) : Bool :=
  c = ' ' || (9 ≤ c.toNat && c.toNat ≤ 13)

/-- The value of the longest prefix of decimal digits, continuing from `acc`. -/
def pk_digits : List Char → Nat → Nat
  | [], acc => acc
  | c :: rest, acc =>
    if c.isDigit then pk_digits rest (10 * acc + (c.toNat - 48)) else acc

/-- The C function `strtol (nptr, NULL, 10)` on a machine with 64-bit `long`: leading
white space is skipped, a sign is taken, the digits that follow are read, and a value
outside of `long` is replaced by `LONG_MIN` or `LONG_MAX`. -/
def pk_strtol (nptr : String) : Int :=
  let v : Int :=
    match nptr.data.dropWhile pk_isspace with
    | '-' :: rest => - (pk_digits rest 0 : Int)
    | '+' :: rest => (pk_digits rest 0 : Int)
    | cs => (pk_digits cs 0 : Int)
  if v < -(2 : Int) ^ 63 then -(2 : Int) ^ 63
  else if v > (2 : Int) ^ 63 - 1 then (2 : Int) ^ 63 - 1
  else v

/-- The value that `guint x = atoi (nptr)` stores: `atoi` is `(int) strtol (nptr, NULL, 10)`
and the conversions to `int` and then to `guint` keep the value modulo `2 ^ 32`. -/
def pk_atoi_guint (nptr : String) : Nat :=
  (pk_strtol nptr % (2 : Int) ^ 32).toNat

/-! ## The functions of `pk-backend.c` that plugins and helpers drive -/

/-- The function `pk_backend_spawn_helper_delete`; `none` for the `pk_error` when no spawn
object is in use. -/
def pk_backend_spawn_helper_delete (backend : PkBackend) : Option PkBackendOutcome :=
  if backend.spawn = false then none
  else some ⟨{ backend with spawn := false }, true, []⟩

/-- The function `pk_backend_spawn_helper_new`; `none` for the `pk_error` when a spawn
object is already in use. -/
def pk_backend_spawn_helper_new (backend : PkBackend) : Option PkBackendOutcome :=
  if backend.spawn = true then none
  else some ⟨{ backend with spawn := true }, true, []⟩

/-- The function `pk_backend_spawn_kill`. -/
def pk_backend_spawn_kill (backend : PkBackend) : PkBackendOutcome :=
  if backend.spawn = false then ⟨backend, false, []⟩
  else ⟨backend, true, [PkBackendEffect.spawn_kill]⟩

/-- The function `pk_backend_thread_create`; the result of `pk_thread_list_create` is
taken to be TRUE. -/
def pk_backend_thread_create (backend : PkBackend) : PkBackendOutcome :=
  ⟨backend, true, [PkBackendEffect.thread_create]⟩

/-- The function `pk_backend_change_percentage`.  As in the source, the value is saved in
`last_subpercentage`. -/
def pk_backend_change_percentage (backend : PkBackend) (percentage : Nat) :
    PkBackendOutcome :=
  ⟨{ backend with last_subpercentage := percentage }, true,
    [PkBackendEffect.emit (PkBackendSignal.percentage_changed percentage)]⟩

/-- The function `pk_backend_change_sub_percentage`. -/
def pk_backend_change_sub_percentage (backend : PkBackend) (percentage : Nat) :
    PkBackendOutcome :=
  ⟨{ backend with last_subpercentage := percentage }, true,
    [PkBackendEffect.emit (PkBackendSignal.sub_percentage_changed percentage)]⟩

/-- The function `pk_backend_set_job_role`; `none` for the `pk_error` when a role is
already set. -/
def pk_backend_set_job_role (backend : PkBackend) (role : PkRoleEnum)
    (package_id : Option String) : Option PkBackendOutcome :=
  -- Should only be called once...
  if backend.role ≠ PkRoleEnum.PK_ROLE_ENUM_UNKNOWN then none
  else
    some ⟨{ backend with role := role, package_id := package_id,
                         status := PkStatusEnum.PK_STATUS_ENUM_SETUP }, true, []⟩

/-- The function `pk_backend_change_job_status`. -/
def pk_backend_change_job_status (backend : PkBackend) (status : PkStatusEnum) :
    PkBackendOutcome :=
  ⟨{ backend with status := status }, true,
    [PkBackendEffect.emit (PkBackendSignal.job_status_changed status)]⟩

/-- The function `pk_backend_package`. -/
def pk_backend_package (backend : PkBackend) (value : Nat) (package summary : String) :
    PkBackendOutcome :=
  -- save in case we need this from coldplug
  ⟨{ backend with last_package := some package }, true,
    [PkBackendEffect.emit (PkBackendSignal.package value package summary)]⟩

/-- The function `pk_backend_update_detail`. -/
def pk_backend_update_detail (backend : PkBackend)
    (package_id updates obsoletes url restart update_text : String) : PkBackendOutcome :=
  ⟨backend, true,
    [PkBackendEffect.emit
      (PkBackendSignal.update_detail package_id updates obsoletes url restart update_text)]⟩

/-- The function `pk_backend_require_restart`. -/
def pk_backend_require_restart (backend : PkBackend) (restart : PkRestartEnum)
    (details : String) : PkBackendOutcome :=
  ⟨backend, true, [PkBackendEffect.emit (PkBackendSignal.require_restart restart details)]⟩

/-- The function `pk_backend_description`. -/
def pk_backend_description (backend : PkBackend) (package_id licence : String)
    (group : PkGroupEnum) (description url : String) : PkBackendOutcome :=
  ⟨backend, true,
    [PkBackendEffect.emit
      (PkBackendSignal.description package_id licence group description url)]⟩

/-- The function `pk_backend_error_code`, with the format and the arguments that follow
it; `none` when `g_vsnprintf` has no defined result. -/
def pk_backend_error_code (backend : PkBackend) (code : PkErrorCodeEnum) (format : String)
    (args : List String) : Option PkBackendOutcome :=
  match g_vsnprintf 1024 format args with
  | none => none
  | some buffer =>
    -- we mark any transaction with errors as failed
    some ⟨{ backend with exit := PkExitEnum.PK_EXIT_ENUM_FAILED }, true,
      [PkBackendEffect.emit (PkBackendSignal.error_code code buffer)]⟩

/-- The function `pk_backend_finished_delay`, the callback that `pk_backend_finished`
schedules; it returns FALSE, so it is not called again. -/
def pk_backend_finished_delay (backend : PkBackend) : PkBackendOutcome :=
  ⟨backend, false, [PkBackendEffect.emit (PkBackendSignal.finished backend.exit)]⟩

/-- The function `pk_backend_finished`. -/
def pk_backend_finished (backend : PkBackend) : PkBackendOutcome :=
  ⟨backend, true, [PkBackendEffect.thread_list_wait, PkBackendEffect.timeout_add 500]⟩

/-- The function `pk_backend_no_percentage_updates`. -/
def pk_backend_no_percentage_updates (backend : PkBackend) : PkBackendOutcome :=
  ⟨backend, true, [PkBackendEffect.emit PkBackendSignal.no_percentage_updates]⟩

/-- The function `pk_backend_allow_interrupt`. -/
def pk_backend_allow_interrupt (backend : PkBackend) (allow_restart : Bool) :
    PkBackendOutcome :=
  ⟨{ backend with is_killable := allow_restart }, true,
    [PkBackendEffect.emit PkBackendSignal.allow_interrupt]⟩

/-- The function `pk_backend_not_implemented_yet`. -/
def pk_backend_not_implemented_yet (backend : PkBackend) (method : String) :
    Option PkBackendOutcome :=
  match pk_backend_error_code backend PkErrorCodeEnum.PK_ERROR_ENUM_NOT_SUPPORTED
      "the method '%s' is not implemented yet" [method] with
  | none => none
  | some r =>
    -- don't wait, do this now
    let delay := pk_backend_finished_delay
      { r.backend with exit := PkExitEnum.PK_EXIT_ENUM_FAILED }
    some ⟨delay.backend, true, r.effects ++ delay.effects⟩

/-- The function `pk_backend_spawn_helper_internal`; `spawned` is the result of
`pk_spawn_command`.  A NULL name ends the argument list of `g_build_filename`. -/
def pk_backend_spawn_helper_internal (env : PkBackendEnv) (backend : PkBackend)
    (script : String) (argument : Option String) (spawned : Bool) :
    Option PkBackendOutcome :=
  let filename := env.g_build_filename
    ([env.DATADIR, "PackageKit", "helpers"] ++
      (match backend.name with
       | some name => [name, script]
       | none => []))
  let command :=
    match argument with
    | some a => filename ++ " " ++ a
    | none => filename
  match pk_backend_spawn_helper_new backend with
  | none => none
  | some r1 =>
    if spawned = false then
      match pk_backend_spawn_helper_delete r1.backend with
      | none => none
      | some r2 =>
        match pk_backend_error_code r2.backend PkErrorCodeEnum.PK_ERROR_ENUM_INTERNAL_ERROR
            "Spawn of helper '%s' failed" [command] with
        | none => none
        | some r3 =>
          let r4 := pk_backend_finished r3.backend
          some ⟨r4.backend, spawned,
            PkBackendEffect.spawn_command command :: (r3.effects ++ r4.effects)⟩
    else some ⟨r1.backend, spawned, [PkBackendEffect.spawn_command command]⟩

/-- The function `pk_backend_spawn_helper`; `args` are the arguments after `script`.  The
function hands its `va_list`, cast to a vector of strings, to `g_strjoinv`: the outcome is
that of the machine, `env.g_strjoinv_va_list`, and the process ends there (`none`) where
the machine cannot read a `va_list` in this way.  Otherwise the result is the argument of
`pk_backend_spawn_helper_internal`. -/
def pk_backend_spawn_helper (env : PkBackendEnv) (backend : PkBackend) (script : String)
    (args : List String) (spawned : Bool) : Option PkBackendOutcome :=
  match env.g_strjoinv_va_list args with
  | none => none
  | some arguments =>
    pk_backend_spawn_helper_internal env backend script (some arguments) spawned

/-- The function `pk_backend_spawn_finished_cb`, the handler of the `finished` signal of
the spawn object.  The handler returns nothing; `ret` is TRUE in its outcome. -/
def pk_backend_spawn_finished_cb (backend : PkBackend) (exitcode : Int) :
    Option PkBackendOutcome :=
  match pk_backend_spawn_helper_delete backend with
  | none => none
  | some r1 =>
    -- check scripts returned an error on failure
    if exitcode ≠ 0 ∧ r1.backend.exit ≠ PkExitEnum.PK_EXIT_ENUM_FAILED then
      match pk_backend_error_code r1.backend PkErrorCodeEnum.PK_ERROR_ENUM_INTERNAL_ERROR
          "Helper returned non-zero return value but did not set error" [] with
      | none => none
      | some r2 =>
        let r3 := pk_backend_finished r2.backend
        some ⟨r3.backend, true, r2.effects ++ r3.effects⟩
    else
      let r3 := pk_backend_finished r1.backend
      some ⟨r3.backend, true, r3.effects⟩

/-! ## The parsers of the helper streams -/

/-- The function `pk_backend_parse_common_output`, the parser of the output stream of the
helper; `line` is `none` for NULL.  `none` for the `g_error` on a wrong number of
sections. -/
def pk_backend_parse_common_output (env : PkBackendEnv) (backend : PkBackend)
    (line : Option String) : Option PkBackendOutcome :=
  match line with
  | none => some ⟨backend, false, []⟩
  | some line =>
    -- check if output line
    if pk_has_tab line = false then some ⟨backend, false, []⟩
    else
      -- split by tab
      let sections := g_strsplit line (Char.ofNat 9)
      let command := sections.headD ""
      let size := sections.length
      if command = "package" then
        if size ≠ 4 then none
        else if env.pk_package_id_check (sections.getD 2 "") = true then
          let value := pk_atoi_guint (sections.getD 1 "")
          let r := pk_backend_package backend value (sections.getD 2 "") (sections.getD 3 "")
          some ⟨r.backend, true, r.effects⟩
        else some ⟨backend, true, []⟩
      else if command = "description" then
        if size ≠ 6 then none
        else
          let group := env.pk_group_enum_from_text (sections.getD 3 "")
          let r := pk_backend_description backend (sections.getD 1 "") (sections.getD 2 "")
            group (sections.getD 4 "") (sections.getD 5 "")
          some ⟨r.backend, true, r.effects⟩
      else some ⟨backend, true, []⟩

/-- The function `pk_backend_parse_common_error`, the parser of the error stream of the
helper; `line` is `none` for NULL.  `none` for the `g_error` on a wrong number of
sections and for an error text that `g_vsnprintf` cannot expand. -/
def pk_backend_parse_common_error (env : PkBackendEnv) (backend : PkBackend)
    (line : Option String) : Option PkBackendOutcome :=
  match line with
  | none => some ⟨backend, false, []⟩
  | some line =>
    -- check if output line
    if pk_has_tab line = false then some ⟨backend, false, []⟩
    else
      -- split by tab
      let sections := g_strsplit line (Char.ofNat 9)
      let command := sections.headD ""
      let size := sections.length
      if command = "percentage" then
        if size ≠ 2 then none
        else
          let percentage := pk_atoi_guint (sections.getD 1 "")
          let r := pk_backend_change_percentage backend percentage
          some ⟨r.backend, true, r.effects⟩
      else if command = "subpercentage" then
        if size ≠ 2 then none
        else
          let percentage := pk_atoi_guint (sections.getD 1 "")
          let r := pk_backend_change_sub_percentage backend percentage
          some ⟨r.backend, true, r.effects⟩
      else if command = "error" then
        if size ≠ 3 then none
        else
          let error_enum := env.pk_error_enum_from_text (sections.getD 1 "")
          match pk_backend_error_code backend error_enum (sections.getD 2 "") [] with
          | none => none
          | some r => some ⟨r.backend, true, r.effects⟩
      else if command = "requirerestart" then
        if size ≠ 3 then none
        else
          let restart_enum := env.pk_restart_enum_from_text (sections.getD 1 "")
          let r := pk_backend_require_restart backend restart_enum (sections.getD 2 "")
          some ⟨r.backend, true, r.effects⟩
      else if command = "status" then
        if size ≠ 2 then none
        else
          let status_enum := env.pk_status_enum_from_text (sections.getD 1 "")
          let r := pk_backend_change_job_status backend status_enum
          some ⟨r.backend, true, r.effects⟩
      else if command = "allow-interrupt" then
        if size ≠ 2 then none
        else if sections.getD 1 "" = "true" then
          let r := pk_backend_allow_interrupt backend true
          some ⟨r.backend, true, r.effects⟩
        else if sections.getD 1 "" = "false" then
          let r := pk_backend_allow_interrupt backend false
          some ⟨r.backend, true, r.effects⟩
        else some ⟨backend, false, []⟩
      else if command = "no-percentage-updates" then
        if size ≠ 1 then none
        else
          let r := pk_backend_no_percentage_updates backend
          some ⟨r.backend, true, r.effects⟩
      else some ⟨backend, true, []⟩

/-- The function `pk_backend_spawn_stdout_cb`, the handler of the `stdout` signal of the
spawn object; the result of the parser is dropped (`ret` is TRUE in the outcome). -/
def pk_backend_spawn_stdout_cb (env : PkBackendEnv) (backend : PkBackend) (line : String) :
    Option PkBackendOutcome :=
  (pk_backend_parse_common_output env backend (some line)).map
    (fun r => ⟨r.backend, true, r.effects⟩)

/-- The function `pk_backend_spawn_stderr_cb`, the handler of the `stderr` signal of the
spawn object; the result of the parser is dropped (`ret` is TRUE in the outcome). -/
def pk_backend_spawn_stderr_cb (env : PkBackendEnv) (backend : PkBackend) (line : String) :
    Option PkBackendOutcome :=
  (pk_backend_parse_common_error env backend (some line)).map
    (fun r => ⟨r.backend, true, r.effects⟩)

/-! ## Plugins -/

/-- A call that plugin code makes into the engine through the functions that
`pk-backend.c` exports for plugins, with the arguments of the call; `spawned` is the
result that `pk_spawn_command` gives to a `spawn_helper` call. -/
inductive PkBackendCall where
  | change_percentage (percentage : Nat)
  | change_sub_percentage (percentage : Nat)
  | set_job_role (role : PkRoleEnum) (package_id : Option String)
  | change_job_status (status : PkStatusEnum)
  | package (value : Nat) (package_id summary : String)
  | update_detail (package_id updates obsoletes url restart update_text : String)
  | require_restart (restart : PkRestartEnum) (details : String)
  | description (package_id licence : String) (group : PkGroupEnum) (text url : String)
  | error_code (code : PkErrorCodeEnum) (format : String) (args : List String)
  | finished
  | no_percentage_updates
  | allow_interrupt (allow_restart : Bool)
  | spawn_helper (script : String) (args : List String) (spawned : Bool)
  | spawn_kill
  | not_implemented_yet (method : String)
  | thread_create
  deriving DecidableEq, Repr

/-- One call of plugin code into the engine. -/
def pk_backend_call (env : PkBackendEnv) (backend : PkBackend) :
    PkBackendCall → Option PkBackendOutcome
  | PkBackendCall.change_percentage percentage =>
    some (pk_backend_change_percentage backend percentage)
  | PkBackendCall.change_sub_percentage percentage =>
    some (pk_backend_change_sub_percentage backend percentage)
  | PkBackendCall.set_job_role role package_id =>
    pk_backend_set_job_role backend role package_id
  | PkBackendCall.change_job_status status =>
    some (pk_backend_change_job_status backend status)
  | PkBackendCall.package value package_id summary =>
    some (pk_backend_package backend value package_id summary)
  | PkBackendCall.update_detail package_id updates obsoletes url restart update_text =>
    some (pk_backend_update_detail backend package_id updates obsoletes url restart update_text)
  | PkBackendCall.require_restart restart details =>
    some (pk_backend_require_restart backend restart details)
  | PkBackendCall.description package_id licence group text url =>
    some (pk_backend_description backend package_id licence group text url)
  | PkBackendCall.error_code code format args =>
    pk_backend_error_code backend code format args
  | PkBackendCall.finished => some (pk_backend_finished backend)
  | PkBackendCall.no_percentage_updates => some (pk_backend_no_percentage_updates backend)
  | PkBackendCall.allow_interrupt allow_restart =>
    some (pk_backend_allow_interrupt backend allow_restart)
  | PkBackendCall.spawn_helper script args spawned =>
    pk_backend_spawn_helper env backend script args spawned
  | PkBackendCall.spawn_kill => some (pk_backend_spawn_kill backend)
  | PkBackendCall.not_implemented_yet method => pk_backend_not_implemented_yet backend method
  | PkBackendCall.thread_create => some (pk_backend_thread_create backend)

/-- The calls of a plugin entry, one after the other; the effects are collected in order. -/
def pk_backend_calls (env : PkBackendEnv) :
    List PkBackendCall → PkBackend → Option (PkBackend × List PkBackendEffect)
  | [], backend => some (backend, [])
  | c :: rest, backend =>
    match pk_backend_call env backend c with
    | none => none
    | some r =>
      match pk_backend_calls env rest r.backend with
      | none => none
      | some r' => some (r'.1, r.effects ++ r'.2)

/-- Modelled from the spec: the plugin descriptor `PkBackendDesc` (`pk-backend.h`, not
among the sources), "a record of optional entries".  An entry is `none` for NULL;
otherwise it gives, for the arguments it is called with, the calls that the plugin code
makes into the engine before it returns.  `get_groups` and `get_filters` give the values
that the entry appends to the list it is handed. -/
structure PkBackendDesc where
  initialise : Option (List PkBackendCall)
  destroy : Option (List PkBackendCall)
  cancel_job_try : Option (List PkBackendCall)
  get_depends : Option (String → List PkBackendCall)
  get_description : Option (String → List PkBackendCall)
  get_requires : Option (String → List PkBackendCall)
  get_updates : Option (List PkBackendCall)
  get_update_detail : Option (String → List PkBackendCall)
  install_package : Option (String → List PkBackendCall)
  refresh_cache : Option (Bool → List PkBackendCall)
  remove_package : Option (String → Bool → List PkBackendCall)
  search_details : Option (String → String → List PkBackendCall)
  search_file : Option (String → String → List PkBackendCall)
  search_group : Option (String → String → List PkBackendCall)
  search_name : Option (String → String → List PkBackendCall)
  update_package : Option (String → List PkBackendCall)
  update_system : Option (List PkBackendCall)
  get_groups : Option (List PkGroupEnum)
  get_filters : Option (List Nat)

/-! ## The operations of the engine -/

/-- The common body of the role operations `pk_backend_get_depends` ...
`pk_backend_update_system`: `entry` is the descriptor entry applied to the arguments of
the operation, `name` its name, `method` the text passed to
`pk_backend_not_implemented_yet`, `role` and `package_id` what is passed to
`pk_backend_set_job_role`. -/
def pk_backend_role_operation (env : PkBackendEnv) (backend : PkBackend)
    (entry : Option (List PkBackendCall)) (name : PkBackendEntry) (method : String)
    (role : PkRoleEnum) (package_id : Option String) : Option PkBackendOutcome :=
  match entry with
  | none =>
    match pk_backend_not_implemented_yet backend method with
    | none => none
    | some r => some ⟨r.backend, false, r.effects⟩
  | some calls =>
    match pk_backend_set_job_role backend role package_id with
    | none => none
    | some r1 =>
      match pk_backend_calls env calls r1.backend with
      | none => none
      | some r2 =>
        some ⟨{ r2.1 with assigned := true }, true,
          r1.effects ++ PkBackendEffect.desc_call name :: r2.2⟩

/-- The function `pk_backend_get_depends`. -/
def pk_backend_get_depends (env : PkBackendEnv) (desc : PkBackendDesc) (backend : PkBackend) (package_id : String) :
    Option PkBackendOutcome :=
  pk_backend_role_operation env backend (desc.get_depends.map (fun f => f package_id))
    PkBackendEntry.get_depends "GetDepends" PkRoleEnum.PK_ROLE_ENUM_QUERY (some package_id)

/-- The function `pk_backend_get_update_detail`. -/
def pk_backend_get_update_detail (env : PkBackendEnv) (desc : PkBackendDesc) (backend : PkBackend) (package_id : String) :
    Option PkBackendOutcome :=
  pk_backend_role_operation env backend (desc.get_update_detail.map (fun f => f package_id))
    PkBackendEntry.get_update_detail "GetUpdateDetail" PkRoleEnum.PK_ROLE_ENUM_QUERY (some package_id)

/-- The function `pk_backend_get_description`. -/
def pk_backend_get_description (env : PkBackendEnv) (desc : PkBackendDesc) (backend : PkBackend) (package_id : String) :
    Option PkBackendOutcome :=
  pk_backend_role_operation env backend (desc.get_description.map (fun f => f package_id))
    PkBackendEntry.get_description "GetDescription" PkRoleEnum.PK_ROLE_ENUM_QUERY (some package_id)

/-- The function `pk_backend_get_requires`. -/
def pk_backend_get_requires (env : PkBackendEnv) (desc : PkBackendDesc) (backend : PkBackend) (package_id : String) :
    Option PkBackendOutcome :=
  pk_backend_role_operation env backend (desc.get_requires.map (fun f => f package_id))
    PkBackendEntry.get_requires "GetRequires" PkRoleEnum.PK_ROLE_ENUM_QUERY (some package_id)

/-- The function `pk_backend_get_updates`. -/
def pk_backend_get_updates (env : PkBackendEnv) (desc : PkBackendDesc) (backend : PkBackend) :
    Option PkBackendOutcome :=
  pk_backend_role_operation env backend (desc.get_updates)
    PkBackendEntry.get_updates "GetUpdates" PkRoleEnum.PK_ROLE_ENUM_QUERY none

/-- The function `pk_backend_install_package`. -/
def pk_backend_install_package (env : PkBackendEnv) (desc : PkBackendDesc) (backend : PkBackend) (package_id : String) :
    Option PkBackendOutcome :=
  pk_backend_role_operation env backend (desc.install_package.map (fun f => f package_id))
    PkBackendEntry.install_package "InstallPackage" PkRoleEnum.PK_ROLE_ENUM_PACKAGE_INSTALL (some package_id)

/-- The function `pk_backend_refresh_cache`. -/
def pk_backend_refresh_cache (env : PkBackendEnv) (desc : PkBackendDesc) (backend : PkBackend) (force : Bool) :
    Option PkBackendOutcome :=
  pk_backend_role_operation env backend (desc.refresh_cache.map (fun f => f force))
    PkBackendEntry.refresh_cache "RefreshCache" PkRoleEnum.PK_ROLE_ENUM_REFRESH_CACHE none

/-- The function `pk_backend_remove_package`. -/
def pk_backend_remove_package (env : PkBackendEnv) (desc : PkBackendDesc) (backend : PkBackend) (package_id : String) (allow_deps : Bool) :
    Option PkBackendOutcome :=
  pk_backend_role_operation env backend (desc.remove_package.map (fun f => f package_id allow_deps))
    PkBackendEntry.remove_package "RemovePackage" PkRoleEnum.PK_ROLE_ENUM_PACKAGE_REMOVE (some package_id)

/-- The function `pk_backend_search_details`. -/
def pk_backend_search_details (env : PkBackendEnv) (desc : PkBackendDesc) (backend : PkBackend) (filter search : String) :
    Option PkBackendOutcome :=
  pk_backend_role_operation env backend (desc.search_details.map (fun f => f filter search))
    PkBackendEntry.search_details "SearchDetails" PkRoleEnum.PK_ROLE_ENUM_QUERY (some search)

/-- The function `pk_backend_search_file`. -/
def pk_backend_search_file (env : PkBackendEnv) (desc : PkBackendDesc) (backend : PkBackend) (filter search : String) :
    Option PkBackendOutcome :=
  pk_backend_role_operation env backend (desc.search_file.map (fun f => f filter search))
    PkBackendEntry.search_file "SearchFile" PkRoleEnum.PK_ROLE_ENUM_QUERY (some search)

/-- The function `pk_backend_search_group`. -/
def pk_backend_search_group (env : PkBackendEnv) (desc : PkBackendDesc) (backend : PkBackend) (filter search : String) :
    Option PkBackendOutcome :=
  pk_backend_role_operation env backend (desc.search_group.map (fun f => f filter search))
    PkBackendEntry.search_group "SearchGroup" PkRoleEnum.PK_ROLE_ENUM_QUERY (some search)

/-- The function `pk_backend_search_name`. -/
def pk_backend_search_name (env : PkBackendEnv) (desc : PkBackendDesc) (backend : PkBackend) (filter search : String) :
    Option PkBackendOutcome :=
  pk_backend_role_operation env backend (desc.search_name.map (fun f => f filter search))
    PkBackendEntry.search_name "SearchName" PkRoleEnum.PK_ROLE_ENUM_QUERY (some search)

/-- The function `pk_backend_update_package`. -/
def pk_backend_update_package (env : PkBackendEnv) (desc : PkBackendDesc) (backend : PkBackend) (package_id : String) :
    Option PkBackendOutcome :=
  pk_backend_role_operation env backend (desc.update_package.map (fun f => f package_id))
    PkBackendEntry.update_package "UpdatePackage" PkRoleEnum.PK_ROLE_ENUM_PACKAGE_UPDATE (some package_id)

/-- The function `pk_backend_update_system`. -/
def pk_backend_update_system (env : PkBackendEnv) (desc : PkBackendDesc) (backend : PkBackend) :
    Option PkBackendOutcome :=
  pk_backend_role_operation env backend (desc.update_system)
    PkBackendEntry.update_system "UpdateSystem" PkRoleEnum.PK_ROLE_ENUM_SYSTEM_UPDATE none

/-- The function `pk_backend_cancel_job_try`. -/
def pk_backend_cancel_job_try (env : PkBackendEnv) (desc : PkBackendDesc)
    (backend : PkBackend) : Option PkBackendOutcome :=
  match desc.cancel_job_try with
  | none =>
    match pk_backend_not_implemented_yet backend "CancelJobTry" with
    | none => none
    | some r => some ⟨r.backend, false, r.effects⟩
  | some calls =>
    -- check to see if we have an action
    if backend.assigned = false then some ⟨backend, false, []⟩
    -- check if it's safe to kill
    else if backend.is_killable = false then some ⟨backend, false, []⟩
    else if backend.spawn = false then some ⟨backend, false, []⟩
    else
      match pk_backend_calls env calls backend with
      | none => none
      | some r =>
        some ⟨r.1, true, PkBackendEffect.desc_call PkBackendEntry.cancel_job_try :: r.2⟩

/-- The private data after `pk_backend_init`. -/
def pk_backend_init : PkBackend :=
  { name := none,
    role := PkRoleEnum.PK_ROLE_ENUM_UNKNOWN,
    status := PkStatusEnum.PK_STATUS_ENUM_UNKNOWN,
    package_id := none,
    exit := PkExitEnum.PK_EXIT_ENUM_SUCCESS,
    spawn := false,
    is_killable := false,
    assigned := false,
    last_percentage := 0,
    last_subpercentage := 0,
    last_package := none }

/-! ## The engine inside the main loop -/

/-- A role operation with its arguments. -/
inductive PkBackendOperation where
  | get_depends (package_id : String)
  | get_update_detail (package_id : String)
  | get_description (package_id : String)
  | get_requires (package_id : String)
  | get_updates
  | install_package (package_id : String)
  | refresh_cache (force : Bool)
  | remove_package (package_id : String) (allow_deps : Bool)
  | search_details (filter search : String)
  | search_file (filter search : String)
  | search_group (filter search : String)
  | search_name (filter search : String)
  | update_package (package_id : String)
  | update_system
  deriving DecidableEq, Repr

/-- The role operation that an operation value stands for. -/
def pk_backend_operation (env : PkBackendEnv) (desc : PkBackendDesc) (backend : PkBackend) :
    PkBackendOperation → Option PkBackendOutcome
  | PkBackendOperation.get_depends package_id =>
    pk_backend_get_depends env desc backend package_id
  | PkBackendOperation.get_update_detail package_id =>
    pk_backend_get_update_detail env desc backend package_id
  | PkBackendOperation.get_description package_id =>
    pk_backend_get_description env desc backend package_id
  | PkBackendOperation.get_requires package_id =>
    pk_backend_get_requires env desc backend package_id
  | PkBackendOperation.get_updates => pk_backend_get_updates env desc backend
  | PkBackendOperation.install_package package_id =>
    pk_backend_install_package env desc backend package_id
  | PkBackendOperation.refresh_cache force => pk_backend_refresh_cache env desc backend force
  | PkBackendOperation.remove_package package_id allow_deps =>
    pk_backend_remove_package env desc backend package_id allow_deps
  | PkBackendOperation.search_details filter search =>
    pk_backend_search_details env desc backend filter search
  | PkBackendOperation.search_file filter search =>
    pk_backend_search_file env desc backend filter search
  | PkBackendOperation.search_group filter search =>
    pk_backend_search_group env desc backend filter search
  | PkBackendOperation.search_name filter search =>
    pk_backend_search_name env desc backend filter search
  | PkBackendOperation.update_package package_id =>
    pk_backend_update_package env desc backend package_id
  | PkBackendOperation.update_system => pk_backend_update_system env desc backend

/-- The descriptor entry that a role operation calls. -/
def PkBackendOperation.entry : PkBackendOperation → PkBackendEntry
  | PkBackendOperation.get_depends _ => PkBackendEntry.get_depends
  | PkBackendOperation.get_update_detail _ => PkBackendEntry.get_update_detail
  | PkBackendOperation.get_description _ => PkBackendEntry.get_description
  | PkBackendOperation.get_requires _ => PkBackendEntry.get_requires
  | PkBackendOperation.get_updates => PkBackendEntry.get_updates
  | PkBackendOperation.install_package _ => PkBackendEntry.install_package
  | PkBackendOperation.refresh_cache _ => PkBackendEntry.refresh_cache
  | PkBackendOperation.remove_package _ _ => PkBackendEntry.remove_package
  | PkBackendOperation.search_details _ _ => PkBackendEntry.search_details
  | PkBackendOperation.search_file _ _ => PkBackendEntry.search_file
  | PkBackendOperation.search_group _ _ => PkBackendEntry.search_group
  | PkBackendOperation.search_name _ _ => PkBackendEntry.search_name
  | PkBackendOperation.update_package _ => PkBackendEntry.update_package
  | PkBackendOperation.update_system => PkBackendEntry.update_system

/-- Whether the descriptor has the entry, that is, whether `backend->desc->entry` is not
NULL. -/
def PkBackendDesc.has (desc : PkBackendDesc) : PkBackendEntry → Bool
  | PkBackendEntry.initialise => desc.initialise.isSome
  | PkBackendEntry.destroy => desc.destroy.isSome
  | PkBackendEntry.cancel_job_try => desc.cancel_job_try.isSome
  | PkBackendEntry.get_depends => desc.get_depends.isSome
  | PkBackendEntry.get_description => desc.get_description.isSome
  | PkBackendEntry.get_requires => desc.get_requires.isSome
  | PkBackendEntry.get_updates => desc.get_updates.isSome
  | PkBackendEntry.get_update_detail => desc.get_update_detail.isSome
  | PkBackendEntry.install_package => desc.install_package.isSome
  | PkBackendEntry.refresh_cache => desc.refresh_cache.isSome
  | PkBackendEntry.remove_package => desc.remove_package.isSome
  | PkBackendEntry.search_details => desc.search_details.isSome
  | PkBackendEntry.search_file => desc.search_file.isSome
  | PkBackendEntry.search_group => desc.search_group.isSome
  | PkBackendEntry.search_name => desc.search_name.isSome
  | PkBackendEntry.update_package => desc.update_package.isSome
  | PkBackendEntry.update_system => desc.update_system.isSome
  | PkBackendEntry.get_groups => desc.get_groups.isSome
  | PkBackendEntry.get_filters => desc.get_filters.isSome

/-- The engine together with what the main loop holds for it: `pending` is the number of
`pk_backend_finished_delay` callbacks that are scheduled and have not run yet. -/
structure PkEngine where
  backend : PkBackend
  pending : Nat
  deriving DecidableEq, Repr

/-- The events that act on the engine.
* `operation op`: the daemon calls a role operation;
* `cancel_job_try`: the daemon calls `pk_backend_cancel_job_try`;
* `stdout line`, `stderr line`: the helper wrote a line;
* `spawn_finished exitcode`: the helper exited;
* `finished_delay`: a scheduled `pk_backend_finished_delay` callback runs;
* `call c`: plugin code outside of a descriptor entry, a worker thread for instance, calls
  into the engine. -/
inductive PkBackendEvent where
  | operation (op : PkBackendOperation)
  | cancel_job_try
  | stdout (line : String)
  | stderr (line : String)
  | spawn_finished (exitcode : Int)
  | finished_delay
  | call (c : PkBackendCall)
  deriving DecidableEq, Repr

/-- The signals among the effects, in order: what is delivered to the subscribers. -/
def pk_signals : List PkBackendEffect → List PkBackendSignal
  | [] => []
  | PkBackendEffect.emit signal :: rest => signal :: pk_signals rest
  | _ :: rest => pk_signals rest

/-- The number of `pk_backend_finished_delay` callbacks that the effects schedule. -/
def pk_scheduled : List PkBackendEffect → Nat
  | [] => 0
  | PkBackendEffect.timeout_add _ :: rest => pk_scheduled rest + 1
  | _ :: rest => pk_scheduled rest

/-- The engine after a function returned `r`: the callbacks it scheduled are pending. -/
def PkEngine.after (s : PkEngine) (r : PkBackendOutcome) : PkEngine × List PkBackendEffect :=
  (⟨r.backend, s.pending + pk_scheduled r.effects⟩, r.effects)

/-- One event of the main loop; `none` when the event cannot happen in the state or has no
defined result.  The handlers of the helper are connected to the spawn object in
`pk_backend_spawn_helper_new` and disconnected in `pk_backend_spawn_helper_delete`, so the
helper events need a spawn object; a callback runs only if it is pending. -/
def PkEngine.step (env : PkBackendEnv) (desc : PkBackendDesc) (s : PkEngine) :
    PkBackendEvent → Option (PkEngine × List PkBackendEffect)
  | PkBackendEvent.operation op =>
    (pk_backend_operation env desc s.backend op).map s.after
  | PkBackendEvent.cancel_job_try =>
    (pk_backend_cancel_job_try env desc s.backend).map s.after
  | PkBackendEvent.stdout line =>
    if s.backend.spawn = true then (pk_backend_spawn_stdout_cb env s.backend line).map s.after
    else none
  | PkBackendEvent.stderr line =>
    if s.backend.spawn = true then (pk_backend_spawn_stderr_cb env s.backend line).map s.after
    else none
  | PkBackendEvent.spawn_finished exitcode =>
    if s.backend.spawn = true then
      (pk_backend_spawn_finished_cb s.backend exitcode).map s.after
    else none
  | PkBackendEvent.finished_delay =>
    if 0 < s.pending then
      some (⟨(pk_backend_finished_delay s.backend).backend, s.pending - 1⟩,
        (pk_backend_finished_delay s.backend).effects)
    else none
  | PkBackendEvent.call c => (pk_backend_call env s.backend c).map s.after

/-- A run of events from a state of the engine, with the effects of all of them in
order; `none` as soon as an event has no result. -/
def PkEngine.run (env : PkBackendEnv) (desc : PkBackendDesc) :
    PkEngine → List PkBackendEvent → Option (PkEngine × List PkBackendEffect)
  | s, [] => some (s, [])
  | s, e :: rest =>
    match s.step env desc e with
    | none => none
    | some r =>
      match PkEngine.run env desc r.1 rest with
      | none => none
      | some r' => some (r'.1, r.2 ++ r'.2)

/-- The reading of a sequence of effects for the exit tag: starting from `failed` (whether
the exit tag is *failed*), an `error-code` emission makes the tag *failed*, and a
`finished` emission has to carry *failed* when the tag is *failed*.  The result is the
tag at the end, `none` when a `finished` emission carries another tag than it should. -/
def pk_sticky_scan : Bool → List PkBackendEffect → Option Bool
  | failed, [] => some failed
  | _, PkBackendEffect.emit (PkBackendSignal.error_code _ _) :: rest =>
    pk_sticky_scan true rest
  | failed, PkBackendEffect.emit (PkBackendSignal.finished exit) :: rest =>
    if failed = true ∧ exit ≠ PkExitEnum.PK_EXIT_ENUM_FAILED then none
    else pk_sticky_scan failed rest
  | failed, _ :: rest => pk_sticky_scan failed rest

/-- Whether the exit tag of the engine is *failed*. -/
def PkBackend.failed (backend : PkBackend) : Bool :=
  decide (backend.exit = PkExitEnum.PK_EXIT_ENUM_FAILED)

/-- A call of plugin code that neither emits `finished` at once nor schedules it: any
call but `pk_backend_not_implemented_yet`, `pk_backend_finished` and a
`pk_backend_spawn_helper` whose spawn fails. -/
def PkBackendCall.quiet : PkBackendCall → Bool
  | PkBackendCall.not_implemented_yet _ => false
  | PkBackendCall.finished => false
  | PkBackendCall.spawn_helper _ _ spawned => spawned
  | _ => true

/-- The calls that the descriptor entry of a role operation makes, `none` when the
descriptor has no such entry. -/
def PkBackendDesc.calls (desc : PkBackendDesc) : PkBackendOperation → Option (List PkBackendCall)
  | PkBackendOperation.get_depends package_id => desc.get_depends.map (fun f => f package_id)
  | PkBackendOperation.get_update_detail package_id =>
    desc.get_update_detail.map (fun f => f package_id)
  | PkBackendOperation.get_description package_id =>
    desc.get_description.map (fun f => f package_id)
  | PkBackendOperation.get_requires package_id =>
    desc.get_requires.map (fun f => f package_id)
  | PkBackendOperation.get_updates => desc.get_updates
  | PkBackendOperation.install_package package_id =>
    desc.install_package.map (fun f => f package_id)
  | PkBackendOperation.refresh_cache force => desc.refresh_cache.map (fun f => f force)
  | PkBackendOperation.remove_package package_id allow_deps =>
    desc.remove_package.map (fun f => f package_id allow_deps)
  | PkBackendOperation.search_details filter search =>
    desc.search_details.map (fun f => f filter search)
  | PkBackendOperation.search_file filter search =>
    desc.search_file.map (fun f => f filter search)
  | PkBackendOperation.search_group filter search =>
    desc.search_group.map (fun f => f filter search)
  | PkBackendOperation.search_name filter search =>
    desc.search_name.map (fun f => f filter search)
  | PkBackendOperation.update_package package_id =>
    desc.update_package.map (fun f => f package_id)
  | PkBackendOperation.update_system => desc.update_system

/-- The text that a role operation passes to `pk_backend_not_implemented_yet`. -/
def PkBackendOperation.method : PkBackendOperation → String
  | PkBackendOperation.get_depends _ => "GetDepends"
  | PkBackendOperation.get_update_detail _ => "GetUpdateDetail"
  | PkBackendOperation.get_description _ => "GetDescription"
  | PkBackendOperation.get_requires _ => "GetRequires"
  | PkBackendOperation.get_updates => "GetUpdates"
  | PkBackendOperation.install_package _ => "InstallPackage"
  | PkBackendOperation.refresh_cache _ => "RefreshCache"
  | PkBackendOperation.remove_package _ _ => "RemovePackage"
  | PkBackendOperation.search_details _ _ => "SearchDetails"
  | PkBackendOperation.search_file _ _ => "SearchFile"
  | PkBackendOperation.search_group _ _ => "SearchGroup"
  | PkBackendOperation.search_name _ _ => "SearchName"
  | PkBackendOperation.update_package _ => "UpdatePackage"
  | PkBackendOperation.update_system => "UpdateSystem"

/-- The role that a role operation passes to `pk_backend_set_job_role`. -/
def PkBackendOperation.role : PkBackendOperation → PkRoleEnum
  | PkBackendOperation.install_package _ => PkRoleEnum.PK_ROLE_ENUM_PACKAGE_INSTALL
  | PkBackendOperation.refresh_cache _ => PkRoleEnum.PK_ROLE_ENUM_REFRESH_CACHE
  | PkBackendOperation.remove_package _ _ => PkRoleEnum.PK_ROLE_ENUM_PACKAGE_REMOVE
  | PkBackendOperation.update_package _ => PkRoleEnum.PK_ROLE_ENUM_PACKAGE_UPDATE
  | PkBackendOperation.update_system => PkRoleEnum.PK_ROLE_ENUM_SYSTEM_UPDATE
  | _ => PkRoleEnum.PK_ROLE_ENUM_QUERY

/-- The identifier that a role operation passes to `pk_backend_set_job_role`: the package
identifier or the search term, NULL for the operations without one. -/
def PkBackendOperation.package_id : PkBackendOperation → Option String
  | PkBackendOperation.get_depends package_id => some package_id
  | PkBackendOperation.get_update_detail package_id => some package_id
  | PkBackendOperation.get_description package_id => some package_id
  | PkBackendOperation.get_requires package_id => some package_id
  | PkBackendOperation.get_updates => none
  | PkBackendOperation.install_package package_id => some package_id
  | PkBackendOperation.refresh_cache _ => none
  | PkBackendOperation.remove_package package_id _ => some package_id
  | PkBackendOperation.search_details _ search => some search
  | PkBackendOperation.search_file _ search => some search
  | PkBackendOperation.search_group _ search => some search
  | PkBackendOperation.search_name _ search => some search
  | PkBackendOperation.update_package package_id => some package_id
  | PkBackendOperation.update_system => none

/-! ## Example plugins and engines -/

/-- An environment for the examples: helpers under `/usr/share`, file names joined with
slashes, a machine whose `va_list` is a pointer to the argument slots, so that
`pk_backend_spawn_helper` finds its arguments, package identifiers of four fields
separated by semicolons, and text tables that know the names used in the examples. -/
def pk_example_env : PkBackendEnv :=
  { DATADIR := "/usr/share",
    g_build_filename := fun elements => "/".intercalate elements,
    g_strjoinv_va_list := fun args => some (" ".intercalate args),
    pk_package_id_check := fun id => decide ((g_strsplit id ';').length = 4),
    pk_group_enum_from_text := fun _ => 0,
    pk_error_enum_from_text := fun text =>
      if text = "internal-error" then PkErrorCodeEnum.PK_ERROR_ENUM_INTERNAL_ERROR
      else if text = "not-supported" then PkErrorCodeEnum.PK_ERROR_ENUM_NOT_SUPPORTED
      else PkErrorCodeEnum.PK_ERROR_ENUM_OTHER 0,
    pk_restart_enum_from_text := fun _ => 0,
    pk_status_enum_from_text := fun text =>
      if text = "query" then PkStatusEnum.PK_STATUS_ENUM_QUERY
      else PkStatusEnum.PK_STATUS_ENUM_UNKNOWN }

/-- A plugin that only searches by name: its entry sets the status and spawns the helper
`search-name.py`, and the spawn succeeds.  It has no other entry, and no cancel hook. -/
def pk_example_desc : PkBackendDesc :=
  { initialise := none,
    destroy := none,
    cancel_job_try := none,
    get_depends := none,
    get_description := none,
    get_requires := none,
    get_updates := none,
    get_update_detail := none,
    install_package := none,
    refresh_cache := none,
    remove_package := none,
    search_details := none,
    search_file := none,
    search_group := none,
    search_name := some (fun filter search =>
      [PkBackendCall.change_job_status PkStatusEnum.PK_STATUS_ENUM_QUERY,
       PkBackendCall.spawn_helper "search-name.py" [filter, search] true]),
    update_package := none,
    update_system := none,
    get_groups := none,
    get_filters := none }

/-- The plugin of `pk_example_desc` with a cancel hook that kills the helper. -/
def pk_example_desc_cancel : PkBackendDesc :=
  { pk_example_desc with cancel_job_try := some [PkBackendCall.spawn_kill] }

/-- The engine after `pk_backend_new` and the loading of the plugin `dummy`. -/
def pk_example_engine : PkEngine :=
  ⟨{ pk_backend_init with name := some "dummy" }, 0⟩

/-- An engine in the middle of a search: the role is set, the helper runs and has allowed
to be interrupted. -/
def pk_example_busy : PkBackend :=
  { name := some "dummy",
    role := PkRoleEnum.PK_ROLE_ENUM_QUERY,
    status := PkStatusEnum.PK_STATUS_ENUM_QUERY,
    package_id := some "foo",
    exit := PkExitEnum.PK_EXIT_ENUM_SUCCESS,
    spawn := true,
    is_killable := true,
    assigned := true,
    last_percentage := 0,
    last_subpercentage := 0,
    last_package := none }

/-- A search whose helper reports an error and then exits with code 0. -/
def pk_example_failing_search : List PkBackendEvent :=
  [PkBackendEvent.operation (PkBackendOperation.search_name "none" "foo"),
   PkBackendEvent.stderr "error\tinternal-error\tcannot search",
   PkBackendEvent.spawn_finished 0,
   PkBackendEvent.finished_delay]

/-- A search during which the daemon asks to cancel, the plugin having no cancel hook; the
helper then exits with code 0. -/
def pk_example_cancelled_search : List PkBackendEvent :=
  [PkBackendEvent.operation (PkBackendOperation.search_name "none" "foo"),
   PkBackendEvent.cancel_job_try,
   PkBackendEvent.spawn_finished 0,
   PkBackendEvent.finished_delay]

/-- The engine at the end of `pk_example_failing_search`. -/
def pk_example_failed : PkBackend :=
  { pk_example_busy with
    exit := PkExitEnum.PK_EXIT_ENUM_FAILED, spawn := false, is_killable := false }

/-- The effects of `pk_example_failing_search`, in order. -/
def pk_example_failing_effects : List PkBackendEffect :=
  [PkBackendEffect.desc_call PkBackendEntry.search_name,
   PkBackendEffect.emit (PkBackendSignal.job_status_changed PkStatusEnum.PK_STATUS_ENUM_QUERY),
   PkBackendEffect.spawn_command "/usr/share/PackageKit/helpers/dummy/search-name.py none foo",
   PkBackendEffect.emit
     (PkBackendSignal.error_code PkErrorCodeEnum.PK_ERROR_ENUM_INTERNAL_ERROR "cannot search"),
   PkBackendEffect.thread_list_wait,
   PkBackendEffect.timeout_add 500,
   PkBackendEffect.emit (PkBackendSignal.finished PkExitEnum.PK_EXIT_ENUM_FAILED)]

/-! ## Where `finished` comes from -/

/-- A call of plugin code that emits `finished` at once: `pk_backend_not_implemented_yet`,
which calls `pk_backend_finished_delay` itself. -/
def PkBackendCall.inline : PkBackendCall → Bool
  | PkBackendCall.not_implemented_yet _ => true
  | _ => false

/-- A call of plugin code that schedules `finished`: `pk_backend_finished`, and a
`pk_backend_spawn_helper` whose spawn fails. -/
def PkBackendCall.closing : PkBackendCall → Bool
  | PkBackendCall.finished => true
  | PkBackendCall.spawn_helper _ _ spawned => !spawned
  | _ => false

/-- Whether the event goes through `pk_backend_not_implemented_yet`: a role operation or a
cancel whose entry is absent from the descriptor, or plugin code that calls the function. -/
def PkBackendEvent.inline (desc : PkBackendDesc) : PkBackendEvent → Bool
  | PkBackendEvent.operation op =>
    match desc.calls op with
    | none => true
    | some calls => calls.any PkBackendCall.inline
  | PkBackendEvent.cancel_job_try =>
    match desc.cancel_job_try with
    | none => true
    | some calls => calls.any PkBackendCall.inline
  | PkBackendEvent.call c => c.inline
  | _ => false

/-- The number of `finished` callbacks that an event schedules, for the events that do not
go through `pk_backend_not_implemented_yet` and are not the callback itself (`none` for
these): the closing calls among the calls of the entry for a role operation, none for a
cancel whose hook makes quiet calls only, none for a line of the helper, one for the exit
of the helper. -/
def PkBackendEvent.schedules (desc : PkBackendDesc) : PkBackendEvent → Option Nat
  | PkBackendEvent.operation op =>
    match desc.calls op with
    | none => none
    | some calls =>
      if calls.any PkBackendCall.inline then none
      else some (calls.filter PkBackendCall.closing).length
  | PkBackendEvent.cancel_job_try =>
    match desc.cancel_job_try with
    | none => none
    | some calls => if calls.all PkBackendCall.quiet then some 0 else none
  | PkBackendEvent.stdout _ => some 0
  | PkBackendEvent.stderr _ => some 0
  | PkBackendEvent.spawn_finished _ => some 1
  | PkBackendEvent.finished_delay => none
  | PkBackendEvent.call c => if c.inline then none else some (if c.closing then 1 else 0)

/-- Whether every `timeout_add` among the effects comes right after a
`thread_list_wait`; `joined` tells whether the effect just before the list is one. -/
def pk_joined : Bool → List PkBackendEffect → Bool
  | _, [] => true
  | joined, PkBackendEffect.timeout_add _ :: rest => joined && pk_joined false rest
  | _, PkBackendEffect.thread_list_wait :: rest => pk_joined true rest
  | _, _ :: rest => pk_joined false rest

/-- Two role operations that the plugin of `pk_example_desc` does not have. -/
def pk_example_two_absent : List PkBackendEvent :=
  [PkBackendEvent.operation PkBackendOperation.get_updates,
   PkBackendEvent.operation PkBackendOperation.update_system]

/-- A search whose helper writes a package line, a percentage and exits with code 0,
before the scheduled callback. -/
def pk_example_search : List PkBackendEvent :=
  [PkBackendEvent.operation (PkBackendOperation.search_name "none" "foo"),
   PkBackendEvent.stdout "package\t1\tfoo;1.0;i386;fedora\tThe foo package",
   PkBackendEvent.stderr "percentage\t50"]

/-- The engine at the end of `pk_example_search` and of the exit of the helper. -/
def pk_example_searched : PkBackend :=
  { pk_example_busy with
    spawn := false, is_killable := false, last_subpercentage := 50,
    last_package := some "foo;1.0;i386;fedora" }

/-- The effects of `pk_example_search` and of the exit of the helper with code 0, in
order. -/
def pk_example_search_effects : List PkBackendEffect :=
  [PkBackendEffect.desc_call PkBackendEntry.search_name,
   PkBackendEffect.emit (PkBackendSignal.job_status_changed PkStatusEnum.PK_STATUS_ENUM_QUERY),
   PkBackendEffect.spawn_command "/usr/share/PackageKit/helpers/dummy/search-name.py none foo",
   PkBackendEffect.emit (PkBackendSignal.package 1 "foo;1.0;i386;fedora" "The foo package"),
   PkBackendEffect.emit (PkBackendSignal.percentage_changed 50),
   PkBackendEffect.thread_list_wait,
   PkBackendEffect.timeout_add 500]

/-! ## The getters of the saved progress -/

/-- The function `pk_backend_get_percentage`: its result and the value it stores through
`percentage`. -/
def pk_backend_get_percentage (backend : PkBackend) : Bool × Nat :=
  (true, backend.last_percentage)

/-- The function `pk_backend_get_sub_percentage`: its result and the value it stores
through `percentage`. -/
def pk_backend_get_sub_percentage (backend : PkBackend) : Bool × Nat :=
  (true, backend.last_subpercentage)

/-- The function `pk_backend_get_package`: its result and the copy it stores through
`package_id`, `none` for the copy of NULL. -/
def pk_backend_get_package (backend : PkBackend) : Bool × Option String :=
  (true, backend.last_package)

/-- An engine in the middle of a job that has reported the sub-percentage 30. -/
def pk_example_sub_30 : PkBackend :=
  { pk_example_busy with last_subpercentage := 30 }

/-! ## The commands of the helper streams -/

/-- The number of sections that `pk_backend_parse_common_output` demands of a line with
the given command, `none` for a command that it does not know. -/
def pk_output_sections (command : String) : Option Nat :=
  if command = "package" then some 4
  else if command = "description" then some 6
  else none

/-- The number of sections that `pk_backend_parse_common_error` demands of a line with the
given command, `none` for a command that it does not know. -/
def pk_error_sections (command : String) : Option Nat :=
  if command = "percentage" then some 2
  else if command = "subpercentage" then some 2
  else if command = "error" then some 3
  else if command = "requirerestart" then some 3
  else if command = "status" then some 2
  else if command = "allow-interrupt" then some 2
  else if command = "no-percentage-updates" then some 1
  else none

/-! ## What the engine keeps -/

/-- The package identifier of the last `package` signal among the effects, `last` when
there is none. -/
def pk_last_package : Option String → List PkBackendEffect → Option String
  | last, [] => last
  | _, PkBackendEffect.emit (PkBackendSignal.package _ package _) :: rest =>
    pk_last_package (some package) rest
  | last, _ :: rest => pk_last_package last rest

/-- How the fields `role`, `package_id`, `assigned`, `is_killable` and `last_package` of
an engine `b` relate to those of the engine `b'` that it becomes with the given effects:
a role that is set stays, with its identifier; `assigned` is not set while the role is
unknown; `is_killable` stays when no `allow-interrupt` is emitted; `last_package` follows
the `package` signals. -/
def PkFrame (b : PkBackend) (effects : List PkBackendEffect) (b' : PkBackend) : Prop :=
  (b.role ≠ PkRoleEnum.PK_ROLE_ENUM_UNKNOWN →
    b'.role = b.role ∧ b'.package_id = b.package_id) ∧
  (b'.assigned = true → b.assigned = true ∨ b'.role ≠ PkRoleEnum.PK_ROLE_ENUM_UNKNOWN) ∧
  (PkBackendEffect.emit PkBackendSignal.allow_interrupt ∉ effects →
    b'.is_killable = b.is_killable) ∧
  b'.last_package = pk_last_package b.last_package effects

instance (b : PkBackend) (effects : List PkBackendEffect) (b' : PkBackend) :
    Decidable (PkFrame b effects b') := by
  unfold PkFrame
  infer_instance

/-- A search whose helper allows to be interrupted and then exits with code 0, before the
scheduled callback. -/
def pk_example_interruptible_search : List PkBackendEvent :=
  [PkBackendEvent.operation (PkBackendOperation.search_name "none" "foo"),
   PkBackendEvent.stderr "allow-interrupt\ttrue",
   PkBackendEvent.spawn_finished 0,
   PkBackendEvent.finished_delay]

/-- The engine at the end of `pk_example_interruptible_search`. -/
def pk_example_interrupted : PkBackend :=
  { pk_example_busy with spawn := false, is_killable := true }

/-- The effects of `pk_example_interruptible_search`, in order. -/
def pk_example_interruptible_effects : List PkBackendEffect :=
  [PkBackendEffect.desc_call PkBackendEntry.search_name,
   PkBackendEffect.emit (PkBackendSignal.job_status_changed PkStatusEnum.PK_STATUS_ENUM_QUERY),
   PkBackendEffect.spawn_command "/usr/share/PackageKit/helpers/dummy/search-name.py none foo",
   PkBackendEffect.emit PkBackendSignal.allow_interrupt,
   PkBackendEffect.thread_list_wait,
   PkBackendEffect.timeout_add 500,
   PkBackendEffect.emit (PkBackendSignal.finished PkExitEnum.PK_EXIT_ENUM_SUCCESS)]

/-! ## The canonical line of a signal -/

/-- Modelled from the spec: the names of the enumerated values, `pk_group_enum_to_text`
... `pk_status_enum_to_text` of `pk-enum.c`, which is not among the sources; the spec's
canonical form of an event writes an enumerated value by its name. -/
structure PkBackendText where
  pk_group_enum_to_text : PkGroupEnum → String
  pk_error_enum_to_text : PkErrorCodeEnum → String
  pk_restart_enum_to_text : PkRestartEnum → String
  pk_status_enum_to_text : PkStatusEnum → String

/-- The decimal numeral of a number, without sign, blanks or leading zeros. -/
def pk_decimal (n : Nat) : String :=
  String.mk (Nat.toDigits 10 n)

/-- The fields joined by the delimiter. -/
def pk_join (delimiter : Char) : List (List Char) → List Char
  | [] => []
  | [field] => field
  | field :: rest => field ++ delimiter :: pk_join delimiter rest

/-- The line `<field0><TAB><field1><TAB>...` of the given fields. -/
def pk_render_fields (fields : List String) : String :=
  String.mk (pk_join (Char.ofNat 9) (fields.map String.data))

/-- The canonical form of a signal as the spec words it for the round trip, "rendering
that event back as `<command><TAB><field1><TAB>...`": the command of the helper line that
stands for the signal, then the values of the signal in the order of the line, numbers in
decimal and enumerated values by name.  `none` for the signals that no helper line stands
for, and for `allow-interrupt`, which is emitted without the flag of its line. -/
def pk_render (text : PkBackendText) : PkBackendSignal → Option String
  | PkBackendSignal.package value package_id summary =>
    some (pk_render_fields ["package", pk_decimal value, package_id, summary])
  | PkBackendSignal.description package_id licence group description url =>
    some (pk_render_fields ["description", package_id, licence,
      text.pk_group_enum_to_text group, description, url])
  | PkBackendSignal.percentage_changed percentage =>
    some (pk_render_fields ["percentage", pk_decimal percentage])
  | PkBackendSignal.sub_percentage_changed percentage =>
    some (pk_render_fields ["subpercentage", pk_decimal percentage])
  | PkBackendSignal.error_code code buffer =>
    some (pk_render_fields ["error", text.pk_error_enum_to_text code, buffer])
  | PkBackendSignal.require_restart restart details =>
    some (pk_render_fields ["requirerestart", text.pk_restart_enum_to_text restart, details])
  | PkBackendSignal.job_status_changed status =>
    some (pk_render_fields ["status", text.pk_status_enum_to_text status])
  | PkBackendSignal.no_percentage_updates =>
    some (pk_render_fields ["no-percentage-updates"])
  | _ => none

/-- Names for the examples, for the values that `pk_example_env` knows. -/
def pk_example_text : PkBackendText :=
  { pk_group_enum_to_text := fun _ => "unknown",
    pk_error_enum_to_text := fun code =>
      match code with
      | PkErrorCodeEnum.PK_ERROR_ENUM_INTERNAL_ERROR => "internal-error"
      | PkErrorCodeEnum.PK_ERROR_ENUM_NOT_SUPPORTED => "not-supported"
      | PkErrorCodeEnum.PK_ERROR_ENUM_OTHER _ => "unknown",
    pk_restart_enum_to_text := fun _ => "none",
    pk_status_enum_to_text := fun status =>
      match status with
      | PkStatusEnum.PK_STATUS_ENUM_QUERY => "query"
      | _ => "unknown" }

/-- The command that `pk_backend_spawn_helper_internal` hands to `pk_spawn_command`: the
file name of the helper, followed by a blank and the argument when there is one. -/
def pk_spawn_command_line (env : PkBackendEnv) (backend : PkBackend) (script : String)
    (argument : Option String) : String :=
  let filename := env.g_build_filename
    ([env.DATADIR, "PackageKit", "helpers"] ++
      (match backend.name with
       | some name => [name, script]
       | none => []))
  match argument with
  | some a => filename ++ " " ++ a
  | none => filename

/-! ## The actions that a plugin advertises -/

/-- Modelled from the spec: the enumeration `PkActionEnum` is declared in `pk-enum.h`,
which is not among the sources.  The constructors carry the names under which
`pk_backend_get_actions` uses them; `PK_ACTION_ENUM_GET_UPDATE_DETAIL` is the action of
the entry `get_update_detail`, for which the spec has an operation as for the others. -/
inductive PkActionEnum where
  | PK_ACTION_ENUM_CANCEL_JOB
  | PK_ACTION_ENUM_GET_DEPENDS
  | PK_ACTION_ENUM_GET_DESCRIPTION
  | PK_ACTION_ENUM_GET_REQUIRES
  | PK_ACTION_ENUM_GET_UPDATES
  | PK_ACTION_ENUM_INSTALL_PACKAGE
  | PK_ACTION_ENUM_REFRESH_CACHE
  | PK_ACTION_ENUM_REMOVE_PACKAGE
  | PK_ACTION_ENUM_SEARCH_DETAILS
  | PK_ACTION_ENUM_SEARCH_FILE
  | PK_ACTION_ENUM_SEARCH_GROUP
  | PK_ACTION_ENUM_SEARCH_NAME
  | PK_ACTION_ENUM_UPDATE_PACKAGE
  | PK_ACTION_ENUM_UPDATE_SYSTEM
  | PK_ACTION_ENUM_GET_UPDATE_DETAIL
  deriving DecidableEq, Repr

/-- Modelled from the spec: `pk_enum_list_append` (`pk-enum-list.c`, not among the
sources) adds a value at the end of the list. -/
def pk_enum_list_append (elist : List PkActionEnum) (value : PkActionEnum) :
    List PkActionEnum :=
  elist ++ [value]

/-- One statement `if (backend->desc->entry != NULL) pk_enum_list_append (elist, value);`
of `pk_backend_get_actions`, as the list it leaves. -/
def pk_enum_list_append_if (present : Bool) (value : PkActionEnum)
    (elist : List PkActionEnum) : List PkActionEnum :=
  if present then pk_enum_list_append elist value else elist

/-- The function `pk_backend_get_actions`: the statements of the source in their order,
from the empty list of `pk_enum_list_new`. -/
def pk_backend_get_actions (desc : PkBackendDesc) : List PkActionEnum :=
  ([] : List PkActionEnum)
    |> pk_enum_list_append_if desc.cancel_job_try.isSome PkActionEnum.PK_ACTION_ENUM_CANCEL_JOB
    |> pk_enum_list_append_if desc.get_depends.isSome PkActionEnum.PK_ACTION_ENUM_GET_DEPENDS
    |> pk_enum_list_append_if desc.get_description.isSome PkActionEnum.PK_ACTION_ENUM_GET_DESCRIPTION
    |> pk_enum_list_append_if desc.get_requires.isSome PkActionEnum.PK_ACTION_ENUM_GET_REQUIRES
    |> pk_enum_list_append_if desc.get_updates.isSome PkActionEnum.PK_ACTION_ENUM_GET_UPDATES
    |> pk_enum_list_append_if desc.install_package.isSome PkActionEnum.PK_ACTION_ENUM_INSTALL_PACKAGE
    |> pk_enum_list_append_if desc.refresh_cache.isSome PkActionEnum.PK_ACTION_ENUM_REFRESH_CACHE
    |> pk_enum_list_append_if desc.remove_package.isSome PkActionEnum.PK_ACTION_ENUM_REMOVE_PACKAGE
    |> pk_enum_list_append_if desc.search_details.isSome PkActionEnum.PK_ACTION_ENUM_SEARCH_DETAILS
    |> pk_enum_list_append_if desc.search_file.isSome PkActionEnum.PK_ACTION_ENUM_SEARCH_FILE
    |> pk_enum_list_append_if desc.search_group.isSome PkActionEnum.PK_ACTION_ENUM_SEARCH_GROUP
    |> pk_enum_list_append_if desc.search_name.isSome PkActionEnum.PK_ACTION_ENUM_SEARCH_NAME
    |> pk_enum_list_append_if desc.update_package.isSome PkActionEnum.PK_ACTION_ENUM_UPDATE_PACKAGE
    |> pk_enum_list_append_if desc.update_system.isSome PkActionEnum.PK_ACTION_ENUM_UPDATE_SYSTEM

/-- The action that stands for an entry of the descriptor, by its name; `none` for the
entries that are no operations. -/
def PkBackendEntry.action : PkBackendEntry → Option PkActionEnum
  | PkBackendEntry.cancel_job_try => some PkActionEnum.PK_ACTION_ENUM_CANCEL_JOB
  | PkBackendEntry.get_depends => some PkActionEnum.PK_ACTION_ENUM_GET_DEPENDS
  | PkBackendEntry.get_description => some PkActionEnum.PK_ACTION_ENUM_GET_DESCRIPTION
  | PkBackendEntry.get_requires => some PkActionEnum.PK_ACTION_ENUM_GET_REQUIRES
  | PkBackendEntry.get_updates => some PkActionEnum.PK_ACTION_ENUM_GET_UPDATES
  | PkBackendEntry.install_package => some PkActionEnum.PK_ACTION_ENUM_INSTALL_PACKAGE
  | PkBackendEntry.refresh_cache => some PkActionEnum.PK_ACTION_ENUM_REFRESH_CACHE
  | PkBackendEntry.remove_package => some PkActionEnum.PK_ACTION_ENUM_REMOVE_PACKAGE
  | PkBackendEntry.search_details => some PkActionEnum.PK_ACTION_ENUM_SEARCH_DETAILS
  | PkBackendEntry.search_file => some PkActionEnum.PK_ACTION_ENUM_SEARCH_FILE
  | PkBackendEntry.search_group => some PkActionEnum.PK_ACTION_ENUM_SEARCH_GROUP
  | PkBackendEntry.search_name => some PkActionEnum.PK_ACTION_ENUM_SEARCH_NAME
  | PkBackendEntry.update_package => some PkActionEnum.PK_ACTION_ENUM_UPDATE_PACKAGE
  | PkBackendEntry.update_system => some PkActionEnum.PK_ACTION_ENUM_UPDATE_SYSTEM
  | PkBackendEntry.get_update_detail => some PkActionEnum.PK_ACTION_ENUM_GET_UPDATE_DETAIL
  | _ => none

/-- The plugin of `pk_example_desc` with an entry for `get_update_detail`. -/
def pk_example_desc_detail : PkBackendDesc :=
  { pk_example_desc with get_update_detail := some (fun _ => []) }

/-! ## The task (`src/pk-task-common.c`) -/

/-- The enumeration `PkTaskStatus`, declared in a header that is not among the sources,
with the values that `pk-task-common.c` names. -/
inductive PkTaskStatus where
  | PK_TASK_STATUS_INVALID
  | PK_TASK_STATUS_SETUP
  | PK_TASK_STATUS_QUERY
  | PK_TASK_STATUS_REMOVE
  | PK_TASK_STATUS_DOWNLOAD
  | PK_TASK_STATUS_INSTALL
  | PK_TASK_STATUS_UPDATE
  | PK_TASK_STATUS_EXIT
  deriving DecidableEq, Repr

/-- The enumeration `PkTaskExit`, declared in a header that is not among the sources, with
the values that `pk-task-common.c` names. -/
inductive PkTaskExit where
  | PK_TASK_EXIT_SUCCESS
  | PK_TASK_EXIT_FAILED
  | PK_TASK_EXIT_CANCELED
  | PK_TASK_EXIT_UNKNOWN
  deriving DecidableEq, Repr

/-- The fields of the object `PkTask` (`pk-task.h`, not among the sources) that
`pk-task-common.c` reads and writes; `package` is `none` for NULL. -/
structure PkTask where
  assigned : Bool
  status : PkTaskStatus
  exit : PkTaskExit
  job : Nat
  package : Option String
  deriving DecidableEq, Repr

/-- The function `pk_task_assign`: the task it leaves and its result. -/
def pk_task_assign (task : PkTask) : PkTask × Bool :=
  -- check to see if we already have an action
  if task.assigned = true then (task, false)
  else ({ task with assigned := true }, true)

/-- The function `pk_task_get_job_status`: its result and the content of `*status` when it
returns, `status` being the content at the call. -/
def pk_task_get_job_status (task : PkTask) (status : PkTaskStatus) : Bool × PkTaskStatus :=
  -- check to see if we have an action
  if task.assigned = false then (false, status)
  else (true, task.status)

/-- The function `pk_task_clear`: the task it leaves and its result. -/
def pk_task_clear (task : PkTask) : PkTask × Bool :=
  ({ task with
     assigned := false,
     status := PkTaskStatus.PK_TASK_STATUS_INVALID,
     exit := PkTaskExit.PK_TASK_EXIT_UNKNOWN,
     job := 1,
     package := none }, true)

/-! ## The grace timers of the list -/

/-- What the grace timers depend on in an item: its address and its `finished` flag. -/
def pk_item_grace (item : PkTransactionItem) : Nat × Bool :=
  (item.ptr, item.finished)

/-- The addresses of the finished items of the list, in the order of the array. -/
def pk_finished_items (tlist : PkTransactionList) : List Nat :=
  ((tlist.array.map pk_item_grace).filter (fun g => g.2)).map (fun g => g.1)

/-- The timers match the finished items: no timer is pending twice, and a timer is
pending for an address exactly when the array holds a finished item at that address. -/
def pk_timers_match (s : PkState) : Prop :=
  s.timeouts.Nodup ∧ ∀ p, p ∈ s.timeouts ↔ p ∈ pk_finished_items s.tlist

instance (s : PkState) : Decidable (pk_timers_match s) := by
  unfold pk_timers_match
  exact @instDecidableAnd _ _ inferInstance (decidable_of_iff
    (s.timeouts ⊆ pk_finished_items s.tlist ∧ pk_finished_items s.tlist ⊆ s.timeouts)
    ⟨fun h p => ⟨fun hp => h.1 hp, fun hp => h.2 hp⟩,
     fun h => ⟨fun p hp => (h p).mp hp, fun p hp => (h p).mpr hp⟩⟩)

/-! ## A start that fails -/

/-- An event that leaves the item of `tid` in the list and unfinished: any event but the
`finished` signal of the transaction with that TID and the removal of that TID. -/
def PkEvent.spares (tid : String) : PkEvent → Prop
  | PkEvent.finished transaction _ => transaction.tid ≠ tid
  | PkEvent.remove t => t ≠ tid
  | _ => True

instance (tid : String) (e : PkEvent) : Decidable (e.spares tid) := by
  cases e <;> simp only [PkEvent.spares] <;> infer_instance

/-- The oracle of a `pk_transaction_run` that always fails. -/
def pk_run_fails : Nat → Bool := fun _ => false

/-- The new item of `/1_aaaa` at address 1. -/
def pk_example_item_a : PkTransactionItem := pk_new_item "/1_aaaa" 1

/-- The new item of `/2_bbbb` at address 2. -/
def pk_example_item_b : PkTransactionItem := pk_new_item "/2_bbbb" 2

/-- The state after `/1_aaaa` and `/2_bbbb` were created. -/
def pk_example_two_created : PkState :=
  { tlist := ⟨[pk_example_item_a, pk_example_item_b]⟩, timeouts := [] }

/-! ## Lemmas on the loops -/

theorem pk_number_running_loop_eq (array : List PkTransactionItem) (count : Nat) :
    pk_transaction_list_number_running_loop array count
      = count + array.countP pk_item_in_progress := by
  induction array generalizing count with
  | nil => simp [pk_transaction_list_number_running_loop]
  | cons item rest ih =>
    by_cases h : pk_item_in_progress item = true
    · have h' : (item.committed && item.running && !item.finished) = true := h
      simp [pk_transaction_list_number_running_loop, h', ih, List.countP_cons, h]
      omega
    · have h' : ¬ (item.committed && item.running && !item.finished) = true := h
      simp [pk_transaction_list_number_running_loop, h', ih, List.countP_cons, h]

theorem pk_number_running_eq (tlist : PkTransactionList) :
    pk_transaction_list_number_running tlist = tlist.array.countP pk_item_in_progress := by
  simp [pk_transaction_list_number_running, pk_number_running_loop_eq]

theorem pk_get_array_loop_eq (array : List PkTransactionItem) (parray : List String) :
    pk_transaction_list_get_array_loop array parray
      = parray ++ (array.filter (fun i => i.committed && !i.finished)).map (fun i => i.tid) := by
  induction array generalizing parray with
  | nil => simp [pk_transaction_list_get_array_loop]
  | cons item rest ih =>
    by_cases h : (item.committed && !item.finished) = true
    · simp [pk_transaction_list_get_array_loop, h, ih, List.filter_cons]
    · simp [pk_transaction_list_get_array_loop, h, ih, List.filter_cons]

theorem pk_get_array_eq (tlist : PkTransactionList) :
    pk_transaction_list_get_array tlist
      = (tlist.array.filter (fun i => i.committed && !i.finished)).map (fun i => i.tid) := by
  simp [pk_transaction_list_get_array, pk_ptr_array_to_argv, pk_get_array_loop_eq]

theorem pk_role_present_loop_iff (role : PkRoleEnum) (array : List PkTransactionItem) :
    pk_transaction_list_role_present_loop role array = true ↔
      ∃ item ∈ array, item.finished = false ∧
        ∃ t, item.transaction = some t ∧ t.role = role := by
  induction array with
  | nil => simp [pk_transaction_list_role_present_loop]
  | cons item rest ih =>
    unfold pk_transaction_list_role_present_loop
    by_cases hf : item.finished = true
    · simp [hf, ih]
    · cases ht : item.transaction with
      | none => simp [hf, ht, ih]
      | some t =>
        by_cases hr : t.role = role
        · simp [hf, ht, hr, pk_transaction_priv_get_role]
        · simp [hf, ht, hr, ih, pk_transaction_priv_get_role]

/-- The lookup splits the array at the item it returns. -/
theorem pk_get_from_tid_split (tlist : PkTransactionList) (tid : String)
    (item : PkTransactionItem) (h : pk_transaction_list_get_from_tid tlist tid = some item) :
    ∃ pre post, tlist.array = pre ++ item :: post ∧
      (∀ x ∈ pre, pk_tid_matches tid x = false) ∧ pk_tid_matches tid item = true := by
  unfold pk_transaction_list_get_from_tid at h
  generalize tlist.array = array at h
  induction array with
  | nil => simp at h
  | cons x rest ih =>
    by_cases hx : pk_tid_matches tid x = true
    · simp [List.find?_cons, hx] at h
      subst h
      exact ⟨[], rest, rfl, by simp, hx⟩
    · simp [List.find?_cons, hx] at h
      obtain ⟨pre, post, h1, h2, h3⟩ := ih h
      refine ⟨x :: pre, post, by simp [h1], ?_, h3⟩
      intro y hy
      rcases List.mem_cons.mp hy with rfl | hy
      · simpa using hx
      · exact h2 y hy

theorem pk_find_of_split (tid : String) (pre post : List PkTransactionItem)
    (item : PkTransactionItem) (hpre : ∀ x ∈ pre, pk_tid_matches tid x = false)
    (hitem : pk_tid_matches tid item = true) :
    (pre ++ item :: post).find? (pk_tid_matches tid) = some item := by
  induction pre with
  | nil => simp [List.find?_cons, hitem]
  | cons x pre ih =>
    have hx : pk_tid_matches tid x = false := hpre x (by simp)
    simp only [List.cons_append, List.find?_cons, hx]
    exact ih (fun y hy => hpre y (by simp [hy]))

theorem pk_find_none_of_all (tid : String) (array : List PkTransactionItem)
    (h : ∀ x ∈ array, pk_tid_matches tid x = false) :
    array.find? (pk_tid_matches tid) = none := by
  simp only [List.find?_eq_none]
  intro x hx
  simp [h x hx]

theorem pk_item_write_split (tid : String) (f : PkTransactionItem → PkTransactionItem)
    (pre post : List PkTransactionItem) (item : PkTransactionItem)
    (hpre : ∀ x ∈ pre, pk_tid_matches tid x = false)
    (hitem : pk_tid_matches tid item = true) :
    pk_item_write tid f (pre ++ item :: post) = pre ++ f item :: post := by
  induction pre with
  | nil => simp [pk_item_write, hitem]
  | cons x pre ih =>
    have hx : pk_tid_matches tid x = false := hpre x (by simp)
    simp only [List.cons_append, pk_item_write, hx]
    simp [ih (fun y hy => hpre y (by simp [hy]))]

theorem pk_remove_split (pre post : List PkTransactionItem) (item : PkTransactionItem)
    (hpre : ∀ x ∈ pre, x.ptr ≠ item.ptr) :
    g_ptr_array_remove (pre ++ item :: post) item.ptr = (pre ++ post, true) := by
  induction pre with
  | nil => simp [g_ptr_array_remove]
  | cons x pre ih =>
    have hx : x.ptr ≠ item.ptr := hpre x (by simp)
    have hrec := ih (fun y hy => hpre y (by simp [hy]))
    simp [g_ptr_array_remove, hx, hrec]

theorem pk_remove_absent (array : List PkTransactionItem) (p : Nat)
    (h : ∀ x ∈ array, x.ptr ≠ p) : g_ptr_array_remove array p = (array, false) := by
  induction array with
  | nil => simp [g_ptr_array_remove]
  | cons x rest ih =>
    have hx : x.ptr ≠ p := h x (by simp)
    simp only [g_ptr_array_remove, hx, if_false]
    rw [ih (fun y hy => h y (by simp [hy]))]

theorem pk_remove_found (array : List PkTransactionItem) (p : Nat)
    (h : ∃ x ∈ array, x.ptr = p) : (g_ptr_array_remove array p).2 = true := by
  induction array with
  | nil => simp at h
  | cons x rest ih =>
    by_cases hx : x.ptr = p
    · simp [g_ptr_array_remove, hx]
    · simp only [g_ptr_array_remove, hx, if_false]
      apply ih
      obtain ⟨y, hy, hyp⟩ := h
      rcases List.mem_cons.mp hy with rfl | hy
      · exact absurd hyp hx
      · exact ⟨y, hy, hyp⟩

theorem pk_remove_sublist (array : List PkTransactionItem) (p : Nat) :
    (g_ptr_array_remove array p).1.Sublist array := by
  induction array with
  | nil => simp [g_ptr_array_remove]
  | cons x rest ih =>
    by_cases hx : x.ptr = p
    · simp [g_ptr_array_remove, hx]
    · simp only [g_ptr_array_remove, hx, if_false]
      exact ih.cons₂ x

theorem pk_remove_internal_sublist (tlist : PkTransactionList) (p : Nat) :
    (pk_transaction_list_remove_internal tlist p).1.array.Sublist tlist.array := by
  unfold pk_transaction_list_remove_internal
  by_cases h : (g_ptr_array_remove tlist.array p).2 = true
  · simp [h, pk_remove_sublist]
  · simp [h]

theorem pk_remove_list_sublist (tlist : PkTransactionList) (tid : String) :
    (pk_transaction_list_remove tlist tid).1.array.Sublist tlist.array := by
  unfold pk_transaction_list_remove
  cases hl : pk_transaction_list_get_from_tid tlist tid with
  | none => simp
  | some item =>
    by_cases hf : item.finished = true
    · simp [hf]
    · simp [hf, pk_remove_internal_sublist]

/-! ## Queries: `role_present` and `get_array` -/

/-- C3, as stated, fails: in the list `pk_example_uncommitted` the only item is not
committed, yet `pk_transaction_list_role_present` answers true for its role, although no
item is committed, not finished and of that role. -/
theorem role_present_counts_uncommitted :
    ¬ (pk_transaction_list_role_present pk_example_uncommitted
          PkRoleEnum.PK_ROLE_ENUM_SYSTEM_UPDATE = true ↔
        ∃ item ∈ pk_example_uncommitted.array,
          item.committed = true ∧ item.finished = false ∧
            ∃ t, item.transaction = some t ∧ t.role = PkRoleEnum.PK_ROLE_ENUM_SYSTEM_UPDATE) := by
  intro h
  have hp : pk_transaction_list_role_present pk_example_uncommitted
      PkRoleEnum.PK_ROLE_ENUM_SYSTEM_UPDATE = true := by decide
  obtain ⟨item, hmem, hc, _⟩ := h.mp hp
  simp only [pk_example_uncommitted, List.mem_singleton] at hmem
  subst hmem
  simp at hc

/-- C3, amended: for every list and every role, `pk_transaction_list_role_present`
answers true if and only if the array holds an item that is not finished and whose
transaction is set and has that role; whether the item is committed plays no part. -/
theorem role_present_iff_unfinished_item_with_role (tlist : PkTransactionList)
    (role : PkRoleEnum) :
    pk_transaction_list_role_present tlist role = true ↔
      ∃ item ∈ tlist.array, item.finished = false ∧
        ∃ t, item.transaction = some t ∧ t.role = role := by
  unfold pk_transaction_list_role_present
  exact pk_role_present_loop_iff role tlist.array

/-- C4: for every list, `pk_transaction_list_get_array` returns the TIDs of the items that
are committed and not finished, one per such item and in the order of the array; it is
empty when every item is uncommitted or finished. -/
theorem get_array_lists_committed_unfinished (tlist : PkTransactionList) :
    pk_transaction_list_get_array tlist
        = (tlist.array.filter (fun i => i.committed && !i.finished)).map (fun i => i.tid) ∧
      ((∀ item ∈ tlist.array, item.committed = false ∨ item.finished = true) →
        pk_transaction_list_get_array tlist = []) := by
  refine ⟨pk_get_array_eq tlist, ?_⟩
  intro h
  rw [pk_get_array_eq]
  simp only [List.map_eq_nil_iff, List.filter_eq_nil_iff]
  intro item hitem
  rcases h item hitem with hc | hf
  · simp [hc]
  · simp [hf]

/-! ## `create` -/

/-- C5: for every list and every TID that the lookup finds in it, `create` returns FALSE
and leaves the list as it is, whatever the allocator and the bus would have answered. -/
theorem create_existing_tid_refused (tlist : PkTransactionList) (tid : String) (item : Nat)
    (connection set_tid : Bool) (existing : PkTransactionItem)
    (h : pk_transaction_list_get_from_tid tlist tid = some existing) :
    pk_transaction_list_create tlist tid item connection set_tid = some (tlist, false) := by
  simp [pk_transaction_list_create, h]

/-- Witness of C5: creating `/2_bbbb` again in `pk_example_three`. -/
theorem create_existing_tid_refused_witness :
    pk_transaction_list_create pk_example_three "/2_bbbb" 40 true true
      = some (pk_example_three, false) :=
  create_existing_tid_refused pk_example_three "/2_bbbb" 40 true true
    pk_example_queued (by decide)

/-- C6: for every list and every TID that the lookup does not find, `create` (with the
system bus available and `pk_transaction_set_tid` succeeding, the two conditions without
which the process is terminated) returns TRUE and appends one item with that TID and all
three flags false: the size grows by one, the lookup finds the new item, every other
lookup and every existing item is unchanged, and `get_array` returns what it did before. -/
theorem create_fresh_tid_appends (tlist : PkTransactionList) (tid : String) (item : Nat)
    (h : pk_transaction_list_get_from_tid tlist tid = none) :
    ∃ tlist', pk_transaction_list_create tlist tid item true true = some (tlist', true) ∧
      tlist'.array = tlist.array ++ [pk_new_item tid item] ∧
      (pk_new_item tid item).tid = tid ∧
      (pk_new_item tid item).committed = false ∧
      (pk_new_item tid item).running = false ∧
      (pk_new_item tid item).finished = false ∧
      pk_transaction_list_get_size tlist' = pk_transaction_list_get_size tlist + 1 ∧
      pk_transaction_list_get_from_tid tlist' tid = some (pk_new_item tid item) ∧
      (∀ other, other ≠ tid →
        pk_transaction_list_get_from_tid tlist' other
          = pk_transaction_list_get_from_tid tlist other) ∧
      tlist'.array.take (pk_transaction_list_get_size tlist) = tlist.array ∧
      pk_transaction_list_get_array tlist' = pk_transaction_list_get_array tlist := by
  refine ⟨⟨tlist.array ++ [pk_new_item tid item]⟩, ?_, rfl, rfl, rfl, rfl, rfl, ?_, ?_, ?_, ?_, ?_⟩
  · simp [pk_transaction_list_create, h, pk_new_item]
  · simp [pk_transaction_list_get_size]
  · unfold pk_transaction_list_get_from_tid at h ⊢
    simp [List.find?_append, h, pk_new_item, pk_tid_matches, egg_strequal,
      pk_transaction_get_tid]
  · intro other hne
    unfold pk_transaction_list_get_from_tid
    have hno : pk_tid_matches other (pk_new_item tid item) = false := by
      simp [pk_new_item, pk_tid_matches, egg_strequal, pk_transaction_get_tid]
      exact fun h => hne h.symm
    simp [List.find?_append, hno]
  · simp [pk_transaction_list_get_size]
  · simp [pk_get_array_eq, List.filter_append, pk_new_item]

/-- Witness of C6: creating `/4_dddd` in `pk_example_three`. -/
theorem create_fresh_tid_appends_witness :
    ∃ tlist', pk_transaction_list_create pk_example_three "/4_dddd" 40 true true
        = some (tlist', true) ∧
      tlist'.array = pk_example_three.array ++ [pk_new_item "/4_dddd" 40] ∧
      pk_transaction_list_get_size tlist' = 4 := by
  obtain ⟨tlist', h1, h2, _, _, _, _, h3, _⟩ :=
    create_fresh_tid_appends pk_example_three "/4_dddd" 40 (by decide)
  exact ⟨tlist', h1, h2, h3⟩

/-! ## `remove` -/

/-- C7: in a list of distinct heap objects, for every TID whose item the lookup finds and
which is not finished (committed or not, running or not), `remove` returns TRUE and
deletes exactly that item, the first one with the TID: the items before and after it stay
in their order and the size drops by one.  And `create` of a TID that is not in the list,
at an address that is not in the array, followed by `remove` of that TID gives the list
back. -/
theorem remove_unfinished_deletes_item (tlist : PkTransactionList) (tid : String) :
    (∀ item, pk_distinct_items tlist →
      pk_transaction_list_get_from_tid tlist tid = some item → item.finished = false →
      ∃ pre post, tlist.array = pre ++ item :: post ∧
        (∀ x ∈ pre, pk_tid_matches tid x = false) ∧
        pk_transaction_list_remove tlist tid = (⟨pre ++ post⟩, true) ∧
        pk_transaction_list_get_size (pk_transaction_list_remove tlist tid).1 + 1
          = pk_transaction_list_get_size tlist) ∧
    (∀ item, pk_transaction_list_get_from_tid tlist tid = none →
      (∀ x ∈ tlist.array, x.ptr ≠ item) →
      ∃ tlist', pk_transaction_list_create tlist tid item true true = some (tlist', true) ∧
        pk_transaction_list_remove tlist' tid = (tlist, true)) := by
  constructor
  · intro item hd hfind hfin
    obtain ⟨pre, post, harr, hpre, hitem⟩ := pk_get_from_tid_split tlist tid item hfind
    have hptr : ∀ x ∈ pre, x.ptr ≠ item.ptr := by
      intro x hx heq
      have hnd : ((pre ++ item :: post).map (fun i => i.ptr)).Nodup := by
        have := hd
        unfold pk_distinct_items at this
        rwa [harr] at this
      rw [List.map_append, List.nodup_append] at hnd
      exact hnd.2.2 (List.mem_map_of_mem _ hx) (by simp [heq])
    have hrem : pk_transaction_list_remove tlist tid = (⟨pre ++ post⟩, true) := by
      simp [pk_transaction_list_remove, hfind, hfin, pk_transaction_list_remove_internal,
        harr, pk_remove_split pre post item hptr]
    refine ⟨pre, post, harr, hpre, hrem, ?_⟩
    rw [hrem]
    simp [pk_transaction_list_get_size, harr]
    omega
  · intro item hfind hfresh
    refine ⟨⟨tlist.array ++ [pk_new_item tid item]⟩, ?_, ?_⟩
    · simp [pk_transaction_list_create, hfind, pk_new_item]
    · have hmatch : pk_tid_matches tid (pk_new_item tid item) = true := by
        simp [pk_new_item, pk_tid_matches, egg_strequal, pk_transaction_get_tid]
      have hpre : ∀ x ∈ tlist.array, pk_tid_matches tid x = false := by
        intro x hx
        unfold pk_transaction_list_get_from_tid at hfind
        have := List.find?_eq_none.mp hfind x hx
        simpa using this
      have hlook : pk_transaction_list_get_from_tid
          ⟨tlist.array ++ [pk_new_item tid item]⟩ tid = some (pk_new_item tid item) := by
        unfold pk_transaction_list_get_from_tid
        exact pk_find_of_split tid tlist.array [] (pk_new_item tid item) hpre hmatch
      have hrem := pk_remove_split tlist.array [] (pk_new_item tid item)
        (fun x hx => by simpa [pk_new_item] using hfresh x hx)
      have hptr : (pk_new_item tid item).ptr = item := rfl
      rw [hptr] at hrem
      have hfin : (pk_new_item tid item).finished = false := rfl
      simp [pk_transaction_list_remove, hlook, hfin, hptr,
        pk_transaction_list_remove_internal, hrem]

/-- Witness of C7: removing the queued item `/2_bbbb` from `pk_example_three`, and creating
then removing `/4_dddd`. -/
theorem remove_unfinished_deletes_item_witness :
    (∃ pre post, pk_example_three.array = pre ++
        pk_example_queued :: post ∧
      pk_transaction_list_remove pk_example_three "/2_bbbb" = (⟨pre ++ post⟩, true)) ∧
    (∃ tlist', pk_transaction_list_create pk_example_three "/4_dddd" 40 true true
        = some (tlist', true) ∧
      pk_transaction_list_remove tlist' "/4_dddd" = (pk_example_three, true)) := by
  constructor
  · obtain ⟨pre, post, h1, _, h2, _⟩ :=
      (remove_unfinished_deletes_item pk_example_three "/2_bbbb").1
        pk_example_queued
        (by decide) (by decide) rfl
    exact ⟨pre, post, h1, h2⟩
  · exact (remove_unfinished_deletes_item pk_example_three "/4_dddd").2 40
      (by decide) (by decide)

/-- C8: `remove` returns FALSE and leaves the list as it is whenever the lookup does not
find the TID or finds an item that is already finished; and `remove` returns TRUE if and
only if the lookup finds an item that is not finished. -/
theorem remove_refused_unless_unfinished (tlist : PkTransactionList) (tid : String) :
    ((pk_transaction_list_get_from_tid tlist tid = none ∨
        ∃ item, pk_transaction_list_get_from_tid tlist tid = some item ∧
          item.finished = true) →
      pk_transaction_list_remove tlist tid = (tlist, false)) ∧
    ((pk_transaction_list_remove tlist tid).2 = true ↔
      ∃ item, pk_transaction_list_get_from_tid tlist tid = some item ∧
        item.finished = false) := by
  constructor
  · rintro (h | ⟨item, h, hf⟩)
    · simp [pk_transaction_list_remove, h]
    · simp [pk_transaction_list_remove, h, hf]
  · cases hfind : pk_transaction_list_get_from_tid tlist tid with
    | none => simp [pk_transaction_list_remove, hfind]
    | some item =>
      by_cases hf : item.finished = true
      · simp [pk_transaction_list_remove, hfind, hf]
      · have hmem : ∃ x ∈ tlist.array, x.ptr = item.ptr := by
          obtain ⟨pre, post, harr, _, _⟩ := pk_get_from_tid_split tlist tid item hfind
          exact ⟨item, by simp [harr], rfl⟩
        have hfound := pk_remove_found tlist.array item.ptr hmem
        simp [pk_transaction_list_remove, hfind, hf, pk_transaction_list_remove_internal,
          hfound]

/-! ## The dispatch loop -/

theorem pk_item_write_key (tid : String) (f : PkTransactionItem → PkTransactionItem)
    (hf : ∀ x, pk_item_key (f x) = pk_item_key x) (array : List PkTransactionItem) :
    (pk_item_write tid f array).map pk_item_key = array.map pk_item_key := by
  induction array with
  | nil => simp [pk_item_write]
  | cons x rest ih =>
    by_cases hx : pk_tid_matches tid x = true
    · simp [pk_item_write, hx, hf]
    · simp [pk_item_write, hx, ih]

theorem pk_dispatch_forget_running (run : Nat → Bool) (array : List PkTransactionItem) :
    (pk_transaction_list_dispatch run array).1.map pk_item_forget_running
      = array.map pk_item_forget_running := by
  induction array with
  | nil => simp [pk_transaction_list_dispatch]
  | cons x rest ih =>
    unfold pk_transaction_list_dispatch
    by_cases hq : (x.committed && !x.running && !x.finished) = true
    · by_cases hr : run x.ptr = true
      · simp [hq, hr, pk_item_forget_running]
      · simp [hq, hr, ih, pk_item_forget_running]
    · simp [hq, ih]

theorem pk_dispatch_none_queued (run : Nat → Bool) (array : List PkTransactionItem)
    (h : ∀ x ∈ array, pk_item_queued x = false) :
    pk_transaction_list_dispatch run array = (array, []) := by
  induction array with
  | nil => simp [pk_transaction_list_dispatch]
  | cons x rest ih =>
    have hx : (x.committed && !x.running && !x.finished) = false := h x (by simp)
    have hrec := ih (fun y hy => h y (by simp [hy]))
    simp [pk_transaction_list_dispatch, hx, hrec]

theorem pk_dispatch_first_queued (run : Nat → Bool) (pre post : List PkTransactionItem)
    (next : PkTransactionItem) (hpre : ∀ x ∈ pre, pk_item_queued x = false)
    (hnext : pk_item_queued next = true) (hrun : run next.ptr = true) :
    pk_transaction_list_dispatch run (pre ++ next :: post)
      = (pre ++ { next with running := true } :: post,
         [PkEffect.transaction_run next.ptr]) := by
  induction pre with
  | nil =>
    have hn : (next.committed && !next.running && !next.finished) = true := hnext
    simp [pk_transaction_list_dispatch, hn, hrun]
  | cons x pre ih =>
    have hx : (x.committed && !x.running && !x.finished) = false := hpre x (by simp)
    have hrec := ih (fun y hy => hpre y (by simp [hy]))
    simp [pk_transaction_list_dispatch, hx, hrec]

theorem pk_queued_split (array : List PkTransactionItem) :
    (∀ x ∈ array, pk_item_queued x = false) ∨
    ∃ pre next post, array = pre ++ next :: post ∧
      (∀ x ∈ pre, pk_item_queued x = false) ∧ pk_item_queued next = true := by
  induction array with
  | nil => left; simp
  | cons x rest ih =>
    by_cases hx : pk_item_queued x = true
    · right
      exact ⟨[], x, rest, rfl, by simp, hx⟩
    · rcases ih with h | ⟨pre, next, post, h1, h2, h3⟩
      · left
        intro y hy
        rcases List.mem_cons.mp hy with rfl | hy
        · simpa using hx
        · exact h y hy
      · right
        refine ⟨x :: pre, next, post, by simp [h1], ?_, h3⟩
        intro y hy
        rcases List.mem_cons.mp hy with rfl | hy
        · simpa using hx
        · exact h2 y hy

/-! ## The operations on a split array -/

/-- The `finished` callback on an array split at the item of the transaction. -/
theorem pk_finished_cb_split (tlist : PkTransactionList) (transaction : PkTransaction)
    (T : PkTransactionItem) (run : Nat → Bool) (pre0 post0 : List PkTransactionItem)
    (hT : pk_transaction_list_get_from_tid tlist transaction.tid = some T)
    (hfin : T.finished = false) (harr : tlist.array = pre0 ++ T :: post0)
    (hpre0 : ∀ x ∈ pre0, pk_tid_matches transaction.tid x = false)
    (hmatch : pk_tid_matches transaction.tid T = true) :
    pk_transaction_list_transaction_finished_cb transaction tlist run
      = some (⟨(pk_transaction_list_dispatch run
            (pre0 ++ { T with finished := true } :: post0)).1⟩,
          [PkEffect.changed,
           PkEffect.timeout_add_seconds PK_TRANSACTION_LIST_KEEP_FINISHED_TIMEOUT T.ptr] ++
          (pk_transaction_list_dispatch run
            (pre0 ++ { T with finished := true } :: post0)).2) := by
  have hwrite := pk_item_write_split transaction.tid (fun i => { i with finished := true })
    pre0 post0 T hpre0 hmatch
  simp only [pk_transaction_list_transaction_finished_cb, hT, hfin]
  rw [harr, hwrite]
  simp

/-- The function `commit` on an array split at the item of the TID. -/
theorem pk_commit_split (tlist : PkTransactionList) (tid : String)
    (item : PkTransactionItem) (run : Nat → Bool) (pre post : List PkTransactionItem)
    (h : pk_transaction_list_get_from_tid tlist tid = some item)
    (harr : tlist.array = pre ++ item :: post)
    (hpre : ∀ x ∈ pre, pk_tid_matches tid x = false)
    (hmatch : pk_tid_matches tid item = true) :
    pk_transaction_list_commit tlist tid run
      = if pk_transaction_list_number_running
            ⟨pre ++ { item with committed := true } :: post⟩ = 0 then
          ⟨⟨pre ++ { item with committed := true, running := true } :: post⟩,
            run item.ptr, [PkEffect.changed, PkEffect.transaction_run item.ptr]⟩
        else ⟨⟨pre ++ { item with committed := true } :: post⟩, true, [PkEffect.changed]⟩ := by
  have hw1 := pk_item_write_split tid (fun i => { i with committed := true })
    pre post item hpre hmatch
  have hmatch' : pk_tid_matches tid { item with committed := true } = true := by
    simpa [pk_tid_matches] using hmatch
  have hw2 := pk_item_write_split tid (fun i => { i with running := true })
    pre post { item with committed := true } hpre hmatch'
  simp only [pk_transaction_list_commit, h]
  rw [harr, hw1]
  by_cases hz : pk_transaction_list_number_running
      ⟨pre ++ { item with committed := true } :: post⟩ = 0
  · rw [if_pos hz, if_pos hz, hw2]
    cases run item.ptr <;> simp
  · rw [if_neg hz, if_neg hz]

theorem pk_nodup_middle_ne {α : Type} (f : PkTransactionItem → α)
    (pre post : List PkTransactionItem) (y : PkTransactionItem)
    (h : ((pre ++ y :: post).map f).Nodup) : ∀ x ∈ pre ++ post, f x ≠ f y := by
  intro x hx heq
  rw [List.map_append, List.map_cons, List.nodup_middle, List.nodup_cons] at h
  apply h.1
  rw [← List.map_append, ← heq]
  exact List.mem_map_of_mem f hx

theorem pk_well_formed_of_key_eq (a b : PkTransactionList)
    (hkey : b.array.map pk_item_key = a.array.map pk_item_key)
    (hwf : pk_well_formed a) : pk_well_formed b := by
  obtain ⟨h1, h2, h3⟩ := hwf
  have e1 : ∀ l : List PkTransactionItem,
      l.map (fun i => i.ptr) = (l.map pk_item_key).map (fun k => k.1) := by
    intro l; simp [pk_item_key]
  have e2 : ∀ l : List PkTransactionItem,
      l.map (fun i => i.tid) = (l.map pk_item_key).map (fun k => k.2.2) := by
    intro l; simp [pk_item_key]
  refine ⟨?_, ?_, ?_⟩
  · rw [e1, hkey, ← e1]; exact h1
  · rw [e2, hkey, ← e2]; exact h2
  · intro y hy
    have hmem : pk_item_key y ∈ a.array.map pk_item_key := by
      rw [← hkey]; exact List.mem_map_of_mem _ hy
    obtain ⟨x, hx, hxy⟩ := List.mem_map.mp hmem
    have := h3 x hx
    simp only [pk_item_key, Prod.mk.injEq] at hxy
    rw [← hxy.2.1, ← hxy.2.2]
    exact this

theorem pk_dispatch_key (run : Nat → Bool) (array : List PkTransactionItem) :
    (pk_transaction_list_dispatch run array).1.map pk_item_key = array.map pk_item_key := by
  have h := congrArg (List.map pk_item_key) (pk_dispatch_forget_running run array)
  simpa [List.map_map, Function.comp_def, pk_item_key, pk_item_forget_running] using h

theorem pk_dispatch_find (run : Nat → Bool) (tid : String) (array : List PkTransactionItem)
    (x : PkTransactionItem) (h : array.find? (pk_tid_matches tid) = some x) :
    ∃ y, (pk_transaction_list_dispatch run array).1.find? (pk_tid_matches tid) = some y ∧
      pk_item_forget_running y = pk_item_forget_running x := by
  have hcomp : (pk_tid_matches tid) ∘ pk_item_forget_running = pk_tid_matches tid := by
    funext i; simp [pk_tid_matches, pk_item_forget_running]
  have h1 := List.find?_map pk_item_forget_running
    (pk_transaction_list_dispatch run array).1 (p := pk_tid_matches tid)
  have h2 := List.find?_map pk_item_forget_running array (p := pk_tid_matches tid)
  rw [pk_dispatch_forget_running, h2, hcomp, h] at h1
  cases hy : (pk_transaction_list_dispatch run array).1.find? (pk_tid_matches tid) with
  | none => simp [hy] at h1
  | some y =>
    refine ⟨y, rfl, ?_⟩
    simpa [hy] using h1.symm

/-! ## Well-formedness of the reachable states -/

theorem pk_well_formed_of_sublist (a b : PkTransactionList) (h : b.array.Sublist a.array)
    (ha : pk_well_formed a) : pk_well_formed b :=
  ⟨ha.1.sublist (h.map _), ha.2.1.sublist (h.map _), fun x hx => ha.2.2 x (h.subset hx)⟩

theorem pk_commit_key (tlist : PkTransactionList) (tid : String) (run : Nat → Bool) :
    (pk_transaction_list_commit tlist tid run).tlist.array.map pk_item_key
      = tlist.array.map pk_item_key := by
  unfold pk_transaction_list_commit
  cases hl : pk_transaction_list_get_from_tid tlist tid with
  | none => simp
  | some item =>
    have hk1 := pk_item_write_key tid (fun i => { i with committed := true })
      (fun _ => rfl) tlist.array
    have hk2 := pk_item_write_key tid (fun i => { i with running := true })
      (fun _ => rfl) (pk_item_write tid (fun i => { i with committed := true }) tlist.array)
    simp only []
    split_ifs <;> simp [hk1, hk2]

theorem pk_finished_cb_key (tlist : PkTransactionList) (transaction : PkTransaction)
    (run : Nat → Bool) (r : PkTransactionList × List PkEffect)
    (h : pk_transaction_list_transaction_finished_cb transaction tlist run = some r) :
    r.1.array.map pk_item_key = tlist.array.map pk_item_key := by
  unfold pk_transaction_list_transaction_finished_cb at h
  cases hl : pk_transaction_list_get_from_tid tlist transaction.tid with
  | none => simp [hl] at h
  | some item =>
    have hk1 := pk_item_write_key transaction.tid (fun i => { i with finished := true })
      (fun _ => rfl) tlist.array
    simp only [hl] at h
    split_ifs at h
    · simp only [Option.some.injEq] at h
      rw [← h]
    · simp only [Option.some.injEq] at h
      rw [← h]
      simp [pk_dispatch_key, hk1]

theorem pk_create_well_formed (tlist : PkTransactionList) (tid : String) (item : Nat)
    (connection set_tid : Bool) (r : PkTransactionList × Bool)
    (hfresh : ∀ x ∈ tlist.array, x.ptr ≠ item)
    (h : pk_transaction_list_create tlist tid item connection set_tid = some r)
    (hwf : pk_well_formed tlist) : pk_well_formed r.1 := by
  unfold pk_transaction_list_create at h
  cases hl : pk_transaction_list_get_from_tid tlist tid with
  | some x =>
    simp only [hl, Option.some.injEq] at h
    rw [← h]; exact hwf
  | none =>
    cases connection <;> cases set_tid <;> simp [hl] at h
    rw [← h]
    obtain ⟨h1, h2, h3⟩ := hwf
    have hnomatch : ∀ x ∈ tlist.array, x.tid ≠ tid := by
      intro x hx heq
      unfold pk_transaction_list_get_from_tid at hl
      have hno := List.find?_eq_none.mp hl x hx
      have hx3 := h3 x hx
      simp [pk_tid_matches, hx3, egg_strequal, heq] at hno
    refine ⟨?_, ?_, ?_⟩
    · simp only [List.map_append, List.map_cons, List.map_nil]
      rw [List.nodup_append]
      refine ⟨h1, by simp, ?_⟩
      intro p hp hp'
      simp only [List.mem_singleton] at hp'
      obtain ⟨x, hx, hxp⟩ := List.mem_map.mp hp
      exact hfresh x hx (by rw [← hp']; exact hxp)
    · simp only [List.map_append, List.map_cons, List.map_nil]
      rw [List.nodup_append]
      refine ⟨h2, by simp, ?_⟩
      intro t ht ht'
      simp only [List.mem_singleton] at ht'
      obtain ⟨x, hx, hxt⟩ := List.mem_map.mp ht
      exact hnomatch x hx (by rw [← ht']; exact hxt)
    · intro x hx
      simp only [List.mem_append, List.mem_singleton] at hx
      rcases hx with hx | rfl
      · exact h3 x hx
      · simp [pk_transaction_get_tid]

/-- Every reachable state holds a well-formed list: distinct items, distinct TIDs, and
every item owns a transaction with its TID. -/
theorem pk_reachable_well_formed (s : PkState) (h : PkReachable s) :
    pk_well_formed s.tlist := by
  induction h with
  | init => exact ⟨by simp [PkState.init, pk_transaction_list_init],
      by simp [PkState.init, pk_transaction_list_init],
      by simp [PkState.init, pk_transaction_list_init]⟩
  | step s s' e _ hstep ih =>
    cases e with
    | create tid item =>
      simp only [PkState.step] at hstep
      split_ifs at hstep with hcond
      cases hc : pk_transaction_list_create s.tlist tid item true true with
      | none => simp [hc] at hstep
      | some r =>
        simp only [hc, Option.some.injEq] at hstep
        rw [← hstep]
        refine pk_create_well_formed s.tlist tid item true true r ?_ hc ih
        intro x hx heq
        exact hcond (Or.inl (List.mem_map.mpr ⟨x, hx, heq⟩))
    | commit tid run =>
      simp only [PkState.step, Option.some.injEq] at hstep
      rw [← hstep]
      exact pk_well_formed_of_key_eq s.tlist _ (pk_commit_key s.tlist tid run) ih
    | remove tid =>
      simp only [PkState.step, Option.some.injEq] at hstep
      rw [← hstep]
      exact pk_well_formed_of_sublist s.tlist _ (pk_remove_list_sublist s.tlist tid) ih
    | finished transaction run =>
      simp only [PkState.step] at hstep
      split_ifs at hstep
      cases hc : pk_transaction_list_transaction_finished_cb transaction s.tlist run with
      | none => simp [hc] at hstep
      | some r =>
        simp only [hc, Option.some.injEq] at hstep
        rw [← hstep]
        exact pk_well_formed_of_key_eq s.tlist _ (pk_finished_cb_key s.tlist transaction run r hc) ih
    | timeout item =>
      simp only [PkState.step] at hstep
      split_ifs at hstep
      simp only [Option.some.injEq] at hstep
      rw [← hstep]
      exact pk_well_formed_of_sublist s.tlist _
        (by simpa [pk_transaction_list_remove_item_timeout] using
          pk_remove_internal_sublist s.tlist item) ih

/-- A regular run is a run. -/
theorem pk_reachable_of_regular (s : PkState) (h : PkReachableRegular s) : PkReachable s := by
  induction h with
  | init => exact PkReachable.init
  | step s s' e _ _ hstep ih => exact PkReachable.step s s' e ih hstep

/-! ## The `finished` callback -/

/-- C2: when the `finished` signal arrives for a transaction whose item `T` is not finished
yet, and `pk_transaction_run` returns TRUE for whatever is started, then with `T` marked
finished either no item is committed, not running and not finished, and nothing is
started; or the first such item of the array is the one and only item whose `running`
flag is set and on which `pk_transaction_run` is called, every other item being left as
it is. -/
theorem finished_starts_first_queued (tlist : PkTransactionList)
    (transaction : PkTransaction) (T : PkTransactionItem) (run : Nat → Bool)
    (hrun : ∀ p, run p = true)
    (hT : pk_transaction_list_get_from_tid tlist transaction.tid = some T)
    (hfin : T.finished = false) :
    ∃ pre0 post0 array1, tlist.array = pre0 ++ T :: post0 ∧
      (∀ x ∈ pre0, pk_tid_matches transaction.tid x = false) ∧
      array1 = pre0 ++ { T with finished := true } :: post0 ∧
      (((∀ x ∈ array1, pk_item_queued x = false) ∧
          pk_transaction_list_transaction_finished_cb transaction tlist run
            = some (⟨array1⟩,
                [PkEffect.changed,
                 PkEffect.timeout_add_seconds PK_TRANSACTION_LIST_KEEP_FINISHED_TIMEOUT T.ptr])) ∨
        ∃ pre next post, array1 = pre ++ next :: post ∧
          (∀ x ∈ pre, pk_item_queued x = false) ∧ pk_item_queued next = true ∧
          pk_transaction_list_transaction_finished_cb transaction tlist run
            = some (⟨pre ++ { next with running := true } :: post⟩,
                [PkEffect.changed,
                 PkEffect.timeout_add_seconds PK_TRANSACTION_LIST_KEEP_FINISHED_TIMEOUT T.ptr,
                 PkEffect.transaction_run next.ptr])) := by
  obtain ⟨pre0, post0, harr, hpre0, hmatch⟩ :=
    pk_get_from_tid_split tlist transaction.tid T hT
  refine ⟨pre0, post0, pre0 ++ { T with finished := true } :: post0, harr, hpre0, rfl, ?_⟩
  have hcb := pk_finished_cb_split tlist transaction T run pre0 post0 hT hfin harr hpre0 hmatch
  rcases pk_queued_split (pre0 ++ { T with finished := true } :: post0) with
    hnone | ⟨pre, next, post, hsplit, hpre, hnext⟩
  · left
    refine ⟨hnone, ?_⟩
    rw [hcb, pk_dispatch_none_queued run _ hnone]
    simp
  · right
    refine ⟨pre, next, post, hsplit, hpre, hnext, ?_⟩
    rw [hcb, hsplit, pk_dispatch_first_queued run pre post next hpre hnext (hrun next.ptr)]
    simp

/-- Witness of C2: in `pk_example_three` the running `/1_aaaa` finishes (its item is the one
at address 10). -/
theorem finished_starts_first_queued_witness :
    ∃ pre0 post0 array1, pk_example_three.array = pre0 ++
        (pk_example_started : PkTransactionItem) :: post0 ∧
      (∀ x ∈ pre0, pk_tid_matches "/1_aaaa" x = false) ∧
      array1 = pre0 ++
        ({ pk_example_started with finished := true } : PkTransactionItem) :: post0 ∧
      (((∀ x ∈ array1, pk_item_queued x = false) ∧
          pk_transaction_list_transaction_finished_cb
              ⟨"/1_aaaa", PkRoleEnum.PK_ROLE_ENUM_QUERY⟩ pk_example_three pk_run_ok
            = some (⟨array1⟩,
                [PkEffect.changed,
                 PkEffect.timeout_add_seconds PK_TRANSACTION_LIST_KEEP_FINISHED_TIMEOUT 10])) ∨
        ∃ pre next post, array1 = pre ++ next :: post ∧
          (∀ x ∈ pre, pk_item_queued x = false) ∧ pk_item_queued next = true ∧
          pk_transaction_list_transaction_finished_cb
              ⟨"/1_aaaa", PkRoleEnum.PK_ROLE_ENUM_QUERY⟩ pk_example_three pk_run_ok
            = some (⟨pre ++ { next with running := true } :: post⟩,
                [PkEffect.changed,
                 PkEffect.timeout_add_seconds PK_TRANSACTION_LIST_KEEP_FINISHED_TIMEOUT 10,
                 PkEffect.transaction_run next.ptr])) :=
  finished_starts_first_queued pk_example_three ⟨"/1_aaaa", PkRoleEnum.PK_ROLE_ENUM_QUERY⟩
    pk_example_started
    pk_run_ok (fun _ => rfl) (by decide) rfl

/-! ## `commit` -/

/-- C10, as stated, fails: `pk_example_running` is reached by creating and committing
`/1_aaaa`; no item other than `/1_aaaa` is in progress, yet a second `commit` of
`/1_aaaa` does not call `pk_transaction_run` on it. -/
theorem commit_running_item_not_restarted :
    PkState.run PkState.init
        [PkEvent.create "/1_aaaa" 1, PkEvent.commit "/1_aaaa" pk_run_ok]
      = some ⟨pk_example_running, []⟩ ∧
    (∀ x ∈ pk_example_running.array, x.tid ≠ "/1_aaaa" → pk_item_in_progress x = false) ∧
    PkEffect.transaction_run 1 ∉
      (pk_transaction_list_commit pk_example_running "/1_aaaa" pk_run_ok).effects := by
  decide

/-- C10, amended: for every TID whose item the lookup finds, `commit` sets the `committed`
flag of that item and emits `changed`; it also sets the `running` flag of the item and
calls `pk_transaction_run` on it (returning its result) if and only if no other item is
committed, running and not finished and the item itself is not already running and
unfinished; otherwise it returns TRUE.  No other item is modified. -/
theorem commit_starts_iff_nothing_in_progress (tlist : PkTransactionList) (tid : String)
    (item : PkTransactionItem) (run : Nat → Bool)
    (h : pk_transaction_list_get_from_tid tlist tid = some item) :
    ∃ pre post, tlist.array = pre ++ item :: post ∧
      (∀ x ∈ pre, pk_tid_matches tid x = false) ∧
      (((∀ x ∈ pre ++ post, pk_item_in_progress x = false) ∧
          (item.running = false ∨ item.finished = true)) →
        pk_transaction_list_commit tlist tid run
          = ⟨⟨pre ++ { item with committed := true, running := true } :: post⟩,
              run item.ptr, [PkEffect.changed, PkEffect.transaction_run item.ptr]⟩) ∧
      (¬ ((∀ x ∈ pre ++ post, pk_item_in_progress x = false) ∧
          (item.running = false ∨ item.finished = true)) →
        pk_transaction_list_commit tlist tid run
          = ⟨⟨pre ++ { item with committed := true } :: post⟩, true, [PkEffect.changed]⟩) := by
  obtain ⟨pre, post, harr, hpre, hmatch⟩ := pk_get_from_tid_split tlist tid item h
  refine ⟨pre, post, harr, hpre, ?_, ?_⟩
  all_goals
    have hcount : pk_transaction_list_number_running
        ⟨pre ++ { item with committed := true } :: post⟩ = 0 ↔
        ((∀ x ∈ pre ++ post, pk_item_in_progress x = false) ∧
          (item.running = false ∨ item.finished = true)) := by
      rw [pk_number_running_eq]
      simp only [List.countP_eq_zero, List.mem_append, List.mem_cons]
      constructor
      · intro hz
        refine ⟨fun x hx => ?_, ?_⟩
        · rcases hx with hx | hx
          · simpa using hz x (Or.inl hx)
          · simpa using hz x (Or.inr (Or.inr hx))
        · have hself := hz { item with committed := true } (Or.inr (Or.inl rfl))
          simp only [pk_item_in_progress, Bool.true_and, Bool.and_eq_true,
            Bool.not_eq_true', not_and, Bool.not_eq_false] at hself
          by_cases hr : item.running = true
          · exact Or.inr (hself hr)
          · exact Or.inl (by simpa using hr)
      · rintro ⟨hothers, hself⟩ x hx
        rcases hx with hx | rfl | hx
        · simpa using hothers x (Or.inl hx)
        · simp only [pk_item_in_progress, Bool.true_and, Bool.and_eq_true,
            Bool.not_eq_true', not_and, Bool.not_eq_false]
          intro hr
          rcases hself with hs | hs
          · simp [hs] at hr
          · exact hs
        · simpa using hothers x (Or.inr hx)
    intro hidle
    rw [pk_commit_split tlist tid item run pre post h harr hpre hmatch]
  · rw [if_pos (hcount.mpr hidle)]
  · rw [if_neg (fun hz => hidle (hcount.mp hz))]

/-- Witness of C10: committing the queued `/2_bbbb` of `pk_example_three` while `/1_aaaa`
is in progress marks it committed and starts nothing. -/
theorem commit_starts_iff_nothing_in_progress_witness :
    pk_transaction_list_get_from_tid pk_example_three "/2_bbbb"
      = some pk_example_queued ∧
    (pk_transaction_list_commit pk_example_three "/2_bbbb" pk_run_ok).ret = true ∧
    (pk_transaction_list_commit pk_example_three "/2_bbbb" pk_run_ok).effects
      = [PkEffect.changed] := by
  refine ⟨by decide, ?_⟩
  obtain ⟨pre, post, h1, _, _, h4⟩ :=
    commit_starts_iff_nothing_in_progress pk_example_three "/2_bbbb"
      pk_example_queued pk_run_ok (by decide)
  have hmem : (pk_example_started : PkTransactionItem) ∈ pre ++ post := by
    have hin : (pk_example_started : PkTransactionItem) ∈ pk_example_three.array := by decide
    rw [h1] at hin
    simp only [List.mem_append, List.mem_cons] at hin ⊢
    rcases hin with hin | hin | hin
    · exact Or.inl hin
    · exact absurd hin (by decide)
    · exact Or.inr hin
  have hres := h4 (fun hidle => by
    have hip := hidle.1 _ hmem
    revert hip
    decide)
  rw [hres]
  exact ⟨rfl, rfl⟩

/-! ## The grace window -/

/-- C9: in a well-formed list, after the `finished` signal of a transaction whose item `T`
was not finished, a grace timer is armed for `T`; until it fires the lookup by TID still
finds `T` (now finished), the size is what it was and the TID of `T` is not in
`get_array`.  When the timer fires, `T` is taken out: the lookup by its TID fails, no item
with its address is left, the size is one less, and the items before and after `T` are
as they were. -/
theorem finished_item_kept_until_grace_timer (tlist : PkTransactionList)
    (transaction : PkTransaction) (T : PkTransactionItem) (run : Nat → Bool)
    (hwf : pk_well_formed tlist)
    (hT : pk_transaction_list_get_from_tid tlist transaction.tid = some T)
    (hfin : T.finished = false) :
    ∃ tlist1 effects T1,
      pk_transaction_list_transaction_finished_cb transaction tlist run
        = some (tlist1, effects) ∧
      PkEffect.timeout_add_seconds PK_TRANSACTION_LIST_KEEP_FINISHED_TIMEOUT T.ptr ∈ effects ∧
      pk_transaction_list_get_from_tid tlist1 transaction.tid = some T1 ∧
      pk_item_key T1 = pk_item_key T ∧ T1.finished = true ∧
      pk_transaction_list_get_size tlist1 = pk_transaction_list_get_size tlist ∧
      T.tid ∉ pk_transaction_list_get_array tlist1 ∧
      ∃ pre post, tlist1.array = pre ++ T1 :: post ∧
        (pk_transaction_list_remove_item_timeout tlist1 T.ptr).1 = ⟨pre ++ post⟩ ∧
        pk_transaction_list_get_from_tid ⟨pre ++ post⟩ transaction.tid = none ∧
        (∀ x ∈ pre ++ post, x.ptr ≠ T.ptr) ∧
        pk_transaction_list_get_size ⟨pre ++ post⟩ + 1
          = pk_transaction_list_get_size tlist1 := by
  obtain ⟨pre0, post0, harr, hpre0, hmatch⟩ :=
    pk_get_from_tid_split tlist transaction.tid T hT
  have hcb := pk_finished_cb_split tlist transaction T run pre0 post0 hT hfin harr hpre0 hmatch
  -- the array after the write and the dispatch
  have hmatch1 : pk_tid_matches transaction.tid { T with finished := true } = true := by
    simpa [pk_tid_matches] using hmatch
  have hfind1 := pk_find_of_split transaction.tid pre0 post0 { T with finished := true }
    hpre0 hmatch1
  obtain ⟨T1, hfindb, hforget⟩ := pk_dispatch_find run transaction.tid _ _ hfind1
  have hkeyT : pk_item_key T1 = pk_item_key T := by
    have := congrArg pk_item_key hforget
    simpa [pk_item_key, pk_item_forget_running] using this
  have hfinT : T1.finished = true := by
    have := congrArg (fun i => i.finished) hforget
    simpa [pk_item_forget_running] using this
  have hkey : (pk_transaction_list_dispatch run
      (pre0 ++ { T with finished := true } :: post0)).1.map pk_item_key
        = tlist.array.map pk_item_key := by
    rw [pk_dispatch_key, harr]
    simp [pk_item_key]
  have hwfb : pk_well_formed ⟨(pk_transaction_list_dispatch run
      (pre0 ++ { T with finished := true } :: post0)).1⟩ :=
    pk_well_formed_of_key_eq tlist _ hkey hwf
  obtain ⟨pre, post, hb, hpre, hmatchT1⟩ := pk_get_from_tid_split
    ⟨(pk_transaction_list_dispatch run (pre0 ++ { T with finished := true } :: post0)).1⟩
    transaction.tid T1 hfindb
  simp only at hb
  obtain ⟨hnd_ptr, hnd_tid, htid⟩ := hwfb
  simp only [hb] at hnd_ptr hnd_tid htid
  have hptr_ne := pk_nodup_middle_ne (fun i => i.ptr) pre post T1 hnd_ptr
  have htid_ne := pk_nodup_middle_ne (fun i => i.tid) pre post T1 hnd_tid
  have hT1tid : T1.tid = transaction.tid := by
    have h1 := htid T1 (by simp)
    simp only [pk_tid_matches, h1, egg_strequal, decide_eq_true_eq] at hmatchT1
    exact hmatchT1
  have hTtid : T.tid = transaction.tid := by
    have : T1.tid = T.tid := by
      have := congrArg (fun k => k.2.2) hkeyT
      simpa [pk_item_key] using this
    rw [← this]; exact hT1tid
  have hTptr : T1.ptr = T.ptr := by
    have := congrArg (fun k => k.1) hkeyT
    simpa [pk_item_key] using this
  have hnomatch : ∀ x ∈ pre ++ post, pk_tid_matches transaction.tid x = false := by
    intro x hx
    have hxmem : x ∈ pre ++ T1 :: post := by
      simp only [List.mem_append, List.mem_cons] at hx ⊢
      tauto
    have h1 := htid x hxmem
    have h2 := htid_ne x hx
    simp only [pk_tid_matches, h1, egg_strequal, decide_eq_false_iff_not]
    intro heq
    exact h2 (by simp only []; rw [heq, hT1tid])
  refine ⟨_, _, T1, hcb, by simp, hfindb, hkeyT, hfinT, ?_, ?_, pre, post, hb, ?_, ?_, ?_, ?_⟩
  · have hlen := congrArg List.length hkey
    simpa [pk_transaction_list_get_size] using hlen
  · rw [pk_get_array_eq]
    simp only [hb, List.mem_map, List.mem_filter, not_exists, not_and]
    intro x hx heq
    rcases hx with ⟨hxmem, hxp⟩
    simp only [List.mem_append, List.mem_cons] at hxmem
    rcases hxmem with hx | rfl | hx
    · exact htid_ne x (by simp [hx]) (by simp only []; rw [heq, hTtid, hT1tid])
    · simp [hfinT] at hxp
    · exact htid_ne x (by simp [hx]) (by simp only []; rw [heq, hTtid, hT1tid])
  · have hrem := pk_remove_split pre post T1 (fun x hx => hptr_ne x (by simp [hx]))
    rw [hTptr] at hrem
    simp [pk_transaction_list_remove_item_timeout, pk_transaction_list_remove_internal,
      hb, hrem]
  · unfold pk_transaction_list_get_from_tid
    exact pk_find_none_of_all transaction.tid _ hnomatch
  · intro x hx
    rw [← hTptr]
    exact hptr_ne x hx
  · simp [pk_transaction_list_get_size, hb]
    omega

/-- Witness of C9: the running `/1_aaaa` of `pk_example_three` finishes. -/
theorem finished_item_kept_until_grace_timer_witness :
    pk_well_formed pk_example_three ∧
    ∃ tlist1 effects T1,
      pk_transaction_list_transaction_finished_cb
          ⟨"/1_aaaa", PkRoleEnum.PK_ROLE_ENUM_QUERY⟩ pk_example_three pk_run_ok
        = some (tlist1, effects) ∧
      pk_transaction_list_get_from_tid tlist1 "/1_aaaa" = some T1 ∧
      T1.finished = true ∧
      pk_transaction_list_get_size tlist1 = 3 ∧
      "/1_aaaa" ∉ pk_transaction_list_get_array tlist1 ∧
      pk_transaction_list_get_from_tid
        (pk_transaction_list_remove_item_timeout tlist1 10).1 "/1_aaaa" = none := by
  refine ⟨by decide, ?_⟩
  obtain ⟨tlist1, effects, T1, h1, _, h3, _, h5, h6, h7, pre, post, _, h9, h10, _, _⟩ :=
    finished_item_kept_until_grace_timer pk_example_three
      ⟨"/1_aaaa", PkRoleEnum.PK_ROLE_ENUM_QUERY⟩ pk_example_started pk_run_ok
      (by decide) (by decide) rfl
  refine ⟨tlist1, effects, T1, h1, h3, h5, h6, h7, ?_⟩
  have h9' : (pk_transaction_list_remove_item_timeout tlist1 10).1 = ⟨pre ++ post⟩ := h9
  rw [h9']
  exact h10

/-! ## One transaction at a time -/

theorem pk_reachable_of_run (es : List PkEvent) (s s' : PkState) (hs : PkReachable s)
    (h : PkState.run s es = some s') : PkReachable s' := by
  induction es generalizing s with
  | nil =>
    simp only [PkState.run, Option.some.injEq] at h
    exact h ▸ hs
  | cons e rest ih =>
    cases hstep : s.step e with
    | none => simp [PkState.run, hstep] at h
    | some s1 =>
      simp only [PkState.run, hstep] at h
      exact ih s1 (PkReachable.step s s1 e hs hstep) h

theorem pk_serial_of_sublist (a b : PkTransactionList) (h : b.array.Sublist a.array)
    (ha : pk_serial a) : pk_serial b :=
  ⟨le_trans (h.countP_le _) ha.1, fun x hx => ha.2 x (h.subset hx)⟩

theorem pk_create_serial (tlist : PkTransactionList) (tid : String) (item : Nat)
    (connection set_tid : Bool) (r : PkTransactionList × Bool)
    (h : pk_transaction_list_create tlist tid item connection set_tid = some r)
    (hs : pk_serial tlist) : pk_serial r.1 := by
  unfold pk_transaction_list_create at h
  cases hl : pk_transaction_list_get_from_tid tlist tid with
  | some x =>
    simp only [hl, Option.some.injEq] at h
    rw [← h]; exact hs
  | none =>
    cases connection <;> cases set_tid <;> simp [hl] at h
    rw [← h]
    refine ⟨?_, ?_⟩
    · simpa [List.countP_append, List.countP_cons, pk_item_in_progress] using hs.1
    · intro x hx
      simp only [List.mem_append, List.mem_singleton] at hx
      rcases hx with hx | rfl
      · exact hs.2 x hx
      · simp

theorem pk_commit_serial (tlist : PkTransactionList) (tid : String) (run : Nat → Bool)
    (hs : pk_serial tlist) : pk_serial (pk_transaction_list_commit tlist tid run).tlist := by
  cases hl : pk_transaction_list_get_from_tid tlist tid with
  | none => simpa [pk_transaction_list_commit, hl] using hs
  | some item =>
    obtain ⟨pre, post, harr, hpre, hmatch⟩ := pk_get_from_tid_split tlist tid item hl
    rw [pk_commit_split tlist tid item run pre post hl harr hpre hmatch]
    obtain ⟨hcount, hrc⟩ := hs
    rw [harr] at hcount hrc
    have hitem : pk_item_in_progress { item with committed := true }
        = pk_item_in_progress item := by
      by_cases hr : item.running = true
      · have := hrc item (by simp) hr
        simp [pk_item_in_progress, this]
      · simp [pk_item_in_progress, hr]
    have hcount' : (pre ++ { item with committed := true } :: post).countP
        pk_item_in_progress ≤ 1 := by
      simpa [List.countP_append, List.countP_cons, hitem] using hcount
    by_cases hz : pk_transaction_list_number_running
        ⟨pre ++ { item with committed := true } :: post⟩ = 0
    · rw [if_pos hz]
      rw [pk_number_running_eq] at hz
      refine ⟨?_, ?_⟩
      · simp only [List.countP_append, List.countP_cons] at hz ⊢
        split_ifs <;> omega
      · intro x hx
        simp only [List.mem_append, List.mem_cons] at hx
        rcases hx with hx | rfl | hx
        · exact hrc x (by simp [hx])
        · simp
        · exact hrc x (by simp [hx])
    · rw [if_neg hz]
      refine ⟨hcount', ?_⟩
      intro x hx
      simp only [List.mem_append, List.mem_cons] at hx
      rcases hx with hx | rfl | hx
      · exact hrc x (by simp [hx])
      · simp
      · exact hrc x (by simp [hx])

theorem pk_dispatch_attempts_first (run : Nat → Bool) (pre post : List PkTransactionItem)
    (next : PkTransactionItem) (hpre : ∀ x ∈ pre, pk_item_queued x = false)
    (hnext : pk_item_queued next = true) :
    PkEffect.transaction_run next.ptr
      ∈ (pk_transaction_list_dispatch run (pre ++ next :: post)).2 := by
  induction pre with
  | nil =>
    have hn : (next.committed && !next.running && !next.finished) = true := hnext
    by_cases hr : run next.ptr = true
    · simp [pk_transaction_list_dispatch, hn, hr]
    · simp [pk_transaction_list_dispatch, hn, hr]
  | cons x pre ih =>
    have hx : (x.committed && !x.running && !x.finished) = false := hpre x (by simp)
    have hrec := ih (fun y hy => hpre y (by simp [hy]))
    simpa [pk_transaction_list_dispatch, hx] using hrec

theorem pk_dispatch_in_progress_le (run : Nat → Bool) (array : List PkTransactionItem)
    (hrun : ∀ p, PkEffect.transaction_run p ∈ (pk_transaction_list_dispatch run array).2 →
      run p = true) :
    (pk_transaction_list_dispatch run array).1.countP pk_item_in_progress
      ≤ array.countP pk_item_in_progress + 1 := by
  rcases pk_queued_split array with hnone | ⟨pre, next, post, hsplit, hpre, hnext⟩
  · rw [pk_dispatch_none_queued run array hnone]
    exact Nat.le_succ _
  · have hok : run next.ptr = true := by
      apply hrun
      rw [hsplit]
      exact pk_dispatch_attempts_first run pre post next hpre hnext
    rw [hsplit, pk_dispatch_first_queued run pre post next hpre hnext hok]
    simp only [List.countP_append, List.countP_cons]
    split_ifs <;> omega

theorem pk_dispatch_running_committed (run : Nat → Bool) (array : List PkTransactionItem)
    (h : ∀ x ∈ array, x.running = true → x.committed = true) :
    ∀ y ∈ (pk_transaction_list_dispatch run array).1, y.running = true → y.committed = true := by
  induction array with
  | nil => simp [pk_transaction_list_dispatch]
  | cons x rest ih =>
    have hrest := ih (fun y hy => h y (by simp [hy]))
    unfold pk_transaction_list_dispatch
    by_cases hq : (x.committed && !x.running && !x.finished) = true
    · have hc : x.committed = true := by
        simp only [Bool.and_eq_true] at hq
        exact hq.1.1
      by_cases hr : run x.ptr = true
      · simp only [hq, hr, if_true]
        intro y hy
        rcases List.mem_cons.mp hy with rfl | hy
        · intro _; exact hc
        · exact h y (by simp [hy])
      · simp only [hq, hr, if_true, if_false]
        intro y hy
        rcases List.mem_cons.mp hy with rfl | hy
        · intro _; exact hc
        · exact hrest y hy
    · simp only [hq, if_false]
      intro y hy
      rcases List.mem_cons.mp hy with rfl | hy
      · exact h y (by simp)
      · exact hrest y hy

theorem pk_finished_serial (tlist : PkTransactionList) (transaction : PkTransaction)
    (run : Nat → Bool) (r : PkTransactionList × List PkEffect)
    (hreg : ∀ item, pk_transaction_list_get_from_tid tlist transaction.tid = some item →
      item.finished = true ∨ pk_item_in_progress item = true)
    (hrun : ∀ r, pk_transaction_list_transaction_finished_cb transaction tlist run = some r →
      ∀ p, PkEffect.transaction_run p ∈ r.2 → run p = true)
    (h : pk_transaction_list_transaction_finished_cb transaction tlist run = some r)
    (hs : pk_serial tlist) : pk_serial r.1 := by
  cases hl : pk_transaction_list_get_from_tid tlist transaction.tid with
  | none => simp [pk_transaction_list_transaction_finished_cb, hl] at h
  | some T =>
    by_cases hfin : T.finished = true
    · simp only [pk_transaction_list_transaction_finished_cb, hl, hfin, if_true,
        Option.some.injEq] at h
      rw [← h]; exact hs
    · have hfin' : T.finished = false := by simpa using hfin
      obtain ⟨pre0, post0, harr, hpre0, hmatch⟩ :=
        pk_get_from_tid_split tlist transaction.tid T hl
      have hcb := pk_finished_cb_split tlist transaction T run pre0 post0 hl hfin' harr
        hpre0 hmatch
      have hrun' : ∀ p, PkEffect.transaction_run p ∈ (pk_transaction_list_dispatch run
          (pre0 ++ { T with finished := true } :: post0)).2 → run p = true := by
        intro p hp
        exact hrun _ hcb p (by simp [hp])
      rw [hcb, Option.some.injEq] at h
      rw [← h]
      have hip : pk_item_in_progress T = true := by
        rcases hreg T hl with h1 | h1
        · exact absurd h1 hfin
        · exact h1
      obtain ⟨hcount, hrc⟩ := hs
      rw [harr] at hcount hrc
      have hzero : (pre0 ++ { T with finished := true } :: post0).countP
          pk_item_in_progress = 0 := by
        have hT' : pk_item_in_progress { T with finished := true } = false := by
          simp [pk_item_in_progress]
        simp only [List.countP_append, List.countP_cons, hip, hT', if_true] at hcount ⊢
        simp only [Bool.false_eq_true, if_false]
        omega
      refine ⟨?_, ?_⟩
      · have := pk_dispatch_in_progress_le run
          (pre0 ++ { T with finished := true } :: post0) hrun'
        simp only at this ⊢
        omega
      · apply pk_dispatch_running_committed
        intro x hx
        simp only [List.mem_append, List.mem_cons] at hx
        rcases hx with hx | rfl | hx
        · exact hrc x (by simp [hx])
        · exact hrc T (by simp)
        · exact hrc x (by simp [hx])

/-- Every state of a regular run satisfies the scheduling invariant. -/
theorem pk_regular_serial (s : PkState) (h : PkReachableRegular s) : pk_serial s.tlist := by
  induction h with
  | init => exact ⟨by simp [PkState.init, pk_transaction_list_init], by
      simp [PkState.init, pk_transaction_list_init]⟩
  | step s s' e _ hreg hstep ih =>
    cases e with
    | create tid item =>
      simp only [PkState.step] at hstep
      split_ifs at hstep
      cases hc : pk_transaction_list_create s.tlist tid item true true with
      | none => simp [hc] at hstep
      | some r =>
        simp only [hc, Option.some.injEq] at hstep
        rw [← hstep]
        exact pk_create_serial s.tlist tid item true true r hc ih
    | commit tid run =>
      simp only [PkState.step, Option.some.injEq] at hstep
      rw [← hstep]
      exact pk_commit_serial s.tlist tid run ih
    | remove tid =>
      simp only [PkState.step, Option.some.injEq] at hstep
      rw [← hstep]
      exact pk_serial_of_sublist s.tlist _ (pk_remove_list_sublist s.tlist tid) ih
    | finished transaction run =>
      simp only [PkState.step] at hstep
      split_ifs at hstep
      cases hc : pk_transaction_list_transaction_finished_cb transaction s.tlist run with
      | none => simp [hc] at hstep
      | some r =>
        simp only [hc, Option.some.injEq] at hstep
        rw [← hstep]
        exact pk_finished_serial s.tlist transaction run r hreg.1 hreg.2 hc ih
    | timeout item =>
      simp only [PkState.step] at hstep
      split_ifs at hstep
      simp only [Option.some.injEq] at hstep
      rw [← hstep]
      exact pk_serial_of_sublist s.tlist _
        (by simpa [pk_transaction_list_remove_item_timeout] using
          pk_remove_internal_sublist s.tlist item) ih

/-- C1, as stated, fails: after the events of `pk_example_failed_start` (three
transactions created and committed; the first finishes, `pk_transaction_run` returns
FALSE for the second and TRUE for the third) the list is in a reachable state in which
two items are committed, running and not finished. -/
theorem failed_start_leaves_two_in_progress :
    PkState.run PkState.init pk_example_failed_start = some pk_example_two_running ∧
    PkReachable pk_example_two_running ∧
    pk_transaction_list_number_running pk_example_two_running.tlist = 2 ∧
    (pk_example_two_running.tlist.array.filter
      (fun i => i.committed && i.running && !i.finished)).length = 2 := by
  have hrun : PkState.run PkState.init pk_example_failed_start
      = some pk_example_two_running := by decide
  exact ⟨hrun, pk_reachable_of_run _ _ _ PkReachable.init hrun, by decide, by decide⟩

/-- The second condition of a regular run is needed as well: after the events of
`pk_example_early_finish`, in which every `pk_transaction_run` succeeds but the `finished`
signal arrives for a transaction that was never started, two items are in progress. -/
theorem pk_early_finish_leaves_two_in_progress :
    ∃ s, PkState.run PkState.init pk_example_early_finish = some s ∧
      pk_transaction_list_number_running s.tlist = 2 := by
  refine ⟨_, rfl, ?_⟩
  decide

/-- C1, amended: in every state reached from the empty list by `create`, `commit`,
`remove`, `finished` signals and grace timers, where each `finished` signal is for an item
that is in progress (or already finished) and `pk_transaction_run` returns TRUE at every
start attempt of the dispatch that follows it (its result in `commit` being free), at
most one item is committed, running and not finished. -/
theorem regular_run_at_most_one_in_progress (s : PkState) (h : PkReachableRegular s) :
    (s.tlist.array.filter (fun i => i.committed && i.running && !i.finished)).length ≤ 1 ∧
    pk_transaction_list_number_running s.tlist ≤ 1 := by
  have hs := (pk_regular_serial s h).1
  refine ⟨?_, ?_⟩
  · rw [← List.countP_eq_length_filter]
    exact hs
  · rw [pk_number_running_eq]
    exact hs

/-- Witness of C1: `/1_aaaa` and `/2_bbbb` are created and committed, `/1_aaaa` runs and
finishes, and `/2_bbbb` is started by the dispatch. -/
theorem regular_run_at_most_one_in_progress_witness :
    ∃ s, PkReachableRegular s ∧
      PkState.run PkState.init
        [PkEvent.create "/1_aaaa" 1, PkEvent.create "/2_bbbb" 2,
         PkEvent.commit "/1_aaaa" pk_run_ok, PkEvent.commit "/2_bbbb" pk_run_ok,
         PkEvent.finished ⟨"/1_aaaa", PkRoleEnum.PK_ROLE_ENUM_UNKNOWN⟩ pk_run_ok] = some s ∧
      (s.tlist.array.filter (fun i => i.committed && i.running && !i.finished)).length ≤ 1 := by
  have h0 := PkReachableRegular.init
  have h1 := PkReachableRegular.step _ _ (PkEvent.create "/1_aaaa" 1) h0 trivial rfl
  have h2 := PkReachableRegular.step _ _ (PkEvent.create "/2_bbbb" 2) h1 trivial rfl
  have h3 := PkReachableRegular.step _ _ (PkEvent.commit "/1_aaaa" pk_run_ok) h2 trivial rfl
  have h4 := PkReachableRegular.step _ _ (PkEvent.commit "/2_bbbb" pk_run_ok) h3 trivial rfl
  have h5 := PkReachableRegular.step _ _
    (PkEvent.finished ⟨"/1_aaaa", PkRoleEnum.PK_ROLE_ENUM_UNKNOWN⟩ pk_run_ok) h4
    ⟨fun item hitem => by
      have hX : some (⟨1, true, true, false,
          some ⟨"/1_aaaa", PkRoleEnum.PK_ROLE_ENUM_UNKNOWN⟩, "/1_aaaa"⟩ : PkTransactionItem)
            = some item := hitem
      cases hX
      exact Or.inr rfl, fun _ _ _ _ => rfl⟩ rfl
  exact ⟨_, h5, rfl, (regular_run_at_most_one_in_progress _ h5).1⟩

/-! ## The flags of the reachable states -/

theorem pk_item_write_forall (P : PkTransactionItem → Prop) (tid : String)
    (f : PkTransactionItem → PkTransactionItem) (hf : ∀ x, P x → P (f x))
    (array : List PkTransactionItem) (h : ∀ x ∈ array, P x) :
    ∀ y ∈ pk_item_write tid f array, P y := by
  induction array with
  | nil => simp [pk_item_write]
  | cons x rest ih =>
    have hrest := ih (fun y hy => h y (by simp [hy]))
    by_cases hx : pk_tid_matches tid x = true
    · simp only [pk_item_write, hx, if_true]
      intro y hy
      rcases List.mem_cons.mp hy with rfl | hy
      · exact hf x (h x (by simp))
      · exact h y (by simp [hy])
    · simp only [pk_item_write, hx]
      intro y hy
      rcases List.mem_cons.mp hy with rfl | hy
      · exact h y (by simp)
      · exact hrest y hy

theorem pk_dispatch_mem_forget (run : Nat → Bool) (array : List PkTransactionItem)
    (y : PkTransactionItem) (hy : y ∈ (pk_transaction_list_dispatch run array).1) :
    ∃ x ∈ array, pk_item_forget_running y = pk_item_forget_running x := by
  have hmem : pk_item_forget_running y
      ∈ (pk_transaction_list_dispatch run array).1.map pk_item_forget_running :=
    List.mem_map_of_mem _ hy
  rw [pk_dispatch_forget_running] at hmem
  obtain ⟨x, hx, hxy⟩ := List.mem_map.mp hmem
  exact ⟨x, hx, hxy.symm⟩

theorem pk_commit_running_committed (tlist : PkTransactionList) (tid : String)
    (run : Nat → Bool) (h : ∀ x ∈ tlist.array, x.running = true → x.committed = true) :
    ∀ y ∈ (pk_transaction_list_commit tlist tid run).tlist.array,
      y.running = true → y.committed = true := by
  cases hl : pk_transaction_list_get_from_tid tlist tid with
  | none => simpa [pk_transaction_list_commit, hl] using h
  | some item =>
    obtain ⟨pre, post, harr, hpre, hmatch⟩ := pk_get_from_tid_split tlist tid item hl
    rw [pk_commit_split tlist tid item run pre post hl harr hpre hmatch]
    rw [harr] at h
    split_ifs
    all_goals
      intro y hy
      simp only [List.mem_append, List.mem_cons] at hy
      rcases hy with hy | rfl | hy
      · exact h y (by simp [hy])
      · simp
      · exact h y (by simp [hy])

theorem pk_commit_finished_committed (tlist : PkTransactionList) (tid : String)
    (run : Nat → Bool) (h : ∀ x ∈ tlist.array, x.finished = true → x.committed = true) :
    ∀ y ∈ (pk_transaction_list_commit tlist tid run).tlist.array,
      y.finished = true → y.committed = true := by
  cases hl : pk_transaction_list_get_from_tid tlist tid with
  | none => simpa [pk_transaction_list_commit, hl] using h
  | some item =>
    obtain ⟨pre, post, harr, hpre, hmatch⟩ := pk_get_from_tid_split tlist tid item hl
    rw [pk_commit_split tlist tid item run pre post hl harr hpre hmatch]
    rw [harr] at h
    split_ifs
    all_goals
      intro y hy
      simp only [List.mem_append, List.mem_cons] at hy
      rcases hy with hy | rfl | hy
      · exact h y (by simp [hy])
      · simp
      · exact h y (by simp [hy])

theorem pk_create_forall (P : PkTransactionItem → Prop) (tlist : PkTransactionList)
    (tid : String) (item : Nat) (connection set_tid : Bool) (r : PkTransactionList × Bool)
    (hnew : P (pk_new_item tid item))
    (h : pk_transaction_list_create tlist tid item connection set_tid = some r)
    (hP : ∀ x ∈ tlist.array, P x) : ∀ y ∈ r.1.array, P y := by
  unfold pk_transaction_list_create at h
  cases hl : pk_transaction_list_get_from_tid tlist tid with
  | some x =>
    simp only [hl, Option.some.injEq] at h
    rw [← h]; exact hP
  | none =>
    cases connection <;> cases set_tid <;> simp [hl] at h
    rw [← h]
    intro y hy
    simp only [List.mem_append, List.mem_singleton] at hy
    rcases hy with hy | rfl
    · exact hP y hy
    · exact hnew

/-- In every reachable state a running item is committed. -/
theorem pk_reachable_running_committed (s : PkState) (h : PkReachable s) :
    ∀ x ∈ s.tlist.array, x.running = true → x.committed = true := by
  induction h with
  | init => simp [PkState.init, pk_transaction_list_init]
  | step s s' e _ hstep ih =>
    cases e with
    | create tid item =>
      simp only [PkState.step] at hstep
      split_ifs at hstep
      cases hc : pk_transaction_list_create s.tlist tid item true true with
      | none => simp [hc] at hstep
      | some r =>
        simp only [hc, Option.some.injEq] at hstep
        rw [← hstep]
        exact pk_create_forall (fun x => x.running = true → x.committed = true)
          s.tlist tid item true true r (by simp [pk_new_item]) hc ih
    | commit tid run =>
      simp only [PkState.step, Option.some.injEq] at hstep
      rw [← hstep]
      exact pk_commit_running_committed s.tlist tid run ih
    | remove tid =>
      simp only [PkState.step, Option.some.injEq] at hstep
      rw [← hstep]
      exact fun x hx => ih x ((pk_remove_list_sublist s.tlist tid).subset hx)
    | finished transaction run =>
      simp only [PkState.step] at hstep
      split_ifs at hstep
      cases hc : pk_transaction_list_transaction_finished_cb transaction s.tlist run with
      | none => simp [hc] at hstep
      | some r =>
        simp only [hc, Option.some.injEq] at hstep
        rw [← hstep]
        unfold pk_transaction_list_transaction_finished_cb at hc
        cases hl : pk_transaction_list_get_from_tid s.tlist transaction.tid with
        | none => simp [hl] at hc
        | some item =>
          simp only [hl] at hc
          split_ifs at hc
          · simp only [Option.some.injEq] at hc
            rw [← hc]; exact ih
          · simp only [Option.some.injEq] at hc
            rw [← hc]
            apply pk_dispatch_running_committed
            exact pk_item_write_forall (fun x => x.running = true → x.committed = true)
              transaction.tid (fun i => { i with finished := true }) (fun x hx => hx)
              s.tlist.array ih
    | timeout item =>
      simp only [PkState.step] at hstep
      split_ifs at hstep
      simp only [Option.some.injEq] at hstep
      rw [← hstep]
      exact fun x hx => ih x ((by simpa [pk_transaction_list_remove_item_timeout] using
          pk_remove_internal_sublist s.tlist item : List.Sublist _ _).subset hx)

/-- When `finished` signals come for committed items only, a finished item is committed. -/
theorem pk_reachable_finished_committed (s : PkState)
    (h : PkReachableWhen PkEvent.for_committed s) :
    ∀ x ∈ s.tlist.array, x.finished = true → x.committed = true := by
  induction h with
  | init => simp [PkState.init, pk_transaction_list_init]
  | step s s' e _ hcond hstep ih =>
    cases e with
    | create tid item =>
      simp only [PkState.step] at hstep
      split_ifs at hstep
      cases hc : pk_transaction_list_create s.tlist tid item true true with
      | none => simp [hc] at hstep
      | some r =>
        simp only [hc, Option.some.injEq] at hstep
        rw [← hstep]
        exact pk_create_forall (fun x => x.finished = true → x.committed = true)
          s.tlist tid item true true r (by simp [pk_new_item]) hc ih
    | commit tid run =>
      simp only [PkState.step, Option.some.injEq] at hstep
      rw [← hstep]
      exact pk_commit_finished_committed s.tlist tid run ih
    | remove tid =>
      simp only [PkState.step, Option.some.injEq] at hstep
      rw [← hstep]
      exact fun x hx => ih x ((pk_remove_list_sublist s.tlist tid).subset hx)
    | finished transaction run =>
      simp only [PkState.step] at hstep
      split_ifs at hstep
      cases hc : pk_transaction_list_transaction_finished_cb transaction s.tlist run with
      | none => simp [hc] at hstep
      | some r =>
        simp only [hc, Option.some.injEq] at hstep
        rw [← hstep]
        cases hl : pk_transaction_list_get_from_tid s.tlist transaction.tid with
        | none => simp [pk_transaction_list_transaction_finished_cb, hl] at hc
        | some T =>
          by_cases hfin : T.finished = true
          · simp only [pk_transaction_list_transaction_finished_cb, hl, hfin, if_true,
              Option.some.injEq] at hc
            rw [← hc]; exact ih
          · have hfin' : T.finished = false := by simpa using hfin
            obtain ⟨pre0, post0, harr, hpre0, hmatch⟩ :=
              pk_get_from_tid_split s.tlist transaction.tid T hl
            rw [pk_finished_cb_split s.tlist transaction T run pre0 post0 hl hfin' harr
              hpre0 hmatch, Option.some.injEq] at hc
            rw [← hc]
            have hTc : T.committed = true := hcond T hl
            intro y hy hyf
            obtain ⟨x, hx, hxy⟩ := pk_dispatch_mem_forget run _ y hy
            have hc1 : y.committed = x.committed := by
              have := congrArg (fun i => i.committed) hxy
              simpa [pk_item_forget_running] using this
            have hf1 : y.finished = x.finished := by
              have := congrArg (fun i => i.finished) hxy
              simpa [pk_item_forget_running] using this
            rw [hc1]
            simp only [List.mem_append, List.mem_cons] at hx
            rcases hx with hx | rfl | hx
            · exact ih x (by simp [harr, hx]) (by rw [← hf1]; exact hyf)
            · exact hTc
            · exact ih x (by simp [harr, hx]) (by rw [← hf1]; exact hyf)
    | timeout item =>
      simp only [PkState.step] at hstep
      split_ifs at hstep
      simp only [Option.some.injEq] at hstep
      rw [← hstep]
      exact fun x hx => ih x ((by simpa [pk_transaction_list_remove_item_timeout] using
          pk_remove_internal_sublist s.tlist item : List.Sublist _ _).subset hx)

theorem pk_reachable_of_when (P : PkState → PkEvent → Prop) (s : PkState)
    (h : PkReachableWhen P s) : PkReachable s := by
  induction h with
  | init => exact PkReachable.init
  | step s s' e _ _ hstep ih => exact PkReachable.step s s' e ih hstep

/-- C11: in every state reached from the empty list by `create`, `commit`, `remove`,
`finished` signals and grace timers, no two items of the array carry the same TID, be it
the TID stored in the item or the TID of its transaction. -/
theorem reachable_tids_unique (s : PkState) (h : PkReachable s) :
    s.tlist.array.Pairwise (fun x y => x.tid ≠ y.tid) ∧
    s.tlist.array.Pairwise (fun x y =>
      pk_transaction_get_tid x.transaction ≠ pk_transaction_get_tid y.transaction) ∧
    (s.tlist.array.map (fun i => i.tid)).Nodup := by
  obtain ⟨_, htid, htr⟩ := pk_reachable_well_formed s h
  have hpair : s.tlist.array.Pairwise (fun x y => x.tid ≠ y.tid) := by
    have := htid
    unfold List.Nodup at this
    rwa [List.pairwise_map] at this
  refine ⟨hpair, ?_, htid⟩
  refine hpair.imp_of_mem ?_
  intro x y hx hy hne heq
  rw [htr x hx, htr y hy] at heq
  exact hne (Option.some.inj heq)

/-- Witness of C11: the state at the end of `pk_example_failed_start`. -/
theorem reachable_tids_unique_witness :
    PkReachable pk_example_two_running ∧
    (pk_example_two_running.tlist.array.map (fun i => i.tid)).Nodup := by
  have hreach : PkReachable pk_example_two_running :=
    pk_reachable_of_run pk_example_failed_start _ _ PkReachable.init (by decide)
  exact ⟨hreach, (reachable_tids_unique pk_example_two_running hreach).2.2⟩

/-- C12, as stated, fails: after `/1_aaaa` was created, committed, started and has finished,
its item is committed, running and finished at once, in a reachable state. -/
theorem finished_item_stays_running :
    PkState.run PkState.init pk_example_run_and_finish = some pk_example_finished ∧
    PkReachable pk_example_finished ∧
    ¬ (∀ x ∈ pk_example_finished.tlist.array,
        (x.finished = true → x.committed = true) ∧
        (x.running = true → x.committed = true ∧ x.finished = false)) := by
  have hrun : PkState.run PkState.init pk_example_run_and_finish
      = some pk_example_finished := by decide
  exact ⟨hrun, pk_reachable_of_run _ _ _ PkReachable.init hrun, by decide⟩

/-- The restriction on the `finished` signals in the amended C12 is needed: when the signal
arrives for an item that was never committed, the item is finished and not committed. -/
theorem pk_finish_uncommitted_not_committed :
    ∃ s, PkState.run PkState.init pk_example_finish_uncommitted = some s ∧
      ∃ x ∈ s.tlist.array, x.finished = true ∧ x.committed = false := by
  refine ⟨_, rfl, ?_⟩
  decide

/-- C12, amended: in every reachable state every running item is committed; and in every
state reached by events in which the `finished` signals come from committed items only,
every finished item is committed too.  Nothing clears the `running` flag, so a running
item may be finished. -/
theorem reachable_flag_triples (s : PkState) :
    (PkReachable s → ∀ x ∈ s.tlist.array, x.running = true → x.committed = true) ∧
    (PkReachableWhen PkEvent.for_committed s →
      ∀ x ∈ s.tlist.array,
        (x.finished = true → x.committed = true) ∧
        (x.running = true → x.committed = true)) := by
  refine ⟨pk_reachable_running_committed s, ?_⟩
  intro h x hx
  exact ⟨pk_reachable_finished_committed s h x hx,
    pk_reachable_running_committed s (pk_reachable_of_when _ s h) x hx⟩

/-- Witness of C12: the run of `pk_example_run_and_finish` sends the `finished` signal for a
committed item. -/
theorem reachable_flag_triples_witness :
    PkReachableWhen PkEvent.for_committed pk_example_finished ∧
    ∀ x ∈ pk_example_finished.tlist.array,
      (x.finished = true → x.committed = true) ∧
      (x.running = true → x.committed = true) := by
  have h0 : PkReachableWhen PkEvent.for_committed PkState.init := PkReachableWhen.init
  have h1 := PkReachableWhen.step _ _ (PkEvent.create "/1_aaaa" 1) h0 trivial rfl
  have h2 := PkReachableWhen.step _ _ (PkEvent.commit "/1_aaaa" pk_run_ok) h1 trivial rfl
  have h3 : PkReachableWhen PkEvent.for_committed pk_example_finished :=
    PkReachableWhen.step _ pk_example_finished
      (PkEvent.finished ⟨"/1_aaaa", PkRoleEnum.PK_ROLE_ENUM_UNKNOWN⟩ pk_run_ok) h2
      (fun item hitem => by
        have hX : some (⟨1, true, true, false,
            some ⟨"/1_aaaa", PkRoleEnum.PK_ROLE_ENUM_UNKNOWN⟩, "/1_aaaa"⟩ : PkTransactionItem)
              = some item := hitem
        cases hX
        rfl) rfl
  exact ⟨h3, (reachable_flag_triples pk_example_finished).2 h3⟩

/-- C13 fails in the code: after `/1_aaaa` was created, committed, started and has finished,
the lookup still finds its item, which is finished; a `commit` of `/1_aaaa` then counts no
item in progress and calls `pk_transaction_run` on the finished item again. -/
theorem commit_restarts_finished_item :
    PkState.run PkState.init pk_example_run_and_finish = some pk_example_finished ∧
    pk_transaction_list_get_from_tid pk_example_finished.tlist "/1_aaaa"
      = some pk_example_retired ∧
    pk_example_retired.finished = true ∧
    pk_transaction_list_number_running pk_example_finished.tlist = 0 ∧
    pk_transaction_list_commit pk_example_finished.tlist "/1_aaaa" pk_run_ok
      = ⟨pk_example_finished.tlist, true,
          [PkEffect.changed, PkEffect.transaction_run pk_example_retired.ptr]⟩ := by
  decide

/-! ## The engine: the exit tag along the effects -/

theorem pk_sticky_scan_append (failed : Bool) (a b : List PkBackendEffect) :
    pk_sticky_scan failed (a ++ b)
      = (pk_sticky_scan failed a).bind (fun f => pk_sticky_scan f b) := by
  induction a generalizing failed with
  | nil => simp [pk_sticky_scan]
  | cons x rest ih =>
    cases x with
    | emit signal =>
      cases signal with
      | error_code code buffer => simp [pk_sticky_scan, ih]
      | finished exit =>
        by_cases h : failed = true ∧ exit ≠ PkExitEnum.PK_EXIT_ENUM_FAILED
        · simp [pk_sticky_scan, h]
        · simp [pk_sticky_scan, h, ih]
      | _ => simp [pk_sticky_scan, ih]
    | _ => simp [pk_sticky_scan, ih]

theorem pk_sticky_scan_compose (f0 f1 f2 : Bool) (a b : List PkBackendEffect)
    (ha : pk_sticky_scan f0 a = some f1) (hb : pk_sticky_scan f1 b = some f2) :
    pk_sticky_scan f0 (a ++ b) = some f2 := by
  rw [pk_sticky_scan_append, ha]
  simpa using hb

theorem pk_sticky_scan_mono (failed f : Bool) (effects : List PkBackendEffect)
    (h : pk_sticky_scan failed effects = some f) (hf : failed = true) : f = true := by
  induction effects generalizing failed with
  | nil =>
    simp only [pk_sticky_scan, Option.some.injEq] at h
    rw [← h]; exact hf
  | cons x rest ih =>
    cases x with
    | emit signal =>
      cases signal with
      | error_code code buffer =>
        simp only [pk_sticky_scan] at h
        exact ih true h rfl
      | finished exit =>
        simp only [pk_sticky_scan] at h
        split_ifs at h
        exact ih failed h hf
      | _ =>
        simp only [pk_sticky_scan] at h
        exact ih failed h hf
    | _ =>
      simp only [pk_sticky_scan] at h
      exact ih failed h hf

theorem pk_sticky_scan_finished (f : Bool) (effects : List PkBackendEffect)
    (h : pk_sticky_scan true effects = some f) (exit : PkExitEnum)
    (hmem : PkBackendEffect.emit (PkBackendSignal.finished exit) ∈ effects) :
    exit = PkExitEnum.PK_EXIT_ENUM_FAILED := by
  induction effects with
  | nil => simp at hmem
  | cons x rest ih =>
    cases x with
    | emit signal =>
      cases signal with
      | finished exit' =>
        simp only [pk_sticky_scan] at h
        split_ifs at h with hc
        rcases List.mem_cons.mp hmem with heq | hmem
        · simp only [PkBackendEffect.emit.injEq, PkBackendSignal.finished.injEq] at heq
          subst heq
          by_contra hne
          exact hc ⟨trivial, hne⟩
        · exact ih h hmem
      | _ =>
        simp only [pk_sticky_scan] at h
        rcases List.mem_cons.mp hmem with heq | hmem
        · simp at heq
        · exact ih h hmem
    | _ =>
      simp only [pk_sticky_scan] at h
      rcases List.mem_cons.mp hmem with heq | hmem
      · simp at heq
      · exact ih h hmem

theorem pk_sticky_scan_error_code (failed f : Bool) (effects : List PkBackendEffect)
    (h : pk_sticky_scan failed effects = some f) (code : PkErrorCodeEnum) (buffer : String)
    (hmem : PkBackendEffect.emit (PkBackendSignal.error_code code buffer) ∈ effects) :
    f = true := by
  induction effects generalizing failed with
  | nil => simp at hmem
  | cons x rest ih =>
    cases x with
    | emit signal =>
      cases signal with
      | error_code code' buffer' =>
        simp only [pk_sticky_scan] at h
        exact pk_sticky_scan_mono true f rest h rfl
      | finished exit =>
        simp only [pk_sticky_scan] at h
        split_ifs at h
        rcases List.mem_cons.mp hmem with heq | hmem
        · simp at heq
        · exact ih failed h hmem
      | _ =>
        simp only [pk_sticky_scan] at h
        rcases List.mem_cons.mp hmem with heq | hmem
        · simp at heq
        · exact ih failed h hmem
    | _ =>
      simp only [pk_sticky_scan] at h
      rcases List.mem_cons.mp hmem with heq | hmem
      · simp at heq
      · exact ih failed h hmem

theorem pk_sticky_scan_after_error (failed f : Bool) (pre post : List PkBackendEffect)
    (code : PkErrorCodeEnum) (buffer : String)
    (h : pk_sticky_scan failed
      (pre ++ PkBackendEffect.emit (PkBackendSignal.error_code code buffer) :: post) = some f)
    (exit : PkExitEnum)
    (hmem : PkBackendEffect.emit (PkBackendSignal.finished exit) ∈ post) :
    exit = PkExitEnum.PK_EXIT_ENUM_FAILED := by
  rw [pk_sticky_scan_append] at h
  cases h1 : pk_sticky_scan failed pre with
  | none => simp [h1] at h
  | some f1 =>
    simp only [h1, Option.some_bind, pk_sticky_scan] at h
    exact pk_sticky_scan_finished f post h exit hmem

theorem pk_error_code_sticky (backend : PkBackend) (code : PkErrorCodeEnum)
    (format : String) (args : List String) (r : PkBackendOutcome)
    (h : pk_backend_error_code backend code format args = some r) :
    pk_sticky_scan backend.failed r.effects = some r.backend.failed ∧
    r.backend.exit = PkExitEnum.PK_EXIT_ENUM_FAILED := by
  unfold pk_backend_error_code at h
  cases hb : g_vsnprintf 1024 format args with
  | none => simp [hb] at h
  | some buffer =>
    simp only [hb, Option.some.injEq] at h
    rw [← h]
    simp [pk_sticky_scan, PkBackend.failed]

theorem pk_finished_delay_sticky (backend : PkBackend) :
    pk_sticky_scan backend.failed (pk_backend_finished_delay backend).effects
      = some (pk_backend_finished_delay backend).backend.failed := by
  simp only [pk_backend_finished_delay, pk_sticky_scan, PkBackend.failed]
  split_ifs with hc
  · exfalso
    obtain ⟨h1, h2⟩ := hc
    exact h2 (by simpa using h1)
  · rfl

theorem pk_not_implemented_sticky (backend : PkBackend) (method : String)
    (r : PkBackendOutcome) (h : pk_backend_not_implemented_yet backend method = some r) :
    pk_sticky_scan backend.failed r.effects = some r.backend.failed := by
  unfold pk_backend_not_implemented_yet at h
  cases he : pk_backend_error_code backend PkErrorCodeEnum.PK_ERROR_ENUM_NOT_SUPPORTED
      "the method '%s' is not implemented yet" [method] with
  | none => simp [he] at h
  | some r1 =>
    simp only [he, Option.some.injEq] at h
    obtain ⟨h1, _⟩ := pk_error_code_sticky _ _ _ _ _ he
    rw [← h]
    refine pk_sticky_scan_compose _ _ _ _ _ h1 ?_
    have := pk_finished_delay_sticky { r1.backend with exit := PkExitEnum.PK_EXIT_ENUM_FAILED }
    have hf : r1.backend.failed = true := by
      have := (pk_error_code_sticky _ _ _ _ _ he).2
      simp [PkBackend.failed, this]
    rw [hf]
    simpa [PkBackend.failed] using this

theorem pk_spawn_helper_some (env : PkBackendEnv) (backend : PkBackend) (script : String)
    (args : List String) (spawned : Bool) (r : PkBackendOutcome)
    (h : pk_backend_call env backend (PkBackendCall.spawn_helper script args spawned)
      = some r) :
    ∃ arguments, env.g_strjoinv_va_list args = some arguments ∧
      pk_backend_spawn_helper_internal env backend script (some arguments) spawned
        = some r := by
  simp only [pk_backend_call, pk_backend_spawn_helper] at h
  cases hj : env.g_strjoinv_va_list args with
  | none => simp [hj] at h
  | some arguments => exact ⟨arguments, rfl, by simpa [hj] using h⟩

theorem pk_spawn_helper_internal_sticky (env : PkBackendEnv) (backend : PkBackend)
    (script : String) (argument : Option String) (spawned : Bool) (r : PkBackendOutcome)
    (h : pk_backend_spawn_helper_internal env backend script argument spawned = some r) :
    pk_sticky_scan backend.failed r.effects = some r.backend.failed := by
  unfold pk_backend_spawn_helper_internal at h
  cases hsp : backend.spawn with
  | true => simp [pk_backend_spawn_helper_new, hsp] at h
  | false =>
    cases spawned with
    | true =>
      simp [pk_backend_spawn_helper_new, hsp] at h
      rw [← h]
      simp [pk_sticky_scan, PkBackend.failed]
    | false =>
      simp only [pk_backend_spawn_helper_new, pk_backend_spawn_helper_delete, hsp,
        Bool.false_eq_true, Bool.true_eq_false, if_false, if_true] at h
      split at h
      · simp at h
      · rename_i r3 he
        simp only [Option.some.injEq] at h
        obtain ⟨h1, _⟩ := pk_error_code_sticky _ _ _ _ _ he
        rw [← h]
        simp only [pk_sticky_scan, pk_backend_finished]
        rw [pk_sticky_scan_append]
        simp only [PkBackend.failed] at h1 ⊢
        rw [h1]
        simp [pk_sticky_scan]

theorem pk_spawn_finished_cb_sticky (backend : PkBackend) (exitcode : Int)
    (r : PkBackendOutcome) (h : pk_backend_spawn_finished_cb backend exitcode = some r) :
    pk_sticky_scan backend.failed r.effects = some r.backend.failed := by
  unfold pk_backend_spawn_finished_cb at h
  cases hsp : backend.spawn with
  | false => simp [pk_backend_spawn_helper_delete, hsp] at h
  | true =>
    simp only [pk_backend_spawn_helper_delete, hsp, Bool.true_eq_false, if_false] at h
    split_ifs at h with hc
    · split at h
      · simp at h
      · rename_i r2 he
        simp only [Option.some.injEq] at h
        obtain ⟨h1, _⟩ := pk_error_code_sticky _ _ _ _ _ he
        rw [← h]
        simp only [pk_backend_finished]
        rw [pk_sticky_scan_append]
        simp only [PkBackend.failed] at h1 ⊢
        rw [h1]
        simp [pk_sticky_scan]
    · simp only [Option.some.injEq] at h
      rw [← h]
      simp [pk_backend_finished, pk_sticky_scan, PkBackend.failed]

theorem pk_call_sticky (env : PkBackendEnv) (backend : PkBackend) (c : PkBackendCall)
    (r : PkBackendOutcome) (h : pk_backend_call env backend c = some r) :
    pk_sticky_scan backend.failed r.effects = some r.backend.failed := by
  cases c with
  | error_code code format args => exact (pk_error_code_sticky _ _ _ _ _ h).1
  | not_implemented_yet method => exact pk_not_implemented_sticky _ _ _ h
  | spawn_helper script args spawned =>
    obtain ⟨arguments, _, hi⟩ := pk_spawn_helper_some env backend script args spawned r h
    exact pk_spawn_helper_internal_sticky env backend script (some arguments) spawned r hi
  | set_job_role role package_id =>
    simp only [pk_backend_call, pk_backend_set_job_role] at h
    split_ifs at h
    simp only [Option.some.injEq] at h
    rw [← h]
    simp [pk_sticky_scan, PkBackend.failed]
  | spawn_kill =>
    simp only [pk_backend_call, pk_backend_spawn_kill, Option.some.injEq] at h
    rw [← h]
    split_ifs <;> simp [pk_sticky_scan, PkBackend.failed]
  | _ =>
    simp only [pk_backend_call, Option.some.injEq] at h
    rw [← h]
    simp [pk_backend_change_percentage, pk_backend_change_sub_percentage,
      pk_backend_change_job_status, pk_backend_package, pk_backend_update_detail,
      pk_backend_require_restart, pk_backend_description, pk_backend_finished,
      pk_backend_no_percentage_updates, pk_backend_allow_interrupt,
      pk_backend_thread_create, pk_sticky_scan, PkBackend.failed]

theorem pk_calls_sticky (env : PkBackendEnv) (calls : List PkBackendCall)
    (backend : PkBackend) (r : PkBackend × List PkBackendEffect)
    (h : pk_backend_calls env calls backend = some r) :
    pk_sticky_scan backend.failed r.2 = some r.1.failed := by
  induction calls generalizing backend r with
  | nil =>
    simp only [pk_backend_calls, Option.some.injEq] at h
    rw [← h]
    simp [pk_sticky_scan]
  | cons c rest ih =>
    simp only [pk_backend_calls] at h
    cases h1 : pk_backend_call env backend c with
    | none => simp [h1] at h
    | some r1 =>
      simp only [h1] at h
      cases h2 : pk_backend_calls env rest r1.backend with
      | none => simp [h2] at h
      | some r2 =>
        simp only [h2, Option.some.injEq] at h
        rw [← h]
        exact pk_sticky_scan_compose _ _ _ _ _ (pk_call_sticky env backend c r1 h1)
          (ih r1.backend r2 h2)

/-! ## The engine: what the parsers do -/

/-- The parser acts on the engine through at most one call of a function that plugins
can call as well, and that call is quiet. -/
theorem pk_parse_common_output_cases (env : PkBackendEnv) (backend : PkBackend)
    (line : Option String) (r : PkBackendOutcome)
    (h : pk_backend_parse_common_output env backend line = some r) :
    (r.backend = backend ∧ r.effects = []) ∨
    ∃ c r', c.quiet = true ∧ pk_backend_call env backend c = some r' ∧
      r.backend = r'.backend ∧ r.effects = r'.effects := by
  unfold pk_backend_parse_common_output at h
  cases line with
  | none =>
    simp only [Option.some.injEq] at h
    rw [← h]
    exact Or.inl ⟨rfl, rfl⟩
  | some line =>
    simp only at h
    generalize g_strsplit line (Char.ofNat 9) = sections at h
    generalize sections.headD "" = command at h
    generalize sections.length = size at h
    by_cases htab : pk_has_tab line = false
    · rw [if_pos htab] at h
      simp only [Option.some.injEq] at h
      rw [← h]
      exact Or.inl ⟨rfl, rfl⟩
    · rw [if_neg htab] at h
      by_cases hc0 : command = "package"
      · rw [if_pos hc0] at h
        by_cases hs : size ≠ 4
        · rw [if_pos hs] at h
          exact absurd h (by simp)
        · rw [if_neg hs] at h
          by_cases hid : env.pk_package_id_check (sections.getD 2 "") = true
          · rw [if_pos hid] at h
            simp only [Option.some.injEq] at h
            rw [← h]
            exact Or.inr ⟨PkBackendCall.package (pk_atoi_guint (sections.getD 1 ""))
              (sections.getD 2 "") (sections.getD 3 ""), _, rfl, rfl, rfl, rfl⟩
          · rw [if_neg hid] at h
            simp only [Option.some.injEq] at h
            rw [← h]
            exact Or.inl ⟨rfl, rfl⟩
      · rw [if_neg hc0] at h
        by_cases hc1 : command = "description"
        · rw [if_pos hc1] at h
          by_cases hs : size ≠ 6
          · rw [if_pos hs] at h
            exact absurd h (by simp)
          · rw [if_neg hs] at h
            simp only [Option.some.injEq] at h
            rw [← h]
            exact Or.inr ⟨PkBackendCall.description (sections.getD 1 "") (sections.getD 2 "")
              (env.pk_group_enum_from_text (sections.getD 3 "")) (sections.getD 4 "")
              (sections.getD 5 ""), _, rfl, rfl, rfl, rfl⟩
        · rw [if_neg hc1] at h
          simp only [Option.some.injEq] at h
          rw [← h]
          exact Or.inl ⟨rfl, rfl⟩

/-- The parser acts on the engine through at most one call of a function that plugins
can call as well, and that call is quiet. -/
theorem pk_parse_common_error_cases (env : PkBackendEnv) (backend : PkBackend)
    (line : Option String) (r : PkBackendOutcome)
    (h : pk_backend_parse_common_error env backend line = some r) :
    (r.backend = backend ∧ r.effects = []) ∨
    ∃ c r', c.quiet = true ∧ pk_backend_call env backend c = some r' ∧
      r.backend = r'.backend ∧ r.effects = r'.effects := by
  unfold pk_backend_parse_common_error at h
  cases line with
  | none =>
    simp only [Option.some.injEq] at h
    rw [← h]
    exact Or.inl ⟨rfl, rfl⟩
  | some line =>
    simp only at h
    generalize g_strsplit line (Char.ofNat 9) = sections at h
    generalize sections.headD "" = command at h
    generalize sections.length = size at h
    by_cases htab : pk_has_tab line = false
    · rw [if_pos htab] at h
      simp only [Option.some.injEq] at h
      rw [← h]
      exact Or.inl ⟨rfl, rfl⟩
    · rw [if_neg htab] at h
      by_cases hc0 : command = "percentage"
      · rw [if_pos hc0] at h
        by_cases hs : size ≠ 2
        · rw [if_pos hs] at h
          exact absurd h (by simp)
        · rw [if_neg hs] at h
          simp only [Option.some.injEq] at h
          rw [← h]
          exact Or.inr ⟨PkBackendCall.change_percentage (pk_atoi_guint (sections.getD 1 "")), _, rfl, rfl, rfl, rfl⟩
      · rw [if_neg hc0] at h
        by_cases hc1 : command = "subpercentage"
        · rw [if_pos hc1] at h
          by_cases hs : size ≠ 2
          · rw [if_pos hs] at h
            exact absurd h (by simp)
          · rw [if_neg hs] at h
            simp only [Option.some.injEq] at h
            rw [← h]
            exact Or.inr ⟨PkBackendCall.change_sub_percentage (pk_atoi_guint (sections.getD 1 "")), _, rfl, rfl, rfl, rfl⟩
        · rw [if_neg hc1] at h
          by_cases hc2 : command = "error"
          · rw [if_pos hc2] at h
            by_cases hs : size ≠ 3
            · rw [if_pos hs] at h
              exact absurd h (by simp)
            · rw [if_neg hs] at h
              cases he : pk_backend_error_code backend
                  (env.pk_error_enum_from_text (sections.getD 1 "")) (sections.getD 2 "") [] with
              | none =>
                rw [he] at h
                exact absurd h (by simp)
              | some r1 =>
                rw [he] at h
                simp only [Option.some.injEq] at h
                rw [← h]
                exact Or.inr ⟨PkBackendCall.error_code
                  (env.pk_error_enum_from_text (sections.getD 1 "")) (sections.getD 2 "") [],
                  r1, rfl, he, rfl, rfl⟩
          · rw [if_neg hc2] at h
            by_cases hc3 : command = "requirerestart"
            · rw [if_pos hc3] at h
              by_cases hs : size ≠ 3
              · rw [if_pos hs] at h
                exact absurd h (by simp)
              · rw [if_neg hs] at h
                simp only [Option.some.injEq] at h
                rw [← h]
                exact Or.inr ⟨PkBackendCall.require_restart (env.pk_restart_enum_from_text (sections.getD 1 ""))
              (sections.getD 2 ""), _, rfl, rfl, rfl, rfl⟩
            · rw [if_neg hc3] at h
              by_cases hc4 : command = "status"
              · rw [if_pos hc4] at h
                by_cases hs : size ≠ 2
                · rw [if_pos hs] at h
                  exact absurd h (by simp)
                · rw [if_neg hs] at h
                  simp only [Option.some.injEq] at h
                  rw [← h]
                  exact Or.inr ⟨PkBackendCall.change_job_status
              (env.pk_status_enum_from_text (sections.getD 1 "")), _, rfl, rfl, rfl, rfl⟩
              · rw [if_neg hc4] at h
                by_cases hc5 : command = "allow-interrupt"
                · rw [if_pos hc5] at h
                  by_cases hs : size ≠ 2
                  · rw [if_pos hs] at h
                    exact absurd h (by simp)
                  · rw [if_neg hs] at h
                    by_cases ht : sections.getD 1 "" = "true"
                    · rw [if_pos ht] at h
                      simp only [Option.some.injEq] at h
                      rw [← h]
                      exact Or.inr ⟨PkBackendCall.allow_interrupt true, _, rfl, rfl, rfl, rfl⟩
                    · rw [if_neg ht] at h
                      by_cases hf : sections.getD 1 "" = "false"
                      · rw [if_pos hf] at h
                        simp only [Option.some.injEq] at h
                        rw [← h]
                        exact Or.inr ⟨PkBackendCall.allow_interrupt false, _, rfl, rfl, rfl, rfl⟩
                      · rw [if_neg hf] at h
                        simp only [Option.some.injEq] at h
                        rw [← h]
                        exact Or.inl ⟨rfl, rfl⟩
                · rw [if_neg hc5] at h
                  by_cases hc6 : command = "no-percentage-updates"
                  · rw [if_pos hc6] at h
                    by_cases hs : size ≠ 1
                    · rw [if_pos hs] at h
                      exact absurd h (by simp)
                    · rw [if_neg hs] at h
                      simp only [Option.some.injEq] at h
                      rw [← h]
                      exact Or.inr ⟨PkBackendCall.no_percentage_updates, _, rfl, rfl, rfl, rfl⟩
                  · rw [if_neg hc6] at h
                    simp only [Option.some.injEq] at h
                    rw [← h]
                    exact Or.inl ⟨rfl, rfl⟩

/-! ## The engine: sticky failure -/

theorem pk_parse_common_output_sticky (env : PkBackendEnv) (backend : PkBackend)
    (line : Option String) (r : PkBackendOutcome)
    (h : pk_backend_parse_common_output env backend line = some r) :
    pk_sticky_scan backend.failed r.effects = some r.backend.failed := by
  rcases pk_parse_common_output_cases env backend line r h with
    ⟨hb, he⟩ | ⟨c, r', _, hcall, hb, he⟩
  · rw [hb, he]; simp [pk_sticky_scan]
  · rw [hb, he]; exact pk_call_sticky env backend c r' hcall

theorem pk_parse_common_error_sticky (env : PkBackendEnv) (backend : PkBackend)
    (line : Option String) (r : PkBackendOutcome)
    (h : pk_backend_parse_common_error env backend line = some r) :
    pk_sticky_scan backend.failed r.effects = some r.backend.failed := by
  rcases pk_parse_common_error_cases env backend line r h with
    ⟨hb, he⟩ | ⟨c, r', _, hcall, hb, he⟩
  · rw [hb, he]; simp [pk_sticky_scan]
  · rw [hb, he]; exact pk_call_sticky env backend c r' hcall

theorem pk_role_operation_sticky (env : PkBackendEnv) (backend : PkBackend)
    (entry : Option (List PkBackendCall)) (name : PkBackendEntry) (method : String)
    (role : PkRoleEnum) (package_id : Option String) (r : PkBackendOutcome)
    (h : pk_backend_role_operation env backend entry name method role package_id = some r) :
    pk_sticky_scan backend.failed r.effects = some r.backend.failed := by
  unfold pk_backend_role_operation at h
  cases entry with
  | none =>
    simp only at h
    cases hn : pk_backend_not_implemented_yet backend method with
    | none => rw [hn] at h; exact absurd h (by simp)
    | some r1 =>
      rw [hn] at h
      simp only [Option.some.injEq] at h
      rw [← h]
      exact pk_not_implemented_sticky backend method r1 hn
  | some calls =>
    simp only at h
    cases hr : pk_backend_set_job_role backend role package_id with
    | none => rw [hr] at h; exact absurd h (by simp)
    | some r1 =>
      rw [hr] at h
      simp only at h
      cases hc : pk_backend_calls env calls r1.backend with
      | none => rw [hc] at h; exact absurd h (by simp)
      | some r2 =>
        rw [hc] at h
        simp only [Option.some.injEq] at h
        rw [← h]
        have h1 : pk_sticky_scan backend.failed r1.effects = some r1.backend.failed := by
          simp only [pk_backend_set_job_role] at hr
          split_ifs at hr
          simp only [Option.some.injEq] at hr
          rw [← hr]
          simp [pk_sticky_scan, PkBackend.failed]
        have h2 := pk_calls_sticky env calls r1.backend r2 hc
        refine pk_sticky_scan_compose _ _ _ _ _ h1 ?_
        simp only [pk_sticky_scan]
        simpa [PkBackend.failed] using h2

theorem pk_operation_sticky (env : PkBackendEnv) (desc : PkBackendDesc) (backend : PkBackend)
    (op : PkBackendOperation) (r : PkBackendOutcome)
    (h : pk_backend_operation env desc backend op = some r) :
    pk_sticky_scan backend.failed r.effects = some r.backend.failed := by
  cases op <;> exact pk_role_operation_sticky env backend _ _ _ _ _ r h

theorem pk_cancel_job_try_sticky (env : PkBackendEnv) (desc : PkBackendDesc)
    (backend : PkBackend) (r : PkBackendOutcome)
    (h : pk_backend_cancel_job_try env desc backend = some r) :
    pk_sticky_scan backend.failed r.effects = some r.backend.failed := by
  unfold pk_backend_cancel_job_try at h
  cases hd : desc.cancel_job_try with
  | none =>
    rw [hd] at h
    simp only at h
    cases hn : pk_backend_not_implemented_yet backend "CancelJobTry" with
    | none => rw [hn] at h; exact absurd h (by simp)
    | some r1 =>
      rw [hn] at h
      simp only [Option.some.injEq] at h
      rw [← h]
      exact pk_not_implemented_sticky backend _ r1 hn
  | some calls =>
    rw [hd] at h
    simp only at h
    split_ifs at h
    · simp only [Option.some.injEq] at h
      rw [← h]; simp [pk_sticky_scan]
    · simp only [Option.some.injEq] at h
      rw [← h]; simp [pk_sticky_scan]
    · simp only [Option.some.injEq] at h
      rw [← h]; simp [pk_sticky_scan]
    · cases hc : pk_backend_calls env calls backend with
      | none => rw [hc] at h; exact absurd h (by simp)
      | some r2 =>
        rw [hc] at h
        simp only [Option.some.injEq] at h
        rw [← h]
        simp only [pk_sticky_scan]
        exact pk_calls_sticky env calls backend r2 hc

theorem pk_step_sticky (env : PkBackendEnv) (desc : PkBackendDesc) (s : PkEngine)
    (e : PkBackendEvent) (r : PkEngine × List PkBackendEffect)
    (h : s.step env desc e = some r) :
    pk_sticky_scan s.backend.failed r.2 = some r.1.backend.failed := by
  cases e with
  | operation op =>
    simp only [PkEngine.step, Option.map_eq_some'] at h
    obtain ⟨r1, h1, h2⟩ := h
    rw [← h2]
    exact pk_operation_sticky env desc s.backend op r1 h1
  | cancel_job_try =>
    simp only [PkEngine.step, Option.map_eq_some'] at h
    obtain ⟨r1, h1, h2⟩ := h
    rw [← h2]
    exact pk_cancel_job_try_sticky env desc s.backend r1 h1
  | stdout line =>
    simp only [PkEngine.step] at h
    split_ifs at h
    simp only [pk_backend_spawn_stdout_cb, Option.map_eq_some'] at h
    obtain ⟨r1, ⟨r0, h0, h1⟩, h2⟩ := h
    rw [← h2, ← h1]
    exact pk_parse_common_output_sticky env s.backend _ r0 h0
  | stderr line =>
    simp only [PkEngine.step] at h
    split_ifs at h
    simp only [pk_backend_spawn_stderr_cb, Option.map_eq_some'] at h
    obtain ⟨r1, ⟨r0, h0, h1⟩, h2⟩ := h
    rw [← h2, ← h1]
    exact pk_parse_common_error_sticky env s.backend _ r0 h0
  | spawn_finished exitcode =>
    simp only [PkEngine.step] at h
    split_ifs at h
    simp only [Option.map_eq_some'] at h
    obtain ⟨r1, h1, h2⟩ := h
    rw [← h2]
    exact pk_spawn_finished_cb_sticky s.backend exitcode r1 h1
  | finished_delay =>
    simp only [PkEngine.step] at h
    split_ifs at h
    simp only [Option.some.injEq] at h
    rw [← h]
    exact pk_finished_delay_sticky s.backend
  | call c =>
    simp only [PkEngine.step, Option.map_eq_some'] at h
    obtain ⟨r1, h1, h2⟩ := h
    rw [← h2]
    exact pk_call_sticky env s.backend c r1 h1

theorem pk_run_sticky (env : PkBackendEnv) (desc : PkBackendDesc) (events : List PkBackendEvent)
    (s : PkEngine) (r : PkEngine × List PkBackendEffect)
    (h : s.run env desc events = some r) :
    pk_sticky_scan s.backend.failed r.2 = some r.1.backend.failed := by
  induction events generalizing s r with
  | nil =>
    simp only [PkEngine.run, Option.some.injEq] at h
    rw [← h]
    simp [pk_sticky_scan]
  | cons e rest ih =>
    simp only [PkEngine.run] at h
    cases h1 : s.step env desc e with
    | none => rw [h1] at h; exact absurd h (by simp)
    | some r1 =>
      rw [h1] at h
      simp only at h
      cases h2 : PkEngine.run env desc r1.1 rest with
      | none => rw [h2] at h; exact absurd h (by simp)
      | some r2 =>
        rw [h2] at h
        simp only [Option.some.injEq] at h
        rw [← h]
        exact pk_sticky_scan_compose _ _ _ _ _ (pk_step_sticky env desc s e r1 h1)
          (ih r1.1 r2 h2)

/-! ## The engine: claims on failure -/

/-- C14: sticky failure.  In every run of events of the main loop from any state of the
engine (role operations, cancel, lines of the helper, exits of the helper with any code,
scheduled callbacks, calls of plugin code): when the exit tag is *failed* at the start it
is *failed* at the end and every `finished` emitted in the run carries *failed*; when an
`error-code` is emitted in the run the exit tag is *failed* at the end; and every
`finished` emitted after an `error-code` carries *failed*. -/
theorem sticky_failure (env : PkBackendEnv) (desc : PkBackendDesc) (s : PkEngine)
    (events : List PkBackendEvent) (r : PkEngine × List PkBackendEffect)
    (h : s.run env desc events = some r) :
    (s.backend.exit = PkExitEnum.PK_EXIT_ENUM_FAILED →
      r.1.backend.exit = PkExitEnum.PK_EXIT_ENUM_FAILED ∧
      ∀ exit, PkBackendEffect.emit (PkBackendSignal.finished exit) ∈ r.2 →
        exit = PkExitEnum.PK_EXIT_ENUM_FAILED) ∧
    (∀ code buffer, PkBackendEffect.emit (PkBackendSignal.error_code code buffer) ∈ r.2 →
      r.1.backend.exit = PkExitEnum.PK_EXIT_ENUM_FAILED) ∧
    (∀ pre post code buffer exit,
      r.2 = pre ++ PkBackendEffect.emit (PkBackendSignal.error_code code buffer) :: post →
      PkBackendEffect.emit (PkBackendSignal.finished exit) ∈ post →
      exit = PkExitEnum.PK_EXIT_ENUM_FAILED) := by
  have hscan := pk_run_sticky env desc events s r h
  refine ⟨fun hs => ?_, fun code buffer hmem => ?_, fun pre post code buffer exit hr hmem => ?_⟩
  · have hf : s.backend.failed = true := by simp [PkBackend.failed, hs]
    rw [hf] at hscan
    refine ⟨?_, fun exit hmem => pk_sticky_scan_finished _ _ hscan exit hmem⟩
    have := pk_sticky_scan_mono _ _ _ hscan rfl
    simpa [PkBackend.failed] using this
  · have := pk_sticky_scan_error_code _ _ _ hscan code buffer hmem
    simpa [PkBackend.failed] using this
  · rw [hr] at hscan
    exact pk_sticky_scan_after_error _ _ pre post code buffer hscan exit hmem

theorem sticky_failure_witness :
    pk_example_engine.run pk_example_env pk_example_desc pk_example_failing_search
      = some (⟨pk_example_failed, 0⟩, pk_example_failing_effects) ∧
    pk_example_failed.exit = PkExitEnum.PK_EXIT_ENUM_FAILED :=
  ⟨by decide,
   (sticky_failure pk_example_env pk_example_desc pk_example_engine pk_example_failing_search
      (⟨pk_example_failed, 0⟩, pk_example_failing_effects) (by decide)).2.1
      PkErrorCodeEnum.PK_ERROR_ENUM_INTERNAL_ERROR "cannot search" (by decide)⟩

theorem pk_not_implemented_eq (backend : PkBackend) (method buffer : String)
    (hb : g_vsnprintf 1024 "the method '%s' is not implemented yet" [method] = some buffer) :
    pk_backend_not_implemented_yet backend method
      = some ⟨{ backend with exit := PkExitEnum.PK_EXIT_ENUM_FAILED }, true,
          [PkBackendEffect.emit
             (PkBackendSignal.error_code PkErrorCodeEnum.PK_ERROR_ENUM_NOT_SUPPORTED buffer),
           PkBackendEffect.emit (PkBackendSignal.finished PkExitEnum.PK_EXIT_ENUM_FAILED)]⟩ := by
  simp [pk_backend_not_implemented_yet, pk_backend_error_code, hb, pk_backend_finished_delay]

theorem pk_operation_eq_role_operation (env : PkBackendEnv) (desc : PkBackendDesc)
    (backend : PkBackend) (op : PkBackendOperation) :
    pk_backend_operation env desc backend op
      = pk_backend_role_operation env backend (desc.calls op) op.entry op.method op.role
          op.package_id := by
  cases op <;> rfl

theorem pk_desc_has_calls (desc : PkBackendDesc) (op : PkBackendOperation) :
    desc.has op.entry = (desc.calls op).isSome := by
  cases op <;> simp [PkBackendDesc.has, PkBackendOperation.entry, PkBackendDesc.calls]

theorem pk_method_format (op : PkBackendOperation) :
    g_vsnprintf 1024 "the method '%s' is not implemented yet" [op.method]
      = some ("the method '" ++ op.method ++ "' is not implemented yet") := by
  cases op <;> simp only [PkBackendOperation.method] <;> decide

theorem pk_operation_absent (env : PkBackendEnv) (desc : PkBackendDesc) (backend : PkBackend)
    (op : PkBackendOperation) (h : desc.calls op = none) :
    pk_backend_operation env desc backend op
      = some ⟨{ backend with exit := PkExitEnum.PK_EXIT_ENUM_FAILED }, false,
          [PkBackendEffect.emit
             (PkBackendSignal.error_code PkErrorCodeEnum.PK_ERROR_ENUM_NOT_SUPPORTED
               ("the method '" ++ op.method ++ "' is not implemented yet")),
           PkBackendEffect.emit (PkBackendSignal.finished PkExitEnum.PK_EXIT_ENUM_FAILED)]⟩ := by
  rw [pk_operation_eq_role_operation, h]
  simp [pk_backend_role_operation, pk_not_implemented_eq backend _ _ (pk_method_format op)]

/-- C15: the handler of the exit of the helper, `pk_backend_spawn_finished_cb`, on an
engine with a helper.  For an exit code other than 0 on an engine whose exit tag is not
*failed*, it emits one `error-code` with *internal-error* and nothing else, sets the exit
tag to *failed* and then joins the worker pool and schedules `finished`; the scheduled
callback run on that engine emits `finished` with *failed*.  For the exit code 0, or when
the exit tag is *failed* already, it emits nothing, leaves the exit tag as it is and joins
the pool and schedules `finished`. -/
theorem helper_exit_synthesises_error (backend : PkBackend) (exitcode : Int)
    (hspawn : backend.spawn = true) :
    (exitcode ≠ 0 → backend.exit ≠ PkExitEnum.PK_EXIT_ENUM_FAILED →
      pk_backend_spawn_finished_cb backend exitcode
        = some ⟨{ backend with spawn := false, exit := PkExitEnum.PK_EXIT_ENUM_FAILED }, true,
            [PkBackendEffect.emit
               (PkBackendSignal.error_code PkErrorCodeEnum.PK_ERROR_ENUM_INTERNAL_ERROR
                 "Helper returned non-zero return value but did not set error"),
             PkBackendEffect.thread_list_wait,
             PkBackendEffect.timeout_add 500]⟩ ∧
      (pk_backend_finished_delay
          { backend with spawn := false, exit := PkExitEnum.PK_EXIT_ENUM_FAILED }).effects
        = [PkBackendEffect.emit (PkBackendSignal.finished PkExitEnum.PK_EXIT_ENUM_FAILED)]) ∧
    (exitcode = 0 ∨ backend.exit = PkExitEnum.PK_EXIT_ENUM_FAILED →
      pk_backend_spawn_finished_cb backend exitcode
        = some ⟨{ backend with spawn := false }, true,
            [PkBackendEffect.thread_list_wait, PkBackendEffect.timeout_add 500]⟩) := by
  have hfmt : g_vsnprintf 1024 "Helper returned non-zero return value but did not set error" []
      = some "Helper returned non-zero return value but did not set error" := by decide
  refine ⟨fun hcode hexit => ⟨?_, rfl⟩, fun hor => ?_⟩
  · simp [pk_backend_spawn_finished_cb, pk_backend_spawn_helper_delete, hspawn, hcode, hexit,
      pk_backend_error_code, hfmt, pk_backend_finished]
  · have hc : ¬ (exitcode ≠ 0 ∧ backend.exit ≠ PkExitEnum.PK_EXIT_ENUM_FAILED) := by
      rintro ⟨h1, h2⟩
      rcases hor with h | h
      · exact h1 h
      · exact h2 h
    simp only [pk_backend_spawn_finished_cb, pk_backend_spawn_helper_delete, hspawn,
      Bool.true_eq_false, if_false, if_neg hc, pk_backend_finished]

theorem helper_exit_synthesises_error_witness :
    pk_example_busy.spawn = true ∧
    pk_backend_spawn_finished_cb pk_example_busy 1
      = some ⟨{ pk_example_busy with
                spawn := false, exit := PkExitEnum.PK_EXIT_ENUM_FAILED }, true,
          [PkBackendEffect.emit
             (PkBackendSignal.error_code PkErrorCodeEnum.PK_ERROR_ENUM_INTERNAL_ERROR
               "Helper returned non-zero return value but did not set error"),
           PkBackendEffect.thread_list_wait,
           PkBackendEffect.timeout_add 500]⟩ :=
  ⟨rfl, ((helper_exit_synthesises_error pk_example_busy 1 rfl).1 (by decide) (by decide)).1⟩

/-- C16: a role operation whose entry is absent from the plugin descriptor.  For each of
the fourteen role operations, on any engine, the operation returns FALSE, the effects are
exactly the emission of `error-code` with *not-supported* and the text
`the method '<name>' is not implemented yet`, followed by the emission of `finished` with
*failed*, and of the fields of the engine only the exit tag changes: the role, which is
*unknown* on an engine without a job, and `assigned` stay as they are. -/
theorem absent_entry_not_supported (env : PkBackendEnv) (desc : PkBackendDesc)
    (backend : PkBackend) (op : PkBackendOperation) (h : desc.has op.entry = false) :
    pk_backend_operation env desc backend op
      = some ⟨{ backend with exit := PkExitEnum.PK_EXIT_ENUM_FAILED }, false,
          [PkBackendEffect.emit
             (PkBackendSignal.error_code PkErrorCodeEnum.PK_ERROR_ENUM_NOT_SUPPORTED
               ("the method '" ++ op.method ++ "' is not implemented yet")),
           PkBackendEffect.emit (PkBackendSignal.finished PkExitEnum.PK_EXIT_ENUM_FAILED)]⟩ ∧
    ∀ r, pk_backend_operation env desc backend op = some r →
      r.ret = false ∧ r.backend.role = backend.role ∧ r.backend.assigned = backend.assigned ∧
      pk_signals r.effects
        = [PkBackendSignal.error_code PkErrorCodeEnum.PK_ERROR_ENUM_NOT_SUPPORTED
             ("the method '" ++ op.method ++ "' is not implemented yet"),
           PkBackendSignal.finished PkExitEnum.PK_EXIT_ENUM_FAILED] := by
  have hcalls : desc.calls op = none := by
    rw [pk_desc_has_calls] at h
    cases hc : desc.calls op with
    | none => rfl
    | some calls => simp [hc] at h
  have heq := pk_operation_absent env desc backend op hcalls
  refine ⟨heq, fun r hr => ?_⟩
  rw [heq] at hr
  simp only [Option.some.injEq] at hr
  subst hr
  exact ⟨rfl, rfl, rfl, rfl⟩

theorem absent_entry_not_supported_witness :
    pk_example_desc.has (PkBackendOperation.install_package "foo;1.0;i386;fedora").entry = false ∧
    pk_backend_operation pk_example_env pk_example_desc pk_example_engine.backend
        (PkBackendOperation.install_package "foo;1.0;i386;fedora")
      = some ⟨{ pk_example_engine.backend with exit := PkExitEnum.PK_EXIT_ENUM_FAILED }, false,
          [PkBackendEffect.emit
             (PkBackendSignal.error_code PkErrorCodeEnum.PK_ERROR_ENUM_NOT_SUPPORTED
               "the method 'InstallPackage' is not implemented yet"),
           PkBackendEffect.emit (PkBackendSignal.finished PkExitEnum.PK_EXIT_ENUM_FAILED)]⟩ :=
  ⟨rfl, (absent_entry_not_supported pk_example_env pk_example_desc pk_example_engine.backend
      (PkBackendOperation.install_package "foo;1.0;i386;fedora") rfl).1⟩

/-! ## The engine: claims on cancel -/

/-- C19: `pk_backend_cancel_job_try` on an engine whose plugin has a cancel hook.  When
the engine has a job assigned, is killable and has a helper, the hook is called on the
engine as it is, and the operation returns TRUE with the effects of the hook, as soon as
the hook returns.  Otherwise the operation returns FALSE, has no effect at all (no signal,
so no `error-code`) and leaves every field of the engine as it is.  So whenever the
operation returns, it returns TRUE exactly when the three conditions hold, and it calls
the hook exactly then. -/
theorem cancel_with_hook (env : PkBackendEnv) (desc : PkBackendDesc) (backend : PkBackend)
    (calls : List PkBackendCall) (h : desc.cancel_job_try = some calls) :
    (backend.assigned = true ∧ backend.is_killable = true ∧ backend.spawn = true →
      pk_backend_cancel_job_try env desc backend
        = (pk_backend_calls env calls backend).map (fun r =>
            ⟨r.1, true, PkBackendEffect.desc_call PkBackendEntry.cancel_job_try :: r.2⟩)) ∧
    (¬ (backend.assigned = true ∧ backend.is_killable = true ∧ backend.spawn = true) →
      pk_backend_cancel_job_try env desc backend = some ⟨backend, false, []⟩) ∧
    (∀ r, pk_backend_cancel_job_try env desc backend = some r →
      (r.ret = true ↔
        backend.assigned = true ∧ backend.is_killable = true ∧ backend.spawn = true) ∧
      (PkBackendEffect.desc_call PkBackendEntry.cancel_job_try ∈ r.effects ↔
        backend.assigned = true ∧ backend.is_killable = true ∧ backend.spawn = true)) := by
  have hyes : backend.assigned = true ∧ backend.is_killable = true ∧ backend.spawn = true →
      pk_backend_cancel_job_try env desc backend
        = (pk_backend_calls env calls backend).map (fun r =>
            ⟨r.1, true, PkBackendEffect.desc_call PkBackendEntry.cancel_job_try :: r.2⟩) := by
    rintro ⟨h1, h2, h3⟩
    simp only [pk_backend_cancel_job_try, h, h1, h2, h3, Bool.true_eq_false, if_false]
    cases pk_backend_calls env calls backend <;> rfl
  have hno : ¬ (backend.assigned = true ∧ backend.is_killable = true ∧ backend.spawn = true) →
      pk_backend_cancel_job_try env desc backend = some ⟨backend, false, []⟩ := by
    intro hc
    simp only [pk_backend_cancel_job_try, h]
    cases h1 : backend.assigned
    · simp
    · cases h2 : backend.is_killable
      · simp
      · cases h3 : backend.spawn
        · simp
        · exact absurd ⟨h1, h2, h3⟩ hc
  refine ⟨hyes, hno, fun r hr => ?_⟩
  by_cases hc : backend.assigned = true ∧ backend.is_killable = true ∧ backend.spawn = true
  · rw [hyes hc] at hr
    cases hcalls : pk_backend_calls env calls backend with
    | none => simp [hcalls] at hr
    | some r' =>
      simp only [hcalls, Option.map_some', Option.some.injEq] at hr
      subst hr
      simp [hc]
  · rw [hno hc] at hr
    simp only [Option.some.injEq] at hr
    subst hr
    simp [hc]

theorem cancel_with_hook_witness :
    pk_example_desc_cancel.cancel_job_try = some [PkBackendCall.spawn_kill] ∧
    pk_backend_cancel_job_try pk_example_env pk_example_desc_cancel pk_example_busy
      = some ⟨pk_example_busy, true,
          [PkBackendEffect.desc_call PkBackendEntry.cancel_job_try,
           PkBackendEffect.spawn_kill]⟩ :=
  ⟨rfl, (cancel_with_hook pk_example_env pk_example_desc_cancel pk_example_busy
      [PkBackendCall.spawn_kill] rfl).1 ⟨rfl, rfl, rfl⟩⟩

/-- C20, as stated, fails: on an engine in the middle of a search, with a
plugin that has no cancel hook, `pk_backend_cancel_job_try` returns FALSE, yet it emits
`error-code` with *not-supported* and `finished` with *failed*, and the exit tag goes from
*success* to *failed*. -/
theorem cancel_without_hook_has_effects :
    pk_example_desc.cancel_job_try = none ∧
    pk_example_busy.exit = PkExitEnum.PK_EXIT_ENUM_SUCCESS ∧
    pk_backend_cancel_job_try pk_example_env pk_example_desc pk_example_busy
      = some ⟨{ pk_example_busy with exit := PkExitEnum.PK_EXIT_ENUM_FAILED }, false,
          [PkBackendEffect.emit
             (PkBackendSignal.error_code PkErrorCodeEnum.PK_ERROR_ENUM_NOT_SUPPORTED
               "the method 'CancelJobTry' is not implemented yet"),
           PkBackendEffect.emit (PkBackendSignal.finished PkExitEnum.PK_EXIT_ENUM_FAILED)]⟩ := by
  decide

/-- C20, amended: on every engine whose plugin has no cancel hook,
`pk_backend_cancel_job_try` returns FALSE, emits `error-code` with *not-supported* and the
text `the method 'CancelJobTry' is not implemented yet`, then emits `finished` with
*failed* at once, and sets the exit tag to *failed*; every other field of the engine stays
as it is. -/
theorem cancel_without_hook (env : PkBackendEnv) (desc : PkBackendDesc) (backend : PkBackend)
    (h : desc.cancel_job_try = none) :
    pk_backend_cancel_job_try env desc backend
      = some ⟨{ backend with exit := PkExitEnum.PK_EXIT_ENUM_FAILED }, false,
          [PkBackendEffect.emit
             (PkBackendSignal.error_code PkErrorCodeEnum.PK_ERROR_ENUM_NOT_SUPPORTED
               "the method 'CancelJobTry' is not implemented yet"),
           PkBackendEffect.emit (PkBackendSignal.finished PkExitEnum.PK_EXIT_ENUM_FAILED)]⟩ := by
  have hfmt : g_vsnprintf 1024 "the method '%s' is not implemented yet" ["CancelJobTry"]
      = some "the method 'CancelJobTry' is not implemented yet" := by decide
  simp [pk_backend_cancel_job_try, h, pk_not_implemented_eq backend _ _ hfmt]

theorem cancel_without_hook_witness :
    pk_example_desc.cancel_job_try = none ∧
    pk_backend_cancel_job_try pk_example_env pk_example_desc pk_example_engine.backend
      = some ⟨{ pk_example_engine.backend with exit := PkExitEnum.PK_EXIT_ENUM_FAILED }, false,
          [PkBackendEffect.emit
             (PkBackendSignal.error_code PkErrorCodeEnum.PK_ERROR_ENUM_NOT_SUPPORTED
               "the method 'CancelJobTry' is not implemented yet"),
           PkBackendEffect.emit (PkBackendSignal.finished PkExitEnum.PK_EXIT_ENUM_FAILED)]⟩ :=
  ⟨rfl, cancel_without_hook pk_example_env pk_example_desc pk_example_engine.backend rfl⟩

/-! ## The engine: where `finished` comes from -/

theorem pk_scheduled_append (a b : List PkBackendEffect) :
    pk_scheduled (a ++ b) = pk_scheduled a + pk_scheduled b := by
  induction a with
  | nil => simp [pk_scheduled]
  | cons x rest ih =>
    cases x with
    | timeout_add n => simp [pk_scheduled, ih]; omega
    | _ => simp [pk_scheduled, ih]

theorem pk_signals_append (a b : List PkBackendEffect) :
    pk_signals (a ++ b) = pk_signals a ++ pk_signals b := by
  induction a with
  | nil => simp [pk_signals]
  | cons x rest ih =>
    cases x <;> simp [pk_signals, ih]

theorem pk_mem_signals (signal : PkBackendSignal) (effects : List PkBackendEffect) :
    signal ∈ pk_signals effects ↔ PkBackendEffect.emit signal ∈ effects := by
  induction effects with
  | nil => simp [pk_signals]
  | cons x rest ih =>
    cases x <;> simp [pk_signals, ih]

theorem pk_joined_mono (joined : Bool) (effects : List PkBackendEffect)
    (h : pk_joined false effects = true) : pk_joined joined effects = true := by
  cases effects with
  | nil => simp [pk_joined]
  | cons x rest =>
    cases x <;> simp_all [pk_joined]

theorem pk_joined_append (joined : Bool) (a b : List PkBackendEffect)
    (ha : pk_joined joined a = true) (hb : pk_joined false b = true) :
    pk_joined joined (a ++ b) = true := by
  induction a generalizing joined with
  | nil => exact pk_joined_mono joined b hb
  | cons x rest ih =>
    cases x with
    | timeout_add n =>
      simp only [pk_joined, Bool.and_eq_true] at ha
      simp only [List.cons_append, pk_joined, Bool.and_eq_true]
      exact ⟨ha.1, ih false ha.2⟩
    | thread_list_wait =>
      simp only [pk_joined] at ha
      simp only [List.cons_append, pk_joined]
      exact ih true ha
    | _ =>
      simp only [pk_joined] at ha
      simp only [List.cons_append, pk_joined]
      exact ih false ha

theorem pk_spawn_helper_internal_effects (env : PkBackendEnv) (backend : PkBackend)
    (script : String) (argument : Option String) (spawned : Bool) (r : PkBackendOutcome)
    (h : pk_backend_spawn_helper_internal env backend script argument spawned = some r) :
    (spawned = true ∧ ∃ command, r.effects = [PkBackendEffect.spawn_command command]) ∨
    (spawned = false ∧ ∃ command buffer,
      r.effects = [PkBackendEffect.spawn_command command,
        PkBackendEffect.emit
          (PkBackendSignal.error_code PkErrorCodeEnum.PK_ERROR_ENUM_INTERNAL_ERROR buffer),
        PkBackendEffect.thread_list_wait, PkBackendEffect.timeout_add 500]) := by
  unfold pk_backend_spawn_helper_internal at h
  cases hsp : backend.spawn with
  | true => simp [pk_backend_spawn_helper_new, hsp] at h
  | false =>
    cases spawned with
    | true =>
      simp [pk_backend_spawn_helper_new, hsp] at h
      rw [← h]
      exact Or.inl ⟨rfl, _, rfl⟩
    | false =>
      simp only [pk_backend_spawn_helper_new, pk_backend_spawn_helper_delete, hsp,
        Bool.false_eq_true, Bool.true_eq_false, if_false, if_true] at h
      split at h
      · simp at h
      · rename_i r3 he
        simp only [Option.some.injEq] at h
        simp only [pk_backend_error_code] at he
        split at he
        · simp at he
        · rename_i buffer hb
          simp only [Option.some.injEq] at he
          rw [← h, ← he]
          exact Or.inr ⟨rfl, _, buffer, rfl⟩

theorem pk_call_tally (env : PkBackendEnv) (backend : PkBackend) (c : PkBackendCall)
    (r : PkBackendOutcome) (h : pk_backend_call env backend c = some r) :
    pk_joined false r.effects = true ∧
    (c.inline = false →
      (∀ exit, PkBackendEffect.emit (PkBackendSignal.finished exit) ∉ r.effects) ∧
      pk_scheduled r.effects = if c.closing = true then 1 else 0) := by
  cases c with
  | set_job_role role package_id =>
    simp only [pk_backend_call, pk_backend_set_job_role] at h
    split_ifs at h
    simp only [Option.some.injEq] at h
    subst h
    simp [pk_joined, pk_scheduled, PkBackendCall.closing]
  | error_code code format args =>
    simp only [pk_backend_call, pk_backend_error_code] at h
    cases hb : g_vsnprintf 1024 format args with
    | none => simp [hb] at h
    | some buffer =>
      simp only [hb, Option.some.injEq] at h
      subst h
      simp [pk_joined, pk_scheduled, PkBackendCall.closing]
  | spawn_helper script args spawned =>
    obtain ⟨arguments, _, hi⟩ := pk_spawn_helper_some env backend script args spawned r h
    rcases pk_spawn_helper_internal_effects env backend script _ spawned r hi with
      ⟨hs, command, he⟩ | ⟨hs, command, buffer, he⟩
    · subst hs
      simp [he, pk_joined, pk_scheduled, PkBackendCall.closing]
    · subst hs
      simp [he, pk_joined, pk_scheduled, PkBackendCall.closing]
  | not_implemented_yet method =>
    simp only [pk_backend_call, pk_backend_not_implemented_yet, pk_backend_error_code,
      pk_backend_finished_delay] at h
    cases hb : g_vsnprintf 1024 "the method '%s' is not implemented yet" [method] with
    | none => simp [hb] at h
    | some buffer =>
      simp only [hb, Option.some.injEq] at h
      subst h
      simp [pk_joined, PkBackendCall.inline]
  | spawn_kill =>
    simp only [pk_backend_call, pk_backend_spawn_kill, Option.some.injEq] at h
    subst h
    by_cases hsp : backend.spawn = false <;>
      simp [hsp, pk_joined, pk_scheduled, PkBackendCall.closing]
  | _ =>
    simp only [pk_backend_call, Option.some.injEq] at h
    subst h
    simp [pk_joined, pk_scheduled, PkBackendCall.closing, pk_backend_change_percentage,
      pk_backend_change_sub_percentage, pk_backend_change_job_status, pk_backend_package,
      pk_backend_update_detail, pk_backend_require_restart, pk_backend_description,
      pk_backend_finished, pk_backend_no_percentage_updates, pk_backend_allow_interrupt,
      pk_backend_thread_create]

theorem pk_calls_tally (env : PkBackendEnv) (calls : List PkBackendCall)
    (backend : PkBackend) (r : PkBackend × List PkBackendEffect)
    (h : pk_backend_calls env calls backend = some r) :
    pk_joined false r.2 = true ∧
    (calls.any PkBackendCall.inline = false →
      (∀ exit, PkBackendEffect.emit (PkBackendSignal.finished exit) ∉ r.2) ∧
      pk_scheduled r.2 = (calls.filter PkBackendCall.closing).length) := by
  induction calls generalizing backend r with
  | nil =>
    simp only [pk_backend_calls, Option.some.injEq] at h
    subst h
    simp [pk_joined, pk_scheduled]
  | cons c rest ih =>
    simp only [pk_backend_calls] at h
    cases h1 : pk_backend_call env backend c with
    | none => rw [h1] at h; exact absurd h (by simp)
    | some r1 =>
      rw [h1] at h
      simp only at h
      cases h2 : pk_backend_calls env rest r1.backend with
      | none => rw [h2] at h; exact absurd h (by simp)
      | some r2 =>
        rw [h2] at h
        simp only [Option.some.injEq] at h
        subst h
        obtain ⟨hj1, ht1⟩ := pk_call_tally env backend c r1 h1
        obtain ⟨hj2, ht2⟩ := ih r1.backend r2 h2
        refine ⟨pk_joined_append _ _ _ hj1 hj2, fun hin => ?_⟩
        simp only [List.any_cons, Bool.or_eq_false_iff] at hin
        obtain ⟨hf1, hs1⟩ := ht1 hin.1
        obtain ⟨hf2, hs2⟩ := ht2 hin.2
        refine ⟨fun exit hmem => ?_, ?_⟩
        · rcases List.mem_append.mp hmem with hm | hm
          · exact hf1 exit hm
          · exact hf2 exit hm
        · simp only [pk_scheduled_append, hs1, hs2, List.filter_cons]
          by_cases hc : c.closing = true
          · simp [hc]; omega
          · simp [hc]

theorem pk_quiet_not_inline (c : PkBackendCall) (h : c.quiet = true) :
    c.inline = false ∧ c.closing = false := by
  cases c <;> simp_all [PkBackendCall.quiet, PkBackendCall.inline, PkBackendCall.closing]

theorem pk_calls_quiet (calls : List PkBackendCall)
    (h : calls.all PkBackendCall.quiet = true) :
    calls.any PkBackendCall.inline = false ∧
    (calls.filter PkBackendCall.closing).length = 0 := by
  induction calls with
  | nil => simp
  | cons c rest ih =>
    simp only [List.all_cons, Bool.and_eq_true] at h
    obtain ⟨h1, h2⟩ := pk_quiet_not_inline c h.1
    obtain ⟨h3, h4⟩ := ih h.2
    simp only [List.any_cons, h1, h3, Bool.or_self, List.filter_cons, h2,
      Bool.false_eq_true, if_false, h4, and_self]

theorem pk_not_implemented_joined (backend : PkBackend) (method : String)
    (r : PkBackendOutcome) (h : pk_backend_not_implemented_yet backend method = some r) :
    pk_joined false r.effects = true ∧ pk_scheduled r.effects = 0 := by
  simp only [pk_backend_not_implemented_yet, pk_backend_error_code,
    pk_backend_finished_delay] at h
  cases hb : g_vsnprintf 1024 "the method '%s' is not implemented yet" [method] with
  | none => simp [hb] at h
  | some buffer =>
    simp only [hb, Option.some.injEq] at h
    subst h
    simp [pk_joined, pk_scheduled]

theorem pk_role_operation_tally (env : PkBackendEnv) (backend : PkBackend)
    (entry : Option (List PkBackendCall)) (name : PkBackendEntry) (method : String)
    (role : PkRoleEnum) (package_id : Option String) (r : PkBackendOutcome)
    (h : pk_backend_role_operation env backend entry name method role package_id = some r) :
    pk_joined false r.effects = true ∧
    (∀ calls, entry = some calls → calls.any PkBackendCall.inline = false →
      (∀ exit, PkBackendEffect.emit (PkBackendSignal.finished exit) ∉ r.effects) ∧
      pk_scheduled r.effects = (calls.filter PkBackendCall.closing).length) := by
  unfold pk_backend_role_operation at h
  cases entry with
  | none =>
    simp only at h
    cases hn : pk_backend_not_implemented_yet backend method with
    | none => rw [hn] at h; exact absurd h (by simp)
    | some r1 =>
      rw [hn] at h
      simp only [Option.some.injEq] at h
      subst h
      exact ⟨(pk_not_implemented_joined backend method r1 hn).1,
        fun calls hc => absurd hc (by simp)⟩
  | some calls =>
    simp only at h
    cases hr : pk_backend_set_job_role backend role package_id with
    | none => rw [hr] at h; exact absurd h (by simp)
    | some r1 =>
      rw [hr] at h
      simp only at h
      cases hc : pk_backend_calls env calls r1.backend with
      | none => rw [hc] at h; exact absurd h (by simp)
      | some r2 =>
        rw [hc] at h
        simp only [Option.some.injEq] at h
        subst h
        have h1 : r1.effects = [] := by
          simp only [pk_backend_set_job_role] at hr
          split_ifs at hr
          simp only [Option.some.injEq] at hr
          rw [← hr]
        obtain ⟨hj, ht⟩ := pk_calls_tally env calls r1.backend r2 hc
        simp only [h1, List.nil_append]
        refine ⟨by simpa [pk_joined] using hj, fun calls' heq hin => ?_⟩
        simp only [Option.some.injEq] at heq
        subst heq
        obtain ⟨hf, hs⟩ := ht hin
        refine ⟨fun exit hmem => ?_, by simpa [pk_scheduled] using hs⟩
        rcases List.mem_cons.mp hmem with hm | hm
        · simp at hm
        · exact hf exit hm

theorem pk_cancel_job_try_tally (env : PkBackendEnv) (desc : PkBackendDesc)
    (backend : PkBackend) (r : PkBackendOutcome)
    (h : pk_backend_cancel_job_try env desc backend = some r) :
    pk_joined false r.effects = true ∧
    (∀ calls, desc.cancel_job_try = some calls → calls.any PkBackendCall.inline = false →
      ∀ exit, PkBackendEffect.emit (PkBackendSignal.finished exit) ∉ r.effects) ∧
    (∀ calls, desc.cancel_job_try = some calls → calls.all PkBackendCall.quiet = true →
      pk_scheduled r.effects = 0) := by
  unfold pk_backend_cancel_job_try at h
  cases hd : desc.cancel_job_try with
  | none =>
    rw [hd] at h
    simp only at h
    cases hn : pk_backend_not_implemented_yet backend "CancelJobTry" with
    | none => rw [hn] at h; exact absurd h (by simp)
    | some r1 =>
      rw [hn] at h
      simp only [Option.some.injEq] at h
      subst h
      exact ⟨(pk_not_implemented_joined backend _ r1 hn).1,
        fun calls hc => absurd hc (by simp), fun calls hc => absurd hc (by simp)⟩
  | some calls =>
    rw [hd] at h
    simp only at h
    split_ifs at h
    · simp only [Option.some.injEq] at h
      subst h
      simp [pk_joined, pk_scheduled]
    · simp only [Option.some.injEq] at h
      subst h
      simp [pk_joined, pk_scheduled]
    · simp only [Option.some.injEq] at h
      subst h
      simp [pk_joined, pk_scheduled]
    · cases hc : pk_backend_calls env calls backend with
      | none => rw [hc] at h; exact absurd h (by simp)
      | some r2 =>
        rw [hc] at h
        simp only [Option.some.injEq] at h
        subst h
        obtain ⟨hj, ht⟩ := pk_calls_tally env calls backend r2 hc
        refine ⟨by simpa [pk_joined] using hj, fun calls' heq hin exit hmem => ?_,
          fun calls' heq hq => ?_⟩
        · simp only [Option.some.injEq] at heq
          subst heq
          rcases List.mem_cons.mp hmem with hm | hm
          · simp at hm
          · exact (ht hin).1 exit hm
        · simp only [Option.some.injEq] at heq
          subst heq
          obtain ⟨h1, h2⟩ := pk_calls_quiet calls hq
          have := (ht h1).2
          simpa [pk_scheduled, h2] using this

theorem pk_spawn_finished_cb_tally (backend : PkBackend) (exitcode : Int)
    (r : PkBackendOutcome) (h : pk_backend_spawn_finished_cb backend exitcode = some r) :
    pk_joined false r.effects = true ∧
    (∀ exit, PkBackendEffect.emit (PkBackendSignal.finished exit) ∉ r.effects) ∧
    pk_scheduled r.effects = 1 := by
  unfold pk_backend_spawn_finished_cb at h
  cases hd : pk_backend_spawn_helper_delete backend with
  | none => rw [hd] at h; exact absurd h (by simp)
  | some r1 =>
    rw [hd] at h
    simp only at h
    split_ifs at h
    · simp only [pk_backend_error_code] at h
      split at h
      · exact absurd h (by simp)
      · rename_i r2 he
        split at he
        · exact absurd he (by simp)
        · simp only [Option.some.injEq] at h he
          subst h
          rw [← he]
          simp [pk_backend_finished, pk_joined, pk_scheduled]
    · simp only [Option.some.injEq] at h
      subst h
      simp [pk_backend_finished, pk_joined, pk_scheduled]

theorem pk_quiet_outcome_tally (env : PkBackendEnv) (backend : PkBackend)
    (r : PkBackendOutcome)
    (h : (r.backend = backend ∧ r.effects = []) ∨
      ∃ c r', c.quiet = true ∧ pk_backend_call env backend c = some r' ∧
        r.backend = r'.backend ∧ r.effects = r'.effects) :
    pk_joined false r.effects = true ∧
    (∀ exit, PkBackendEffect.emit (PkBackendSignal.finished exit) ∉ r.effects) ∧
    pk_scheduled r.effects = 0 := by
  rcases h with ⟨_, he⟩ | ⟨c, r', hq, hc, _, he⟩
  · simp [he, pk_joined, pk_scheduled]
  · obtain ⟨h1, h2⟩ := pk_quiet_not_inline c hq
    obtain ⟨hj, ht⟩ := pk_call_tally env backend c r' hc
    obtain ⟨hf, hs⟩ := ht h1
    rw [he]
    refine ⟨hj, hf, ?_⟩
    simpa [h2] using hs

theorem pk_step_tally (env : PkBackendEnv) (desc : PkBackendDesc) (s : PkEngine)
    (e : PkBackendEvent) (r : PkEngine × List PkBackendEffect)
    (h : s.step env desc e = some r) :
    pk_joined false r.2 = true ∧
    (e ≠ PkBackendEvent.finished_delay → r.1.pending = s.pending + pk_scheduled r.2) ∧
    (e ≠ PkBackendEvent.finished_delay → e.inline desc = false →
      ∀ exit, PkBackendEffect.emit (PkBackendSignal.finished exit) ∉ r.2) ∧
    (∀ n, e.schedules desc = some n →
      (∀ exit, PkBackendEffect.emit (PkBackendSignal.finished exit) ∉ r.2) ∧
      pk_scheduled r.2 = n) := by
  cases e with
  | operation op =>
    simp only [PkEngine.step, Option.map_eq_some'] at h
    obtain ⟨r1, h1, h2⟩ := h
    subst h2
    rw [pk_operation_eq_role_operation] at h1
    obtain ⟨hj, ht⟩ := pk_role_operation_tally env s.backend _ _ _ _ _ r1 h1
    refine ⟨hj, fun _ => rfl, fun _ hin => ?_, fun n hn => ?_⟩
    · simp only [PkBackendEvent.inline] at hin
      cases hc : desc.calls op with
      | none => simp [hc] at hin
      | some calls =>
        simp only [hc] at hin
        exact (ht calls hc hin).1
    · simp only [PkBackendEvent.schedules] at hn
      cases hc : desc.calls op with
      | none => simp [hc] at hn
      | some calls =>
        simp only [hc] at hn
        by_cases hin : calls.any PkBackendCall.inline = true
        · simp [hin] at hn
        · simp only [hin, Bool.false_eq_true, if_false, Option.some.injEq] at hn
          obtain ⟨hf, hs⟩ := ht calls hc (by simpa using hin)
          exact ⟨hf, by rw [← hn]; exact hs⟩
  | cancel_job_try =>
    simp only [PkEngine.step, Option.map_eq_some'] at h
    obtain ⟨r1, h1, h2⟩ := h
    subst h2
    obtain ⟨hj, hf, hs⟩ := pk_cancel_job_try_tally env desc s.backend r1 h1
    refine ⟨hj, fun _ => rfl, fun _ hin => ?_, fun n hn => ?_⟩
    · simp only [PkBackendEvent.inline] at hin
      cases hc : desc.cancel_job_try with
      | none => simp [hc] at hin
      | some calls =>
        simp only [hc] at hin
        exact hf calls hc hin
    · simp only [PkBackendEvent.schedules] at hn
      cases hc : desc.cancel_job_try with
      | none => simp [hc] at hn
      | some calls =>
        simp only [hc] at hn
        by_cases hq : calls.all PkBackendCall.quiet = true
        · simp only [hq, if_true, Option.some.injEq] at hn
          exact ⟨hf calls hc (pk_calls_quiet calls hq).1, by rw [← hn]; exact hs calls hc hq⟩
        · simp [hq] at hn
  | stdout line =>
    simp only [PkEngine.step] at h
    split_ifs at h
    simp only [pk_backend_spawn_stdout_cb, Option.map_eq_some'] at h
    obtain ⟨r1, ⟨r0, h0, h1⟩, h2⟩ := h
    subst h2
    subst h1
    obtain ⟨hj, hf, hs⟩ := pk_quiet_outcome_tally env s.backend r0
      (pk_parse_common_output_cases env s.backend _ r0 h0)
    refine ⟨hj, fun _ => rfl, fun _ _ => hf, fun n hn => ?_⟩
    simp only [PkBackendEvent.schedules, Option.some.injEq] at hn
    exact ⟨hf, by rw [← hn]; exact hs⟩
  | stderr line =>
    simp only [PkEngine.step] at h
    split_ifs at h
    simp only [pk_backend_spawn_stderr_cb, Option.map_eq_some'] at h
    obtain ⟨r1, ⟨r0, h0, h1⟩, h2⟩ := h
    subst h2
    subst h1
    obtain ⟨hj, hf, hs⟩ := pk_quiet_outcome_tally env s.backend r0
      (pk_parse_common_error_cases env s.backend _ r0 h0)
    refine ⟨hj, fun _ => rfl, fun _ _ => hf, fun n hn => ?_⟩
    simp only [PkBackendEvent.schedules, Option.some.injEq] at hn
    exact ⟨hf, by rw [← hn]; exact hs⟩
  | spawn_finished exitcode =>
    simp only [PkEngine.step] at h
    split_ifs at h
    simp only [Option.map_eq_some'] at h
    obtain ⟨r1, h1, h2⟩ := h
    subst h2
    obtain ⟨hj, hf, hs⟩ := pk_spawn_finished_cb_tally s.backend exitcode r1 h1
    refine ⟨hj, fun _ => rfl, fun _ _ => hf, fun n hn => ?_⟩
    simp only [PkBackendEvent.schedules, Option.some.injEq] at hn
    exact ⟨hf, by rw [← hn]; exact hs⟩
  | finished_delay =>
    simp only [PkEngine.step] at h
    split_ifs at h
    simp only [Option.some.injEq] at h
    subst h
    refine ⟨by simp [pk_backend_finished_delay, pk_joined], fun hne => absurd rfl hne,
      fun hne => absurd rfl hne, fun n hn => ?_⟩
    simp [PkBackendEvent.schedules] at hn
  | call c =>
    simp only [PkEngine.step, Option.map_eq_some'] at h
    obtain ⟨r1, h1, h2⟩ := h
    subst h2
    obtain ⟨hj, ht⟩ := pk_call_tally env s.backend c r1 h1
    refine ⟨hj, fun _ => rfl, fun _ hin => (ht hin).1, fun n hn => ?_⟩
    simp only [PkBackendEvent.schedules] at hn
    by_cases hin : c.inline = true
    · simp [hin] at hn
    · simp only [hin, Bool.false_eq_true, if_false, Option.some.injEq] at hn
      obtain ⟨hf, hs⟩ := ht (by simpa using hin)
      exact ⟨hf, by rw [← hn]; exact hs⟩

theorem pk_run_snoc (env : PkBackendEnv) (desc : PkBackendDesc) (pre : List PkBackendEvent)
    (e : PkBackendEvent) (s : PkEngine) :
    s.run env desc (pre ++ [e])
      = (s.run env desc pre).bind (fun r0 =>
          (r0.1.step env desc e).map (fun r => (r.1, r0.2 ++ r.2))) := by
  induction pre generalizing s with
  | nil =>
    simp only [List.nil_append, PkEngine.run, Option.some_bind, List.nil_append]
    cases s.step env desc e <;> simp
  | cons x rest ih =>
    simp only [List.cons_append, PkEngine.run]
    cases hx : s.step env desc x with
    | none => simp
    | some r1 =>
      simp only [List.append_eq]
      rw [ih r1.1]
      cases h0 : PkEngine.run env desc r1.1 rest with
      | none => simp
      | some r0 =>
        simp only [Option.some_bind]
        cases r0.1.step env desc e <;> simp [List.append_assoc]

theorem pk_run_quiet (env : PkBackendEnv) (desc : PkBackendDesc) (events : List PkBackendEvent)
    (s : PkEngine) (r : PkEngine × List PkBackendEffect)
    (hq : ∀ e ∈ events, e.schedules desc = some 0)
    (h : s.run env desc events = some r) :
    (∀ exit, PkBackendEffect.emit (PkBackendSignal.finished exit) ∉ r.2) ∧
    r.1.pending = s.pending := by
  induction events generalizing s r with
  | nil =>
    simp only [PkEngine.run, Option.some.injEq] at h
    subst h
    simp
  | cons e rest ih =>
    simp only [PkEngine.run] at h
    cases h1 : s.step env desc e with
    | none => rw [h1] at h; exact absurd h (by simp)
    | some r1 =>
      rw [h1] at h
      simp only at h
      cases h2 : PkEngine.run env desc r1.1 rest with
      | none => rw [h2] at h; exact absurd h (by simp)
      | some r2 =>
        rw [h2] at h
        simp only [Option.some.injEq] at h
        subst h
        have he := hq e (List.mem_cons_self _ _)
        have hne : e ≠ PkBackendEvent.finished_delay := by
          intro heq
          rw [heq] at he
          simp [PkBackendEvent.schedules] at he
        obtain ⟨_, hp, _, ht⟩ := pk_step_tally env desc s e r1 h1
        obtain ⟨hf1, hs1⟩ := ht 0 he
        obtain ⟨hf2, hp2⟩ := ih r1.1 r2 (fun x hx => hq x (List.mem_cons_of_mem _ hx)) h2
        refine ⟨fun exit hmem => ?_, ?_⟩
        · rcases List.mem_append.mp hmem with hm | hm
          · exact hf1 exit hm
          · exact hf2 exit hm
        · rw [hp2, hp hne, hs1]
          rfl

theorem pk_cancel_job_try_absent (env : PkBackendEnv) (desc : PkBackendDesc)
    (backend : PkBackend) (h : desc.cancel_job_try = none) :
    pk_backend_cancel_job_try env desc backend
      = some ⟨{ backend with exit := PkExitEnum.PK_EXIT_ENUM_FAILED }, false,
          [PkBackendEffect.emit
             (PkBackendSignal.error_code PkErrorCodeEnum.PK_ERROR_ENUM_NOT_SUPPORTED
               "the method 'CancelJobTry' is not implemented yet"),
           PkBackendEffect.emit (PkBackendSignal.finished PkExitEnum.PK_EXIT_ENUM_FAILED)]⟩ := by
  have hfmt : g_vsnprintf 1024 "the method '%s' is not implemented yet" ["CancelJobTry"]
      = some "the method 'CancelJobTry' is not implemented yet" := by decide
  simp [pk_backend_cancel_job_try, h, pk_not_implemented_eq backend _ _ hfmt]

/-! ## The engine: claims on `finished` -/

/-- C17, as stated, fails: a sequence of operations and helper events can
deliver `finished` twice, with events after the first.  In a search during which the
daemon asks to cancel, the plugin having no cancel hook, the cancel emits `error-code` and
`finished` at once, and the exit of the helper emits `finished` again; and two role
operations that the plugin does not have emit `finished` one after the other. -/
theorem finished_delivered_twice :
    (pk_example_engine.run pk_example_env pk_example_desc pk_example_cancelled_search).map
        (fun r => pk_signals r.2)
      = some [PkBackendSignal.job_status_changed PkStatusEnum.PK_STATUS_ENUM_QUERY,
          PkBackendSignal.error_code PkErrorCodeEnum.PK_ERROR_ENUM_NOT_SUPPORTED
            "the method 'CancelJobTry' is not implemented yet",
          PkBackendSignal.finished PkExitEnum.PK_EXIT_ENUM_FAILED,
          PkBackendSignal.finished PkExitEnum.PK_EXIT_ENUM_FAILED] ∧
    (pk_example_engine.run pk_example_env pk_example_desc pk_example_two_absent).map
        (fun r => pk_signals r.2)
      = some [PkBackendSignal.error_code PkErrorCodeEnum.PK_ERROR_ENUM_NOT_SUPPORTED
            "the method 'GetUpdates' is not implemented yet",
          PkBackendSignal.finished PkExitEnum.PK_EXIT_ENUM_FAILED,
          PkBackendSignal.error_code PkErrorCodeEnum.PK_ERROR_ENUM_NOT_SUPPORTED
            "the method 'UpdateSystem' is not implemented yet",
          PkBackendSignal.finished PkExitEnum.PK_EXIT_ENUM_FAILED] := by
  decide

/-- C17, amended: one job, nothing of which goes through
`pk_backend_not_implemented_yet`.  On an engine with no callback pending, take any events
`pre` that schedule no `finished` (a role operation whose entry is present, a cancel whose
hook is present, lines of the helper, calls of plugin code, none of which calls
`pk_backend_finished` or fails to spawn), then one event `close` that schedules
`finished` once (the exit of the helper, or a role operation or a call of plugin code that
calls `pk_backend_finished` or fails to spawn, once).  When these events run, no
`finished` has been delivered after them, the scheduled callback can run, and with it the
signals delivered are those of the events followed by one `finished`, which carries the
exit tag of the engine and is last. -/
theorem one_finished_last (env : PkBackendEnv) (desc : PkBackendDesc) (s : PkEngine)
    (pre : List PkBackendEvent) (close : PkBackendEvent)
    (r1 : PkEngine × List PkBackendEffect)
    (hpending : s.pending = 0)
    (hpre : ∀ e ∈ pre, e.schedules desc = some 0)
    (hclose : close.schedules desc = some 1)
    (h : s.run env desc (pre ++ [close]) = some r1) :
    (∀ exit, PkBackendSignal.finished exit ∉ pk_signals r1.2) ∧
    s.run env desc (pre ++ [close, PkBackendEvent.finished_delay])
      = some (⟨r1.1.backend, 0⟩,
          r1.2 ++ [PkBackendEffect.emit (PkBackendSignal.finished r1.1.backend.exit)]) ∧
    pk_signals (r1.2 ++ [PkBackendEffect.emit (PkBackendSignal.finished r1.1.backend.exit)])
      = pk_signals r1.2 ++ [PkBackendSignal.finished r1.1.backend.exit] := by
  have h' := h
  rw [pk_run_snoc] at h'
  cases h0 : s.run env desc pre with
  | none => rw [h0] at h'; exact absurd h' (by simp)
  | some r0 =>
    rw [h0] at h'
    simp only [Option.some_bind, Option.map_eq_some'] at h'
    obtain ⟨r', hstep, hr1⟩ := h'
    obtain ⟨hf0, hp0⟩ := pk_run_quiet env desc pre s r0 hpre h0
    have hne : close ≠ PkBackendEvent.finished_delay := by
      intro heq
      rw [heq] at hclose
      simp [PkBackendEvent.schedules] at hclose
    obtain ⟨_, hp, _, ht⟩ := pk_step_tally env desc r0.1 close r' hstep
    obtain ⟨hf1, hs1⟩ := ht 1 hclose
    have hpend : r1.1.pending = 1 := by
      rw [← hr1]
      simp only
      rw [hp hne, hs1, hp0, hpending]
    have hnone : ∀ exit, PkBackendEffect.emit (PkBackendSignal.finished exit) ∉ r1.2 := by
      intro exit hmem
      rw [← hr1] at hmem
      rcases List.mem_append.mp hmem with hm | hm
      · exact hf0 exit hm
      · exact hf1 exit hm
    refine ⟨fun exit hmem => hnone exit ((pk_mem_signals _ _).mp hmem), ?_, ?_⟩
    · have happ : pre ++ [close, PkBackendEvent.finished_delay]
          = (pre ++ [close]) ++ [PkBackendEvent.finished_delay] := by simp
      rw [happ, pk_run_snoc, h]
      simp [PkEngine.step, hpend, pk_backend_finished_delay]
    · rw [pk_signals_append]
      rfl

theorem one_finished_last_witness :
    pk_example_engine.pending = 0 ∧
    (∀ e ∈ pk_example_search, e.schedules pk_example_desc = some 0) ∧
    (PkBackendEvent.spawn_finished 0).schedules pk_example_desc = some 1 ∧
    pk_example_engine.run pk_example_env pk_example_desc
        (pk_example_search ++ [PkBackendEvent.spawn_finished 0, PkBackendEvent.finished_delay])
      = some (⟨pk_example_searched, 0⟩,
          pk_example_search_effects ++
            [PkBackendEffect.emit (PkBackendSignal.finished PkExitEnum.PK_EXIT_ENUM_SUCCESS)]) :=
  ⟨rfl, by decide, rfl,
   (one_finished_last pk_example_env pk_example_desc pk_example_engine pk_example_search
      (PkBackendEvent.spawn_finished 0) (⟨pk_example_searched, 1⟩, pk_example_search_effects)
      rfl (by decide) rfl (by decide)).2.1⟩

/-- C18, as stated, fails: the role operation `get_updates`, that the plugin
of the example does not have, emits `finished` before it returns, in the step of the
operation itself, with no join of the worker pool and no callback scheduled. -/
theorem finished_emitted_inline :
    pk_example_engine.step pk_example_env pk_example_desc
        (PkBackendEvent.operation PkBackendOperation.get_updates)
      = some (⟨{ pk_example_engine.backend with exit := PkExitEnum.PK_EXIT_ENUM_FAILED }, 0⟩,
          [PkBackendEffect.emit
             (PkBackendSignal.error_code PkErrorCodeEnum.PK_ERROR_ENUM_NOT_SUPPORTED
               "the method 'GetUpdates' is not implemented yet"),
           PkBackendEffect.emit (PkBackendSignal.finished PkExitEnum.PK_EXIT_ENUM_FAILED)]) := by
  decide

/-- C18, amended: `finished` is deferred except on the path of
`pk_backend_not_implemented_yet`.  In every step of the main loop: a `finished` is emitted
only by the scheduled callback or by an event that goes through
`pk_backend_not_implemented_yet` (a role operation or a cancel whose entry is absent, or
plugin code that calls it); a role operation whose entry is absent and a cancel without a
hook do emit `error-code` and `finished` at once, and nothing else; the callback runs only
when one is pending, and emits `finished` with the exit tag and nothing else; every other
event adds the callbacks it schedules to the pending ones; and every scheduling of the
callback comes right after the join of the worker pool.  So the role operations with a
present entry, the cancel with a hook, the failed spawn and the exit of the helper emit no
`finished` before they return, as long as the plugin code does not call
`pk_backend_not_implemented_yet`. -/
theorem finished_deferred_unless_not_implemented (env : PkBackendEnv) (desc : PkBackendDesc)
    (s : PkEngine) (e : PkBackendEvent) (r : PkEngine × List PkBackendEffect)
    (h : s.step env desc e = some r) :
    (∀ exit, PkBackendEffect.emit (PkBackendSignal.finished exit) ∈ r.2 →
      e = PkBackendEvent.finished_delay ∨ e.inline desc = true) ∧
    (∀ op, e = PkBackendEvent.operation op → desc.calls op = none →
      r.2 = [PkBackendEffect.emit
               (PkBackendSignal.error_code PkErrorCodeEnum.PK_ERROR_ENUM_NOT_SUPPORTED
                 ("the method '" ++ op.method ++ "' is not implemented yet")),
             PkBackendEffect.emit (PkBackendSignal.finished PkExitEnum.PK_EXIT_ENUM_FAILED)]) ∧
    (e = PkBackendEvent.cancel_job_try → desc.cancel_job_try = none →
      r.2 = [PkBackendEffect.emit
               (PkBackendSignal.error_code PkErrorCodeEnum.PK_ERROR_ENUM_NOT_SUPPORTED
                 "the method 'CancelJobTry' is not implemented yet"),
             PkBackendEffect.emit (PkBackendSignal.finished PkExitEnum.PK_EXIT_ENUM_FAILED)]) ∧
    (e = PkBackendEvent.finished_delay →
      0 < s.pending ∧
      r = (⟨s.backend, s.pending - 1⟩,
        [PkBackendEffect.emit (PkBackendSignal.finished s.backend.exit)])) ∧
    (e ≠ PkBackendEvent.finished_delay → r.1.pending = s.pending + pk_scheduled r.2) ∧
    pk_joined false r.2 = true := by
  obtain ⟨hj, hp, hf, _⟩ := pk_step_tally env desc s e r h
  refine ⟨fun exit hmem => ?_, fun op he hc => ?_, fun he hc => ?_, fun he => ?_, hp, hj⟩
  · by_cases hne : e = PkBackendEvent.finished_delay
    · exact Or.inl hne
    · right
      cases hin : e.inline desc with
      | true => rfl
      | false => exact absurd hmem (hf hne hin exit)
  · subst he
    simp only [PkEngine.step, pk_operation_absent env desc s.backend op hc, Option.map_some',
      Option.some.injEq] at h
    rw [← h]
    rfl
  · subst he
    simp only [PkEngine.step, pk_cancel_job_try_absent env desc s.backend hc,
      Option.map_some', Option.some.injEq] at h
    rw [← h]
    rfl
  · subst he
    simp only [PkEngine.step] at h
    split_ifs at h with hpos
    simp only [Option.some.injEq] at h
    exact ⟨hpos, h.symm⟩

theorem finished_deferred_unless_not_implemented_witness :
    PkEngine.step pk_example_env pk_example_desc ⟨pk_example_busy, 0⟩
        (PkBackendEvent.spawn_finished 0)
      = some (⟨{ pk_example_busy with spawn := false }, 1⟩,
          [PkBackendEffect.thread_list_wait, PkBackendEffect.timeout_add 500]) ∧
    pk_joined false [PkBackendEffect.thread_list_wait, PkBackendEffect.timeout_add 500] = true :=
  ⟨by decide,
   (finished_deferred_unless_not_implemented pk_example_env pk_example_desc
      ⟨pk_example_busy, 0⟩ (PkBackendEvent.spawn_finished 0)
      (⟨{ pk_example_busy with spawn := false }, 1⟩,
        [PkBackendEffect.thread_list_wait, PkBackendEffect.timeout_add 500])
      (by decide)).2.2.2.2.2⟩

/-! ## The engine: claims on the saved progress -/

/-- C25: what the code does instead of saving the percentage.  On every engine and for
every `p`, `pk_backend_change_percentage` emits `percentage-changed` with `p` but saves
`p` in `last_subpercentage`: `pk_backend_get_percentage` returns afterwards what it
returned before, and `pk_backend_get_sub_percentage` returns `p`.  On a fresh engine,
after `pk_backend_change_percentage` with 50, and as well after the helper line
`percentage<TAB>50`, `pk_backend_get_percentage` returns 0. -/
theorem change_percentage_not_saved (backend : PkBackend) (p : Nat) :
    (pk_backend_change_percentage backend p).effects
      = [PkBackendEffect.emit (PkBackendSignal.percentage_changed p)] ∧
    pk_backend_get_percentage (pk_backend_change_percentage backend p).backend
      = pk_backend_get_percentage backend ∧
    pk_backend_get_sub_percentage (pk_backend_change_percentage backend p).backend
      = (true, p) ∧
    pk_backend_get_percentage (pk_backend_change_percentage pk_backend_init 50).backend
      = (true, 0) ∧
    (pk_backend_parse_common_error pk_example_env pk_backend_init
        (some "percentage\t50")).map (fun r => (r.effects, pk_backend_get_percentage r.backend))
      = some ([PkBackendEffect.emit (PkBackendSignal.percentage_changed 50)], (true, 0)) := by
  refine ⟨rfl, rfl, rfl, rfl, ?_⟩
  decide

/-- C26: the two saved values are not independent in the code.  On every engine and for
every `p`, `pk_backend_change_percentage` makes `pk_backend_get_sub_percentage` return
`p`; on the engine `pk_example_sub_30`, whose saved sub-percentage is 30,
`pk_backend_change_percentage` with 50 changes what `pk_backend_get_sub_percentage`
returns from 30 to 50.  The other half holds: `pk_backend_change_sub_percentage` leaves
what `pk_backend_get_percentage` returns as it is. -/
theorem change_percentage_overwrites_sub_percentage (backend : PkBackend) (p : Nat) :
    pk_backend_get_sub_percentage (pk_backend_change_percentage backend p).backend
      = (true, p) ∧
    pk_backend_get_sub_percentage pk_example_sub_30 = (true, 30) ∧
    pk_backend_get_sub_percentage (pk_backend_change_percentage pk_example_sub_30 50).backend
      = (true, 50) ∧
    pk_backend_get_percentage (pk_backend_change_sub_percentage backend p).backend
      = pk_backend_get_percentage backend :=
  ⟨rfl, rfl, rfl, rfl⟩

/-! ## The parsers: lines that are not events -/

theorem pk_has_tab_of_not_mem (line : String) (h : Char.ofNat 9 ∉ line.data) :
    pk_has_tab line = false := by
  simp only [pk_has_tab]
  cases hc : line.data.contains (Char.ofNat 9) with
  | false => rfl
  | true => exact absurd (by simpa using hc) h

theorem pk_parse_output_wrong_count (env : PkBackendEnv) (backend : PkBackend) (line : String)
    (n : Nat) (htab : pk_has_tab line = true)
    (hn : pk_output_sections ((g_strsplit line (Char.ofNat 9)).headD "") = some n)
    (hs : (g_strsplit line (Char.ofNat 9)).length ≠ n) :
    pk_backend_parse_common_output env backend (some line) = none := by
  unfold pk_backend_parse_common_output
  simp only
  generalize g_strsplit line (Char.ofNat 9) = sections at hn hs ⊢
  generalize sections.headD "" = command at hn ⊢
  generalize sections.length = size at hs ⊢
  rw [if_neg (by simp [htab])]
  by_cases hc0 : command = "package"
  · rw [if_pos hc0]
    have hn2 : n = 4 := by
      subst hc0
      simp [pk_output_sections] at hn
      exact hn.symm
    subst hn2
    rw [if_pos hs]
  · rw [if_neg hc0]
    by_cases hc1 : command = "description"
    · rw [if_pos hc1]
      have hn2 : n = 6 := by
        subst hc1
        simp [pk_output_sections] at hn
        exact hn.symm
      subst hn2
      rw [if_pos hs]
    · rw [if_neg hc1]
      simp [pk_output_sections, hc0, hc1] at hn

theorem pk_parse_output_unknown (env : PkBackendEnv) (backend : PkBackend) (line : String)
    (htab : pk_has_tab line = true)
    (hn : pk_output_sections ((g_strsplit line (Char.ofNat 9)).headD "") = none) :
    pk_backend_parse_common_output env backend (some line) = some ⟨backend, true, []⟩ := by
  unfold pk_backend_parse_common_output
  simp only
  generalize g_strsplit line (Char.ofNat 9) = sections at hn ⊢
  generalize sections.headD "" = command at hn ⊢
  generalize sections.length = size
  rw [if_neg (by simp [htab])]
  by_cases hc0 : command = "package"
  · exfalso
    subst hc0
    simp [pk_output_sections] at hn
  · rw [if_neg hc0]
    by_cases hc1 : command = "description"
    · exfalso
      subst hc1
      simp [pk_output_sections] at hn
    · rw [if_neg hc1]

theorem pk_parse_error_wrong_count (env : PkBackendEnv) (backend : PkBackend) (line : String)
    (n : Nat) (htab : pk_has_tab line = true)
    (hn : pk_error_sections ((g_strsplit line (Char.ofNat 9)).headD "") = some n)
    (hs : (g_strsplit line (Char.ofNat 9)).length ≠ n) :
    pk_backend_parse_common_error env backend (some line) = none := by
  unfold pk_backend_parse_common_error
  simp only
  generalize g_strsplit line (Char.ofNat 9) = sections at hn hs ⊢
  generalize sections.headD "" = command at hn ⊢
  generalize sections.length = size at hs ⊢
  rw [if_neg (by simp [htab])]
  by_cases hc0 : command = "percentage"
  · rw [if_pos hc0]
    have hn2 : n = 2 := by
      subst hc0
      simp [pk_error_sections] at hn
      exact hn.symm
    subst hn2
    rw [if_pos hs]
  · rw [if_neg hc0]
    by_cases hc1 : command = "subpercentage"
    · rw [if_pos hc1]
      have hn2 : n = 2 := by
        subst hc1
        simp [pk_error_sections] at hn
        exact hn.symm
      subst hn2
      rw [if_pos hs]
    · rw [if_neg hc1]
      by_cases hc2 : command = "error"
      · rw [if_pos hc2]
        have hn2 : n = 3 := by
          subst hc2
          simp [pk_error_sections] at hn
          exact hn.symm
        subst hn2
        rw [if_pos hs]
      · rw [if_neg hc2]
        by_cases hc3 : command = "requirerestart"
        · rw [if_pos hc3]
          have hn2 : n = 3 := by
            subst hc3
            simp [pk_error_sections] at hn
            exact hn.symm
          subst hn2
          rw [if_pos hs]
        · rw [if_neg hc3]
          by_cases hc4 : command = "status"
          · rw [if_pos hc4]
            have hn2 : n = 2 := by
              subst hc4
              simp [pk_error_sections] at hn
              exact hn.symm
            subst hn2
            rw [if_pos hs]
          · rw [if_neg hc4]
            by_cases hc5 : command = "allow-interrupt"
            · rw [if_pos hc5]
              have hn2 : n = 2 := by
                subst hc5
                simp [pk_error_sections] at hn
                exact hn.symm
              subst hn2
              rw [if_pos hs]
            · rw [if_neg hc5]
              by_cases hc6 : command = "no-percentage-updates"
              · rw [if_pos hc6]
                have hn2 : n = 1 := by
                  subst hc6
                  simp [pk_error_sections] at hn
                  exact hn.symm
                subst hn2
                rw [if_pos hs]
              · rw [if_neg hc6]
                simp [pk_error_sections, hc0, hc1, hc2, hc3, hc4, hc5, hc6] at hn

theorem pk_parse_error_unknown (env : PkBackendEnv) (backend : PkBackend) (line : String)
    (htab : pk_has_tab line = true)
    (hn : pk_error_sections ((g_strsplit line (Char.ofNat 9)).headD "") = none) :
    pk_backend_parse_common_error env backend (some line) = some ⟨backend, true, []⟩ := by
  unfold pk_backend_parse_common_error
  simp only
  generalize g_strsplit line (Char.ofNat 9) = sections at hn ⊢
  generalize sections.headD "" = command at hn ⊢
  generalize sections.length = size
  rw [if_neg (by simp [htab])]
  by_cases hc0 : command = "percentage"
  · exfalso
    subst hc0
    simp [pk_error_sections] at hn
  · rw [if_neg hc0]
    by_cases hc1 : command = "subpercentage"
    · exfalso
      subst hc1
      simp [pk_error_sections] at hn
    · rw [if_neg hc1]
      by_cases hc2 : command = "error"
      · exfalso
        subst hc2
        simp [pk_error_sections] at hn
      · rw [if_neg hc2]
        by_cases hc3 : command = "requirerestart"
        · exfalso
          subst hc3
          simp [pk_error_sections] at hn
        · rw [if_neg hc3]
          by_cases hc4 : command = "status"
          · exfalso
            subst hc4
            simp [pk_error_sections] at hn
          · rw [if_neg hc4]
            by_cases hc5 : command = "allow-interrupt"
            · exfalso
              subst hc5
              simp [pk_error_sections] at hn
            · rw [if_neg hc5]
              by_cases hc6 : command = "no-percentage-updates"
              · exfalso
                subst hc6
                simp [pk_error_sections] at hn
              · rw [if_neg hc6]

theorem pk_parse_error_bad_literal (env : PkBackendEnv) (backend : PkBackend) (line : String)
    (htab : pk_has_tab line = true)
    (hcmd : (g_strsplit line (Char.ofNat 9)).headD "" = "allow-interrupt")
    (hsize : (g_strsplit line (Char.ofNat 9)).length = 2)
    (hl1 : (g_strsplit line (Char.ofNat 9)).getD 1 "" ≠ "true")
    (hl2 : (g_strsplit line (Char.ofNat 9)).getD 1 "" ≠ "false") :
    pk_backend_parse_common_error env backend (some line) = some ⟨backend, false, []⟩ := by
  unfold pk_backend_parse_common_error
  simp only
  rw [if_neg (by simp [htab]), hcmd, hsize]
  rw [if_neg (show ¬ ("allow-interrupt" = "percentage") by decide), if_neg (show ¬ ("allow-interrupt" = "subpercentage") by decide), if_neg (show ¬ ("allow-interrupt" = "error") by decide), if_neg (show ¬ ("allow-interrupt" = "requirerestart") by decide), if_neg (show ¬ ("allow-interrupt" = "status") by decide),
    if_pos rfl, if_neg (show ¬ (2 ≠ 2) by decide), if_neg hl1, if_neg hl2]

/-- C28: a line without a tab is not an event.  For every line that holds no tab, the
empty line included, on every engine, the parser of the output stream and the parser of
the error stream both return FALSE, have no effect (they emit no signal) and leave the
engine as it is. -/
theorem line_without_tab_ignored (env : PkBackendEnv) (backend : PkBackend) (line : String)
    (h : Char.ofNat 9 ∉ line.data) :
    pk_backend_parse_common_output env backend (some line) = some ⟨backend, false, []⟩ ∧
    pk_backend_parse_common_error env backend (some line) = some ⟨backend, false, []⟩ := by
  have htab := pk_has_tab_of_not_mem line h
  constructor
  · unfold pk_backend_parse_common_output
    simp only
    rw [if_pos htab]
  · unfold pk_backend_parse_common_error
    simp only
    rw [if_pos htab]

theorem line_without_tab_ignored_witness :
    Char.ofNat 9 ∉ "".data ∧
    pk_backend_parse_common_output pk_example_env pk_example_busy (some "")
      = some ⟨pk_example_busy, false, []⟩ ∧
    pk_backend_parse_common_error pk_example_env pk_example_busy (some "")
      = some ⟨pk_example_busy, false, []⟩ :=
  ⟨by decide, line_without_tab_ignored pk_example_env pk_example_busy "" (by decide)⟩

/-- C29: what the parsers do with a malformed line that holds a tab.  A line whose number
of sections is not the one its command demands makes the process end in `g_error`, on
either stream: the error-stream line `percentage<TAB>1<TAB>2` and the output-stream line
`package<TAB>foo` do, on every engine.  The other two kinds of malformed line are dropped
as the claim says: a line whose command is not known on its stream has no effect, leaves
the engine as it is and the parser returns TRUE; an `allow-interrupt` line whose second
section is neither `true` nor `false` has no effect, leaves the engine as it is and the
parser returns FALSE. -/
theorem wrong_field_count_aborts (env : PkBackendEnv) (backend : PkBackend) :
    pk_backend_parse_common_error env backend (some "percentage\t1\t2") = none ∧
    pk_backend_parse_common_output env backend (some "package\tfoo") = none ∧
    (∀ line n, pk_has_tab line = true →
      pk_error_sections ((g_strsplit line (Char.ofNat 9)).headD "") = some n →
      (g_strsplit line (Char.ofNat 9)).length ≠ n →
      pk_backend_parse_common_error env backend (some line) = none) ∧
    (∀ line n, pk_has_tab line = true →
      pk_output_sections ((g_strsplit line (Char.ofNat 9)).headD "") = some n →
      (g_strsplit line (Char.ofNat 9)).length ≠ n →
      pk_backend_parse_common_output env backend (some line) = none) ∧
    (∀ line, pk_has_tab line = true →
      pk_error_sections ((g_strsplit line (Char.ofNat 9)).headD "") = none →
      pk_backend_parse_common_error env backend (some line) = some ⟨backend, true, []⟩) ∧
    (∀ line, pk_has_tab line = true →
      pk_output_sections ((g_strsplit line (Char.ofNat 9)).headD "") = none →
      pk_backend_parse_common_output env backend (some line) = some ⟨backend, true, []⟩) ∧
    (∀ line, pk_has_tab line = true →
      (g_strsplit line (Char.ofNat 9)).headD "" = "allow-interrupt" →
      (g_strsplit line (Char.ofNat 9)).length = 2 →
      (g_strsplit line (Char.ofNat 9)).getD 1 "" ≠ "true" →
      (g_strsplit line (Char.ofNat 9)).getD 1 "" ≠ "false" →
      pk_backend_parse_common_error env backend (some line) = some ⟨backend, false, []⟩) := by
  refine ⟨?_, ?_, ?_, ?_, ?_, ?_, ?_⟩
  · exact pk_parse_error_wrong_count env backend _ 2 (by decide) (by decide) (by decide)
  · exact pk_parse_output_wrong_count env backend _ 4 (by decide) (by decide) (by decide)
  · exact fun line n => pk_parse_error_wrong_count env backend line n
  · exact fun line n => pk_parse_output_wrong_count env backend line n
  · exact fun line => pk_parse_error_unknown env backend line
  · exact fun line => pk_parse_output_unknown env backend line
  · exact fun line => pk_parse_error_bad_literal env backend line

/-! ## The engine: what it keeps -/

theorem pk_last_package_append (last : Option String) (a b : List PkBackendEffect) :
    pk_last_package last (a ++ b) = pk_last_package (pk_last_package last a) b := by
  induction a generalizing last with
  | nil => rfl
  | cons x rest ih =>
    cases x with
    | emit signal => cases signal <;> simp [pk_last_package, ih]
    | _ => simp [pk_last_package, ih]

theorem pk_frame_refl (b : PkBackend) : PkFrame b [] b :=
  ⟨fun _ => ⟨rfl, rfl⟩, fun h => Or.inl h, fun _ => rfl, rfl⟩

theorem pk_frame_trans (b b' b'' : PkBackend) (e e' : List PkBackendEffect)
    (h : PkFrame b e b') (h' : PkFrame b' e' b'') : PkFrame b (e ++ e') b'' := by
  obtain ⟨hr, ha, hk, hp⟩ := h
  obtain ⟨hr', ha', hk', hp'⟩ := h'
  refine ⟨fun hne => ?_, fun hasg => ?_, fun hmem => ?_, ?_⟩
  · obtain ⟨h1, h2⟩ := hr hne
    obtain ⟨h3, h4⟩ := hr' (by rw [h1]; exact hne)
    exact ⟨h3.trans h1, h4.trans h2⟩
  · rcases ha' hasg with h1 | h1
    · rcases ha h1 with h2 | h2
      · exact Or.inl h2
      · exact Or.inr (by rw [(hr' h2).1]; exact h2)
    · exact Or.inr h1
  · have h1 : PkBackendEffect.emit PkBackendSignal.allow_interrupt ∉ e :=
      fun hm => hmem (List.mem_append.mpr (Or.inl hm))
    have h2 : PkBackendEffect.emit PkBackendSignal.allow_interrupt ∉ e' :=
      fun hm => hmem (List.mem_append.mpr (Or.inr hm))
    exact (hk' h2).trans (hk h1)
  · rw [pk_last_package_append, ← hp, hp']

theorem pk_frame_of_fields (b b' : PkBackend) (e : List PkBackendEffect)
    (h1 : b'.role = b.role) (h2 : b'.package_id = b.package_id)
    (h3 : b'.assigned = b.assigned) (h4 : b'.is_killable = b.is_killable)
    (h5 : b'.last_package = pk_last_package b.last_package e) : PkFrame b e b' :=
  ⟨fun _ => ⟨h1, h2⟩, fun h => Or.inl (h3 ▸ h), fun _ => h4, h5⟩

theorem pk_spawn_helper_internal_backend (env : PkBackendEnv) (backend : PkBackend)
    (script : String) (argument : Option String) (spawned : Bool) (r : PkBackendOutcome)
    (h : pk_backend_spawn_helper_internal env backend script argument spawned = some r) :
    ∃ spawn exit, r.backend = { backend with spawn := spawn, exit := exit } := by
  unfold pk_backend_spawn_helper_internal at h
  cases hsp : backend.spawn with
  | true => simp [pk_backend_spawn_helper_new, hsp] at h
  | false =>
    cases spawned with
    | true =>
      simp [pk_backend_spawn_helper_new, hsp] at h
      rw [← h]
      exact ⟨true, backend.exit, rfl⟩
    | false =>
      simp only [pk_backend_spawn_helper_new, pk_backend_spawn_helper_delete, hsp,
        Bool.false_eq_true, Bool.true_eq_false, if_false, if_true] at h
      split at h
      · simp at h
      · rename_i r3 he
        simp only [Option.some.injEq] at h
        simp only [pk_backend_error_code] at he
        split at he
        · simp at he
        · simp only [Option.some.injEq] at he
          rw [← h, ← he]
          exact ⟨false, PkExitEnum.PK_EXIT_ENUM_FAILED, rfl⟩

theorem pk_call_frame (env : PkBackendEnv) (backend : PkBackend) (c : PkBackendCall)
    (r : PkBackendOutcome) (h : pk_backend_call env backend c = some r) :
    PkFrame backend r.effects r.backend := by
  cases c with
  | set_job_role role package_id =>
    simp only [pk_backend_call, pk_backend_set_job_role] at h
    split_ifs at h with hrole
    simp only [Option.some.injEq] at h
    subst h
    exact ⟨fun hne => absurd (not_not.mp hrole) hne, fun ha => Or.inl ha, fun _ => rfl, rfl⟩
  | error_code code format args =>
    simp only [pk_backend_call, pk_backend_error_code] at h
    cases hb : g_vsnprintf 1024 format args with
    | none => simp [hb] at h
    | some buffer =>
      simp only [hb, Option.some.injEq] at h
      subst h
      exact pk_frame_of_fields _ _ _ rfl rfl rfl rfl rfl
  | spawn_helper script args spawned =>
    obtain ⟨arguments, _, hi⟩ := pk_spawn_helper_some env backend script args spawned r h
    obtain ⟨sp, ex, hb⟩ := pk_spawn_helper_internal_backend env backend script _ spawned r hi
    rcases pk_spawn_helper_internal_effects env backend script _ spawned r hi with
      ⟨_, command, he⟩ | ⟨_, command, buffer, he⟩
    · rw [hb, he]
      exact pk_frame_of_fields _ _ _ rfl rfl rfl rfl rfl
    · rw [hb, he]
      exact pk_frame_of_fields _ _ _ rfl rfl rfl rfl rfl
  | not_implemented_yet method =>
    simp only [pk_backend_call, pk_backend_not_implemented_yet, pk_backend_error_code,
      pk_backend_finished_delay] at h
    cases hb : g_vsnprintf 1024 "the method '%s' is not implemented yet" [method] with
    | none => simp [hb] at h
    | some buffer =>
      simp only [hb, Option.some.injEq] at h
      subst h
      exact pk_frame_of_fields _ _ _ rfl rfl rfl rfl rfl
  | spawn_kill =>
    simp only [pk_backend_call, pk_backend_spawn_kill, Option.some.injEq] at h
    subst h
    by_cases hsp : backend.spawn = false
    · rw [if_pos hsp]
      exact pk_frame_refl backend
    · rw [if_neg hsp]
      exact pk_frame_of_fields _ _ _ rfl rfl rfl rfl rfl
  | allow_interrupt allow_restart =>
    simp only [pk_backend_call, Option.some.injEq] at h
    subst h
    exact ⟨fun _ => ⟨rfl, rfl⟩, fun ha => Or.inl ha,
      fun hmem => absurd (by simp [pk_backend_allow_interrupt]) hmem, rfl⟩
  | _ =>
    simp only [pk_backend_call, Option.some.injEq] at h
    subst h
    exact pk_frame_of_fields _ _ _ rfl rfl rfl rfl rfl

theorem pk_calls_frame (env : PkBackendEnv) (calls : List PkBackendCall)
    (backend : PkBackend) (r : PkBackend × List PkBackendEffect)
    (h : pk_backend_calls env calls backend = some r) : PkFrame backend r.2 r.1 := by
  induction calls generalizing backend r with
  | nil =>
    simp only [pk_backend_calls, Option.some.injEq] at h
    subst h
    exact pk_frame_refl backend
  | cons c rest ih =>
    simp only [pk_backend_calls] at h
    cases h1 : pk_backend_call env backend c with
    | none => rw [h1] at h; exact absurd h (by simp)
    | some r1 =>
      rw [h1] at h
      simp only at h
      cases h2 : pk_backend_calls env rest r1.backend with
      | none => rw [h2] at h; exact absurd h (by simp)
      | some r2 =>
        rw [h2] at h
        simp only [Option.some.injEq] at h
        subst h
        exact pk_frame_trans _ _ _ _ _ (pk_call_frame env backend c r1 h1) (ih r1.backend r2 h2)

theorem pk_not_implemented_frame (backend : PkBackend) (method : String)
    (r : PkBackendOutcome) (h : pk_backend_not_implemented_yet backend method = some r) :
    PkFrame backend r.effects r.backend :=
  pk_call_frame pk_example_env backend (PkBackendCall.not_implemented_yet method) r h

theorem pk_operation_role_ne (op : PkBackendOperation) :
    op.role ≠ PkRoleEnum.PK_ROLE_ENUM_UNKNOWN := by
  cases op <;> simp [PkBackendOperation.role]

theorem pk_role_operation_frame (env : PkBackendEnv) (backend : PkBackend)
    (entry : Option (List PkBackendCall)) (name : PkBackendEntry) (method : String)
    (role : PkRoleEnum) (package_id : Option String) (r : PkBackendOutcome)
    (hrole : role ≠ PkRoleEnum.PK_ROLE_ENUM_UNKNOWN)
    (h : pk_backend_role_operation env backend entry name method role package_id = some r) :
    PkFrame backend r.effects r.backend := by
  unfold pk_backend_role_operation at h
  cases entry with
  | none =>
    simp only at h
    cases hn : pk_backend_not_implemented_yet backend method with
    | none => rw [hn] at h; exact absurd h (by simp)
    | some r1 =>
      rw [hn] at h
      simp only [Option.some.injEq] at h
      subst h
      exact pk_not_implemented_frame backend method r1 hn
  | some calls =>
    simp only at h
    cases hr : pk_backend_set_job_role backend role package_id with
    | none => rw [hr] at h; exact absurd h (by simp)
    | some r1 =>
      rw [hr] at h
      simp only at h
      cases hc : pk_backend_calls env calls r1.backend with
      | none => rw [hc] at h; exact absurd h (by simp)
      | some r2 =>
        rw [hc] at h
        simp only [Option.some.injEq] at h
        subst h
        simp only [pk_backend_set_job_role] at hr
        split_ifs at hr with hunk
        simp only [Option.some.injEq] at hr
        subst hr
        obtain ⟨hro, _, hk, hp⟩ := pk_calls_frame env calls _ r2 hc
        obtain ⟨hro1, _⟩ := hro hrole
        refine ⟨fun hne => absurd (not_not.mp hunk) hne, fun _ => Or.inr ?_, fun hmem => ?_, ?_⟩
        · show r2.1.role ≠ PkRoleEnum.PK_ROLE_ENUM_UNKNOWN
          rw [hro1]
          exact hrole
        · exact hk (fun hm => hmem (by simp [hm]))
        · simpa [pk_last_package] using hp

theorem pk_operation_frame (env : PkBackendEnv) (desc : PkBackendDesc) (backend : PkBackend)
    (op : PkBackendOperation) (r : PkBackendOutcome)
    (h : pk_backend_operation env desc backend op = some r) :
    PkFrame backend r.effects r.backend := by
  rw [pk_operation_eq_role_operation] at h
  exact pk_role_operation_frame env backend _ _ _ _ _ r (pk_operation_role_ne op) h

theorem pk_cancel_job_try_frame (env : PkBackendEnv) (desc : PkBackendDesc)
    (backend : PkBackend) (r : PkBackendOutcome)
    (h : pk_backend_cancel_job_try env desc backend = some r) :
    PkFrame backend r.effects r.backend := by
  unfold pk_backend_cancel_job_try at h
  cases hd : desc.cancel_job_try with
  | none =>
    rw [hd] at h
    simp only at h
    cases hn : pk_backend_not_implemented_yet backend "CancelJobTry" with
    | none => rw [hn] at h; exact absurd h (by simp)
    | some r1 =>
      rw [hn] at h
      simp only [Option.some.injEq] at h
      subst h
      exact pk_not_implemented_frame backend _ r1 hn
  | some calls =>
    rw [hd] at h
    simp only at h
    split_ifs at h
    · simp only [Option.some.injEq] at h
      subst h
      exact pk_frame_refl backend
    · simp only [Option.some.injEq] at h
      subst h
      exact pk_frame_refl backend
    · simp only [Option.some.injEq] at h
      subst h
      exact pk_frame_refl backend
    · cases hc : pk_backend_calls env calls backend with
      | none => rw [hc] at h; exact absurd h (by simp)
      | some r2 =>
        rw [hc] at h
        simp only [Option.some.injEq] at h
        subst h
        obtain ⟨hro, ha, hk, hp⟩ := pk_calls_frame env calls backend r2 hc
        exact ⟨hro, ha, fun hmem => hk (fun hm => hmem (by simp [hm])),
          by simpa [pk_last_package] using hp⟩

theorem pk_quiet_outcome_frame (env : PkBackendEnv) (backend : PkBackend)
    (r : PkBackendOutcome)
    (h : (r.backend = backend ∧ r.effects = []) ∨
      ∃ c r', c.quiet = true ∧ pk_backend_call env backend c = some r' ∧
        r.backend = r'.backend ∧ r.effects = r'.effects) :
    PkFrame backend r.effects r.backend := by
  rcases h with ⟨hb, he⟩ | ⟨c, r', _, hc, hb, he⟩
  · rw [hb, he]
    exact pk_frame_refl backend
  · rw [hb, he]
    exact pk_call_frame env backend c r' hc

theorem pk_spawn_finished_cb_frame (backend : PkBackend) (exitcode : Int)
    (r : PkBackendOutcome) (h : pk_backend_spawn_finished_cb backend exitcode = some r) :
    PkFrame backend r.effects r.backend := by
  unfold pk_backend_spawn_finished_cb at h
  cases hd : pk_backend_spawn_helper_delete backend with
  | none => rw [hd] at h; exact absurd h (by simp)
  | some r1 =>
    rw [hd] at h
    simp only at h
    simp only [pk_backend_spawn_helper_delete] at hd
    split_ifs at hd
    simp only [Option.some.injEq] at hd
    subst hd
    split_ifs at h
    · simp only [pk_backend_error_code] at h
      split at h
      · exact absurd h (by simp)
      · rename_i r2 he
        split at he
        · exact absurd he (by simp)
        · simp only [Option.some.injEq] at h he
          subst h
          rw [← he]
          exact pk_frame_of_fields _ _ _ rfl rfl rfl rfl rfl
    · simp only [Option.some.injEq] at h
      subst h
      exact pk_frame_of_fields _ _ _ rfl rfl rfl rfl rfl

theorem pk_step_frame (env : PkBackendEnv) (desc : PkBackendDesc) (s : PkEngine)
    (e : PkBackendEvent) (r : PkEngine × List PkBackendEffect)
    (h : s.step env desc e = some r) : PkFrame s.backend r.2 r.1.backend := by
  cases e with
  | operation op =>
    simp only [PkEngine.step, Option.map_eq_some'] at h
    obtain ⟨r1, h1, h2⟩ := h
    subst h2
    exact pk_operation_frame env desc s.backend op r1 h1
  | cancel_job_try =>
    simp only [PkEngine.step, Option.map_eq_some'] at h
    obtain ⟨r1, h1, h2⟩ := h
    subst h2
    exact pk_cancel_job_try_frame env desc s.backend r1 h1
  | stdout line =>
    simp only [PkEngine.step] at h
    split_ifs at h
    simp only [pk_backend_spawn_stdout_cb, Option.map_eq_some'] at h
    obtain ⟨r1, ⟨r0, h0, h1⟩, h2⟩ := h
    subst h2
    subst h1
    exact pk_quiet_outcome_frame env s.backend r0
      (pk_parse_common_output_cases env s.backend _ r0 h0)
  | stderr line =>
    simp only [PkEngine.step] at h
    split_ifs at h
    simp only [pk_backend_spawn_stderr_cb, Option.map_eq_some'] at h
    obtain ⟨r1, ⟨r0, h0, h1⟩, h2⟩ := h
    subst h2
    subst h1
    exact pk_quiet_outcome_frame env s.backend r0
      (pk_parse_common_error_cases env s.backend _ r0 h0)
  | spawn_finished exitcode =>
    simp only [PkEngine.step] at h
    split_ifs at h
    simp only [Option.map_eq_some'] at h
    obtain ⟨r1, h1, h2⟩ := h
    subst h2
    exact pk_spawn_finished_cb_frame s.backend exitcode r1 h1
  | finished_delay =>
    simp only [PkEngine.step] at h
    split_ifs at h
    simp only [Option.some.injEq] at h
    subst h
    exact pk_frame_of_fields _ _ _ rfl rfl rfl rfl rfl
  | call c =>
    simp only [PkEngine.step, Option.map_eq_some'] at h
    obtain ⟨r1, h1, h2⟩ := h
    subst h2
    exact pk_call_frame env s.backend c r1 h1

theorem pk_run_frame (env : PkBackendEnv) (desc : PkBackendDesc) (events : List PkBackendEvent)
    (s : PkEngine) (r : PkEngine × List PkBackendEffect)
    (h : s.run env desc events = some r) : PkFrame s.backend r.2 r.1.backend := by
  induction events generalizing s r with
  | nil =>
    simp only [PkEngine.run, Option.some.injEq] at h
    subst h
    exact pk_frame_refl s.backend
  | cons e rest ih =>
    simp only [PkEngine.run] at h
    cases h1 : s.step env desc e with
    | none => rw [h1] at h; exact absurd h (by simp)
    | some r1 =>
      rw [h1] at h
      simp only at h
      cases h2 : PkEngine.run env desc r1.1 rest with
      | none => rw [h2] at h; exact absurd h (by simp)
      | some r2 =>
        rw [h2] at h
        simp only [Option.some.injEq] at h
        subst h
        exact pk_frame_trans _ _ _ _ _ (pk_step_frame env desc s e r1 h1) (ih r1.1 r2 h2)

theorem pk_run_append (env : PkBackendEnv) (desc : PkBackendDesc)
    (pre post : List PkBackendEvent) (s : PkEngine) :
    s.run env desc (pre ++ post)
      = (s.run env desc pre).bind (fun r0 =>
          (r0.1.run env desc post).map (fun r => (r.1, r0.2 ++ r.2))) := by
  induction pre generalizing s with
  | nil =>
    simp only [List.nil_append, PkEngine.run, Option.some_bind, List.nil_append]
    cases s.run env desc post <;> simp
  | cons x rest ih =>
    simp only [List.cons_append, PkEngine.run]
    cases hx : s.step env desc x with
    | none => simp
    | some r1 =>
      simp only [List.append_eq]
      rw [ih r1.1]
      cases h0 : PkEngine.run env desc r1.1 rest with
      | none => simp
      | some r0 =>
        simp only [Option.some_bind]
        cases r0.1.run env desc post <;> simp [List.append_assoc]

/-! ## The engine: claims on the role -/

/-- C21: the role is set once.  `pk_backend_set_job_role` on an engine whose role is not
*unknown* ends in `pk_error`, the fatal error, before any field is written; on an engine
whose role is *unknown* it sets the role, the identifier and the status *setup*.  So along
every run of events that succeeds, from the first state in which the role is not *unknown*
on, the role and the identifier stay what they are: whenever the run is cut in two, and
the role is set at the cut, the role and the identifier at the end are those at the cut. -/
theorem role_set_once (env : PkBackendEnv) (desc : PkBackendDesc) (s : PkEngine)
    (pre post : List PkBackendEvent) (r : PkEngine × List PkBackendEffect)
    (h : s.run env desc (pre ++ post) = some r) :
    (∀ backend role package_id, backend.role ≠ PkRoleEnum.PK_ROLE_ENUM_UNKNOWN →
      pk_backend_set_job_role backend role package_id = none) ∧
    (∀ backend role package_id, backend.role = PkRoleEnum.PK_ROLE_ENUM_UNKNOWN →
      pk_backend_set_job_role backend role package_id
        = some ⟨{ backend with role := role, package_id := package_id,
                               status := PkStatusEnum.PK_STATUS_ENUM_SETUP }, true, []⟩) ∧
    ∃ rm, s.run env desc pre = some rm ∧
      (rm.1.backend.role ≠ PkRoleEnum.PK_ROLE_ENUM_UNKNOWN →
        r.1.backend.role = rm.1.backend.role ∧
        r.1.backend.package_id = rm.1.backend.package_id) := by
  refine ⟨fun backend role package_id hne => ?_, fun backend role package_id heq => ?_, ?_⟩
  · simp [pk_backend_set_job_role, hne]
  · simp [pk_backend_set_job_role, heq]
  · rw [pk_run_append] at h
    cases hm : s.run env desc pre with
    | none => rw [hm] at h; exact absurd h (by simp)
    | some rm =>
      rw [hm] at h
      simp only [Option.some_bind, Option.map_eq_some'] at h
      obtain ⟨rp, hp, hr⟩ := h
      subst hr
      exact ⟨rm, rfl, (pk_run_frame env desc post rm.1 rp hp).1⟩

theorem role_set_once_witness :
    pk_example_engine.run pk_example_env pk_example_desc
        ([PkBackendEvent.operation (PkBackendOperation.search_name "none" "foo")] ++
          [PkBackendEvent.stderr "error\tinternal-error\tcannot search",
           PkBackendEvent.spawn_finished 0, PkBackendEvent.finished_delay])
      = some (⟨pk_example_failed, 0⟩, pk_example_failing_effects) ∧
    pk_backend_set_job_role pk_example_failed PkRoleEnum.PK_ROLE_ENUM_PACKAGE_INSTALL none
      = none :=
  ⟨by decide,
   (role_set_once pk_example_env pk_example_desc pk_example_engine
      [PkBackendEvent.operation (PkBackendOperation.search_name "none" "foo")]
      [PkBackendEvent.stderr "error\tinternal-error\tcannot search",
       PkBackendEvent.spawn_finished 0, PkBackendEvent.finished_delay]
      (⟨pk_example_failed, 0⟩, pk_example_failing_effects) (by decide)).1
      pk_example_failed PkRoleEnum.PK_ROLE_ENUM_PACKAGE_INSTALL none (by decide)⟩

/-- C22: an engine with a job has a role.  In every state that a run of events (role
operations, cancel, events of the helper, scheduled callbacks, calls of plugin code)
reaches from an engine in which `assigned` implies a role other than *unknown*, as in the
fresh engine, where `assigned` is FALSE: if `assigned` is TRUE, the role is not
*unknown*. -/
theorem assigned_has_role (env : PkBackendEnv) (desc : PkBackendDesc) (s : PkEngine)
    (events : List PkBackendEvent) (r : PkEngine × List PkBackendEffect)
    (hs : s.backend.assigned = true → s.backend.role ≠ PkRoleEnum.PK_ROLE_ENUM_UNKNOWN)
    (h : s.run env desc events = some r) :
    r.1.backend.assigned = true → r.1.backend.role ≠ PkRoleEnum.PK_ROLE_ENUM_UNKNOWN := by
  intro ha
  obtain ⟨hr, hasg, _, _⟩ := pk_run_frame env desc events s r h
  rcases hasg ha with h1 | h1
  · rw [(hr (hs h1)).1]
    exact hs h1
  · exact h1

theorem assigned_has_role_witness :
    (pk_example_engine.backend.assigned = true →
      pk_example_engine.backend.role ≠ PkRoleEnum.PK_ROLE_ENUM_UNKNOWN) ∧
    pk_example_engine.run pk_example_env pk_example_desc pk_example_failing_search
      = some (⟨pk_example_failed, 0⟩, pk_example_failing_effects) ∧
    (pk_example_failed.assigned = true →
      pk_example_failed.role ≠ PkRoleEnum.PK_ROLE_ENUM_UNKNOWN) :=
  ⟨by decide, by decide,
   assigned_has_role pk_example_env pk_example_desc pk_example_engine
     pk_example_failing_search (⟨pk_example_failed, 0⟩, pk_example_failing_effects)
     (by decide) (by decide)⟩

theorem pk_last_package_of_no_package (last : Option String)
    (effects : List PkBackendEffect)
    (h : ∀ value package summary,
      PkBackendEffect.emit (PkBackendSignal.package value package summary) ∉ effects) :
    pk_last_package last effects = last := by
  induction effects with
  | nil => rfl
  | cons x rest ih =>
    have hrest : ∀ value package summary,
        PkBackendEffect.emit (PkBackendSignal.package value package summary) ∉ rest :=
      fun v p m hm => h v p m (List.mem_cons_of_mem _ hm)
    cases x with
    | emit signal =>
      cases signal with
      | package value package summary =>
        exact absurd (List.mem_cons_self _ _) (h value package summary)
      | _ => simpa [pk_last_package] using ih hrest
    | _ => simpa [pk_last_package] using ih hrest

/-! ## The engine: claims on what it keeps -/

/-- C27: the last package is saved.  After every run of events from any engine,
`pk_backend_get_package` returns the package identifier of the last `package` signal that
was emitted in the run, whatever other signals (percentage, status, error) come between
and after; and when the run emitted no `package` signal it returns what it returned at
the start, which is NULL on the fresh engine. -/
theorem last_package_saved (env : PkBackendEnv) (desc : PkBackendDesc) (s : PkEngine)
    (events : List PkBackendEvent) (r : PkEngine × List PkBackendEffect)
    (h : s.run env desc events = some r) :
    pk_backend_get_package r.1.backend
      = (true, pk_last_package s.backend.last_package r.2) ∧
    (∀ pre post value package summary,
      r.2 = pre ++ PkBackendEffect.emit (PkBackendSignal.package value package summary) :: post →
      (∀ v p m, PkBackendEffect.emit (PkBackendSignal.package v p m) ∉ post) →
      pk_backend_get_package r.1.backend = (true, some package)) ∧
    ((∀ v p m, PkBackendEffect.emit (PkBackendSignal.package v p m) ∉ r.2) →
      pk_backend_get_package r.1.backend = pk_backend_get_package s.backend) ∧
    pk_backend_get_package pk_backend_init = (true, none) := by
  obtain ⟨_, _, _, hp⟩ := pk_run_frame env desc events s r h
  refine ⟨?_, fun pre post value package summary hr hpost => ?_, fun hnone => ?_, rfl⟩
  · simp only [pk_backend_get_package, hp]
  · simp only [pk_backend_get_package, hp, hr, pk_last_package_append, pk_last_package,
      pk_last_package_of_no_package _ post hpost]
  · simp only [pk_backend_get_package, hp, pk_last_package_of_no_package _ r.2 hnone]

theorem last_package_saved_witness :
    pk_example_engine.run pk_example_env pk_example_desc
        (pk_example_search ++ [PkBackendEvent.spawn_finished 0])
      = some (⟨pk_example_searched, 1⟩, pk_example_search_effects) ∧
    pk_backend_get_package pk_example_searched = (true, some "foo;1.0;i386;fedora") :=
  ⟨by decide,
   (last_package_saved pk_example_env pk_example_desc pk_example_engine
      (pk_example_search ++ [PkBackendEvent.spawn_finished 0])
      (⟨pk_example_searched, 1⟩, pk_example_search_effects) (by decide)).1⟩

theorem pk_parse_error_allow_interrupt (env : PkBackendEnv) (backend : PkBackend)
    (line : String) (htab : pk_has_tab line = true) (allow : Bool)
    (hs : g_strsplit line (Char.ofNat 9)
      = ["allow-interrupt", if allow = true then "true" else "false"]) :
    pk_backend_parse_common_error env backend (some line)
      = some ⟨{ backend with is_killable := allow }, true,
          [PkBackendEffect.emit PkBackendSignal.allow_interrupt]⟩ := by
  unfold pk_backend_parse_common_error
  simp only
  rw [if_neg (by simp [htab]), hs]
  cases allow <;> simp [pk_backend_allow_interrupt]

/-- C24, as stated, fails: after a search whose helper allowed to be interrupted and then
exited, and after `finished` was emitted by the scheduled callback, `is_killable` is still
TRUE. -/
theorem killable_after_finished :
    pk_example_engine.run pk_example_env pk_example_desc pk_example_interruptible_search
      = some (⟨pk_example_interrupted, 0⟩, pk_example_interruptible_effects) ∧
    PkBackendEffect.emit (PkBackendSignal.finished PkExitEnum.PK_EXIT_ENUM_SUCCESS)
      ∈ pk_example_interruptible_effects ∧
    pk_example_interrupted.is_killable = true := by
  decide

/-- C24, amended: `is_killable` is what the last `allow-interrupt` said, and `finished`
does not reset it.  In every run of events from any engine, when no `allow-interrupt` is
emitted in the run, `is_killable` at the end is what it was at the start, whether
`finished` was emitted or not; it is FALSE on the fresh engine.
`pk_backend_allow_interrupt` sets `is_killable` to its argument and emits
`allow-interrupt`, and so do the lines `allow-interrupt<TAB>true` and
`allow-interrupt<TAB>false` of the error stream of the helper, with TRUE and FALSE. -/
theorem killable_follows_allow_interrupt (env : PkBackendEnv) (desc : PkBackendDesc)
    (s : PkEngine) (events : List PkBackendEvent) (r : PkEngine × List PkBackendEffect)
    (h : s.run env desc events = some r) :
    (PkBackendEffect.emit PkBackendSignal.allow_interrupt ∉ r.2 →
      r.1.backend.is_killable = s.backend.is_killable) ∧
    pk_backend_init.is_killable = false ∧
    (∀ backend allow,
      pk_backend_allow_interrupt backend allow
        = ⟨{ backend with is_killable := allow }, true,
            [PkBackendEffect.emit PkBackendSignal.allow_interrupt]⟩) ∧
    (∀ backend,
      pk_backend_parse_common_error env backend (some "allow-interrupt\ttrue")
        = some ⟨{ backend with is_killable := true }, true,
            [PkBackendEffect.emit PkBackendSignal.allow_interrupt]⟩ ∧
      pk_backend_parse_common_error env backend (some "allow-interrupt\tfalse")
        = some ⟨{ backend with is_killable := false }, true,
            [PkBackendEffect.emit PkBackendSignal.allow_interrupt]⟩) := by
  obtain ⟨_, _, hk, _⟩ := pk_run_frame env desc events s r h
  refine ⟨hk, rfl, fun backend allow => rfl, fun backend => ⟨?_, ?_⟩⟩
  · exact pk_parse_error_allow_interrupt env backend _ (by decide) true (by decide)
  · exact pk_parse_error_allow_interrupt env backend _ (by decide) false (by decide)

theorem killable_follows_allow_interrupt_witness :
    PkEngine.run pk_example_env pk_example_desc ⟨pk_example_busy, 0⟩
        [PkBackendEvent.spawn_finished 0, PkBackendEvent.finished_delay]
      = some (⟨{ pk_example_busy with spawn := false }, 0⟩,
          [PkBackendEffect.thread_list_wait, PkBackendEffect.timeout_add 500,
           PkBackendEffect.emit (PkBackendSignal.finished PkExitEnum.PK_EXIT_ENUM_SUCCESS)]) ∧
    ({ pk_example_busy with spawn := false } : PkBackend).is_killable
      = pk_example_busy.is_killable :=
  ⟨by decide,
   (killable_follows_allow_interrupt pk_example_env pk_example_desc ⟨pk_example_busy, 0⟩
      [PkBackendEvent.spawn_finished 0, PkBackendEvent.finished_delay]
      (⟨{ pk_example_busy with spawn := false }, 0⟩,
        [PkBackendEffect.thread_list_wait, PkBackendEffect.timeout_add 500,
         PkBackendEffect.emit (PkBackendSignal.finished PkExitEnum.PK_EXIT_ENUM_SUCCESS)])
      (by decide)).1 (by decide)⟩

/-! ## The parsers: canonical lines -/

theorem pk_digit_char (d : Nat) (h : d < 10) :
    (Nat.digitChar d).isDigit = true ∧ (Nat.digitChar d).toNat - 48 = d ∧
    pk_isspace (Nat.digitChar d) = false ∧ Nat.digitChar d ≠ '-' ∧ Nat.digitChar d ≠ '+' := by
  interval_cases d <;> decide

theorem pk_digits_toDigitsCore (fuel n : Nat) (acc : List Char) (h : n < fuel) :
    pk_digits (Nat.toDigitsCore 10 fuel n acc) 0 = pk_digits acc n := by
  induction fuel generalizing n acc with
  | zero => omega
  | succ fuel ih =>
    simp only [Nat.toDigitsCore]
    obtain ⟨h1, h2, _⟩ := pk_digit_char (n % 10) (Nat.mod_lt _ (by decide))
    by_cases hz : n / 10 = 0
    · rw [if_pos hz]
      simp only [pk_digits, h1, if_true, h2]
      congr 1
      omega
    · rw [if_neg hz]
      rw [ih (n / 10) _ (by omega)]
      simp only [pk_digits, h1, if_true, h2]
      congr 1
      omega

theorem pk_toDigitsCore_head (fuel n : Nat) (acc : List Char) (h : n < fuel) :
    ∃ d rest, d < 10 ∧ Nat.toDigitsCore 10 fuel n acc = Nat.digitChar d :: rest := by
  induction fuel generalizing n acc with
  | zero => omega
  | succ fuel ih =>
    simp only [Nat.toDigitsCore]
    by_cases hz : n / 10 = 0
    · rw [if_pos hz]
      exact ⟨n % 10, acc, Nat.mod_lt _ (by decide), rfl⟩
    · rw [if_neg hz]
      exact ih (n / 10) _ (by omega)

/-- Reading a decimal numeral back: `atoi` of the numeral of a number below `2 ^ 32`,
stored in a `guint`, is the number. -/
theorem pk_atoi_guint_decimal (n : Nat) (h : n < 2 ^ 32) :
    pk_atoi_guint (pk_decimal n) = n := by
  obtain ⟨d, rest, hd, hcs⟩ := pk_toDigitsCore_head (n + 1) n [] (by omega)
  obtain ⟨_, _, h3, h4, h5⟩ := pk_digit_char d hd
  have hv : pk_digits (Nat.toDigits 10 n) 0 = n := by
    simp only [Nat.toDigits]
    rw [pk_digits_toDigitsCore _ _ _ (by omega)]
    rfl
  have hcs' : Nat.toDigits 10 n = Nat.digitChar d :: rest := hcs
  simp only [pk_atoi_guint, pk_strtol, pk_decimal]
  generalize Nat.toDigits 10 n = cs at hv hcs'
  subst hcs'
  have hdrop : (Nat.digitChar d :: rest).dropWhile pk_isspace = Nat.digitChar d :: rest := by
    simp only [List.dropWhile, h3]
  rw [hdrop]
  have hm : (match Nat.digitChar d :: rest with
      | '-' :: rest => - (pk_digits rest 0 : Int)
      | '+' :: rest => (pk_digits rest 0 : Int)
      | cs => (pk_digits cs 0 : Int)) = (n : Int) := by
    rw [← hv]
    split
    · rename_i heq
      simp only [List.cons.injEq] at heq
      exact absurd heq.1 h4
    · rename_i heq
      simp only [List.cons.injEq] at heq
      exact absurd heq.1 h5
    · rfl
  rw [hm]
  have h63 : (2:Int)^63 = 9223372036854775808 := by norm_num
  have h32 : (2:Int)^32 = 4294967296 := by norm_num
  have h32n : (2:Nat)^32 = 4294967296 := by norm_num
  rw [h32n] at h
  rw [h63, h32]
  rw [if_neg (by omega), if_neg (by omega)]
  omega

theorem pk_split_ne_nil (delimiter : Char) (cs : List Char) : pk_split delimiter cs ≠ [] := by
  cases cs with
  | nil => simp [pk_split]
  | cons c rest =>
    simp only [pk_split]
    split_ifs
    · simp
    · split <;> simp

theorem pk_join_split (delimiter : Char) (cs : List Char) :
    pk_join delimiter (pk_split delimiter cs) = cs := by
  induction cs with
  | nil => simp [pk_split, pk_join]
  | cons c rest ih =>
    simp only [pk_split]
    have hne := pk_split_ne_nil delimiter rest
    cases hsp : pk_split delimiter rest with
    | nil => exact absurd hsp hne
    | cons field fields =>
      rw [hsp] at ih
      split_ifs with hc
      · simp only [pk_join, List.nil_append]
        rw [ih, hc]
      · cases fields with
        | nil =>
          simp only [pk_join] at ih ⊢
          rw [ih]
        | cons g gs =>
          simp only [pk_join, List.cons_append] at ih ⊢
          rw [ih]

theorem pk_render_fields_strsplit (line : String) (h : pk_has_tab line = true) :
    pk_render_fields (g_strsplit line (Char.ofNat 9)) = line := by
  have hne : line.data ≠ [] := by
    intro he
    simp [pk_has_tab, he] at h
  simp only [pk_render_fields, g_strsplit, if_neg hne, List.map_map]
  have hid : (String.data ∘ String.mk) = (id : List Char → List Char) := by
    funext cs
    rfl
  rw [hid, List.map_id, pk_join_split]

theorem pk_format_of_no_percent (cs : List Char) (h : '%' ∉ cs) :
    pk_format cs [] = some cs := by
  induction cs with
  | nil => simp [pk_format]
  | cons c rest ih =>
    have hc : c ≠ '%' := fun he => h (by simp [he])
    have hrest : '%' ∉ rest := fun hm => h (List.mem_cons_of_mem _ hm)
    rw [pk_format]
    · simp [ih hrest]
    all_goals
      intro h1
      first
        | exact absurd h1 hc
        | (intros; simp_all)

theorem g_vsnprintf_of_no_percent (buffer : String) (h : '%' ∉ buffer.data)
    (hlen : buffer.data.length ≤ 1023) : g_vsnprintf 1024 buffer [] = some buffer := by
  simp only [g_vsnprintf, pk_format_of_no_percent buffer.data h, Option.map_some',
    List.take_of_length_le hlen]

theorem pk_parse_package (env : PkBackendEnv) (backend : PkBackend) (line : String)
    (value package_id summary : String)
    (hid : env.pk_package_id_check package_id = true) (htab : pk_has_tab line = true)
    (hs : g_strsplit line (Char.ofNat 9) = ["package", value, package_id, summary]) :
    pk_backend_parse_common_output env backend (some line)
      = some ⟨{ backend with last_package := some package_id }, true,
          [PkBackendEffect.emit
            (PkBackendSignal.package (pk_atoi_guint value) package_id summary)]⟩ := by
  unfold pk_backend_parse_common_output
  simp only
  rw [if_neg (by simp [htab]), hs]
  simp [hid, pk_backend_package]

theorem pk_parse_description (env : PkBackendEnv) (backend : PkBackend) (line : String)
    (package_id licence group text url : String)
    (htab : pk_has_tab line = true)
    (hs : g_strsplit line (Char.ofNat 9) = ["description", package_id, licence, group, text, url]) :
    pk_backend_parse_common_output env backend (some line)
      = some ⟨backend, true,
          [PkBackendEffect.emit
            (PkBackendSignal.description package_id licence
              (env.pk_group_enum_from_text group) text url)]⟩ := by
  unfold pk_backend_parse_common_output
  simp only
  rw [if_neg (by simp [htab]), hs]
  simp [pk_backend_description]

theorem pk_parse_percentage (env : PkBackendEnv) (backend : PkBackend) (line : String)
    (value : String) (htab : pk_has_tab line = true)
    (hs : g_strsplit line (Char.ofNat 9) = ["percentage", value]) :
    pk_backend_parse_common_error env backend (some line)
      = some ⟨{ backend with last_subpercentage := pk_atoi_guint value }, true,
          [PkBackendEffect.emit (PkBackendSignal.percentage_changed (pk_atoi_guint value))]⟩ := by
  unfold pk_backend_parse_common_error
  simp only
  rw [if_neg (by simp [htab]), hs]
  simp [pk_backend_change_percentage]

theorem pk_parse_subpercentage (env : PkBackendEnv) (backend : PkBackend) (line : String)
    (value : String) (htab : pk_has_tab line = true)
    (hs : g_strsplit line (Char.ofNat 9) = ["subpercentage", value]) :
    pk_backend_parse_common_error env backend (some line)
      = some ⟨{ backend with last_subpercentage := pk_atoi_guint value }, true,
          [PkBackendEffect.emit
            (PkBackendSignal.sub_percentage_changed (pk_atoi_guint value))]⟩ := by
  unfold pk_backend_parse_common_error
  simp only
  rw [if_neg (by simp [htab]), hs]
  simp [pk_backend_change_sub_percentage]

theorem pk_parse_error (env : PkBackendEnv) (backend : PkBackend) (line : String)
    (code details buffer : String)
    (hfmt : g_vsnprintf 1024 details [] = some buffer) (htab : pk_has_tab line = true)
    (hs : g_strsplit line (Char.ofNat 9) = ["error", code, details]) :
    pk_backend_parse_common_error env backend (some line)
      = some ⟨{ backend with exit := PkExitEnum.PK_EXIT_ENUM_FAILED }, true,
          [PkBackendEffect.emit
            (PkBackendSignal.error_code (env.pk_error_enum_from_text code) buffer)]⟩ := by
  unfold pk_backend_parse_common_error
  simp only
  rw [if_neg (by simp [htab]), hs]
  simp [pk_backend_error_code, hfmt]

theorem pk_parse_requirerestart (env : PkBackendEnv) (backend : PkBackend) (line : String)
    (restart details : String) (htab : pk_has_tab line = true)
    (hs : g_strsplit line (Char.ofNat 9) = ["requirerestart", restart, details]) :
    pk_backend_parse_common_error env backend (some line)
      = some ⟨backend, true,
          [PkBackendEffect.emit
            (PkBackendSignal.require_restart (env.pk_restart_enum_from_text restart)
              details)]⟩ := by
  unfold pk_backend_parse_common_error
  simp only
  rw [if_neg (by simp [htab]), hs]
  simp [pk_backend_require_restart]

theorem pk_parse_status (env : PkBackendEnv) (backend : PkBackend) (line : String)
    (status : String) (htab : pk_has_tab line = true)
    (hs : g_strsplit line (Char.ofNat 9) = ["status", status]) :
    pk_backend_parse_common_error env backend (some line)
      = some ⟨{ backend with status := env.pk_status_enum_from_text status }, true,
          [PkBackendEffect.emit
            (PkBackendSignal.job_status_changed (env.pk_status_enum_from_text status))]⟩ := by
  unfold pk_backend_parse_common_error
  simp only
  rw [if_neg (by simp [htab]), hs]
  simp [pk_backend_change_job_status]

/-- C30, as stated, fails: the error-stream line `percentage<TAB>050` is well formed
(known command, two sections) and gives exactly one event, `percentage-changed` with 50,
whose canonical line is `percentage<TAB>50`, not the line that was read.  And the well
formed line `allow-interrupt<TAB>true` gives the event `allow-interrupt`, which carries
no flag, so that no line can be rendered back from it. -/
theorem round_trip_fails_on_leading_zero :
    pk_has_tab "percentage\t050" = true ∧
    pk_error_sections ((g_strsplit "percentage\t050" (Char.ofNat 9)).headD "") = some 2 ∧
    (g_strsplit "percentage\t050" (Char.ofNat 9)).length = 2 ∧
    (pk_backend_parse_common_error pk_example_env pk_example_busy
        (some "percentage\t050")).map (fun r => r.effects)
      = some [PkBackendEffect.emit (PkBackendSignal.percentage_changed 50)] ∧
    pk_render pk_example_text (PkBackendSignal.percentage_changed 50)
      = some "percentage\t50" ∧
    pk_render pk_example_text (PkBackendSignal.percentage_changed 50)
      ≠ some "percentage\t050" ∧
    (pk_backend_parse_common_error pk_example_env pk_example_busy
        (some "allow-interrupt\ttrue")).map (fun r => r.effects)
      = some [PkBackendEffect.emit PkBackendSignal.allow_interrupt] ∧
    pk_render pk_example_text PkBackendSignal.allow_interrupt = none := by
  decide

/-- C30, amended: the round trip holds on canonical lines.  Take a line with a tab, on any
engine.  When its sections are those of a `package` line with a valid package identifier,
of a `description` line, of a `percentage`, `subpercentage`, `error`, `requirerestart` or
`status` line, and its numeric section is the decimal numeral of a number below `2 ^ 32`,
its enumerated section is the name of the value that the text table reads from it, and
its error text holds no percent sign and at most 1023 characters, then the parser of its
stream returns TRUE and emits exactly one signal, with the values of the sections, and the
canonical line of that signal is the line that was read, character for character. -/
theorem canonical_line_round_trip (env : PkBackendEnv) (text : PkBackendText)
    (backend : PkBackend) (line : String) (htab : pk_has_tab line = true) :
    (∀ n package_id summary, n < 2 ^ 32 →
      g_strsplit line (Char.ofNat 9) = ["package", pk_decimal n, package_id, summary] →
      env.pk_package_id_check package_id = true →
      pk_backend_parse_common_output env backend (some line)
        = some ⟨{ backend with last_package := some package_id }, true,
            [PkBackendEffect.emit (PkBackendSignal.package n package_id summary)]⟩ ∧
      pk_render text (PkBackendSignal.package n package_id summary) = some line) ∧
    (∀ package_id licence group description url,
      g_strsplit line (Char.ofNat 9)
        = ["description", package_id, licence, group, description, url] →
      text.pk_group_enum_to_text (env.pk_group_enum_from_text group) = group →
      pk_backend_parse_common_output env backend (some line)
        = some ⟨backend, true,
            [PkBackendEffect.emit (PkBackendSignal.description package_id licence
              (env.pk_group_enum_from_text group) description url)]⟩ ∧
      pk_render text (PkBackendSignal.description package_id licence
        (env.pk_group_enum_from_text group) description url) = some line) ∧
    (∀ n, n < 2 ^ 32 →
      g_strsplit line (Char.ofNat 9) = ["percentage", pk_decimal n] →
      pk_backend_parse_common_error env backend (some line)
        = some ⟨{ backend with last_subpercentage := n }, true,
            [PkBackendEffect.emit (PkBackendSignal.percentage_changed n)]⟩ ∧
      pk_render text (PkBackendSignal.percentage_changed n) = some line) ∧
    (∀ n, n < 2 ^ 32 →
      g_strsplit line (Char.ofNat 9) = ["subpercentage", pk_decimal n] →
      pk_backend_parse_common_error env backend (some line)
        = some ⟨{ backend with last_subpercentage := n }, true,
            [PkBackendEffect.emit (PkBackendSignal.sub_percentage_changed n)]⟩ ∧
      pk_render text (PkBackendSignal.sub_percentage_changed n) = some line) ∧
    (∀ code details,
      g_strsplit line (Char.ofNat 9) = ["error", code, details] →
      text.pk_error_enum_to_text (env.pk_error_enum_from_text code) = code →
      '%' ∉ details.data → details.data.length ≤ 1023 →
      pk_backend_parse_common_error env backend (some line)
        = some ⟨{ backend with exit := PkExitEnum.PK_EXIT_ENUM_FAILED }, true,
            [PkBackendEffect.emit
              (PkBackendSignal.error_code (env.pk_error_enum_from_text code) details)]⟩ ∧
      pk_render text (PkBackendSignal.error_code (env.pk_error_enum_from_text code) details)
        = some line) ∧
    (∀ restart details,
      g_strsplit line (Char.ofNat 9) = ["requirerestart", restart, details] →
      text.pk_restart_enum_to_text (env.pk_restart_enum_from_text restart) = restart →
      pk_backend_parse_common_error env backend (some line)
        = some ⟨backend, true,
            [PkBackendEffect.emit
              (PkBackendSignal.require_restart (env.pk_restart_enum_from_text restart)
                details)]⟩ ∧
      pk_render text
          (PkBackendSignal.require_restart (env.pk_restart_enum_from_text restart) details)
        = some line) ∧
    (∀ status,
      g_strsplit line (Char.ofNat 9) = ["status", status] →
      text.pk_status_enum_to_text (env.pk_status_enum_from_text status) = status →
      pk_backend_parse_common_error env backend (some line)
        = some ⟨{ backend with status := env.pk_status_enum_from_text status }, true,
            [PkBackendEffect.emit
              (PkBackendSignal.job_status_changed (env.pk_status_enum_from_text status))]⟩ ∧
      pk_render text
          (PkBackendSignal.job_status_changed (env.pk_status_enum_from_text status))
        = some line) := by
  have hline := pk_render_fields_strsplit line htab
  refine ⟨?_, ?_, ?_, ?_, ?_, ?_, ?_⟩
  · intro n package_id summary hn hs hid
    have h := pk_parse_package env backend line _ package_id summary hid htab hs
    rw [pk_atoi_guint_decimal n hn] at h
    refine ⟨h, ?_⟩
    rw [hs] at hline
    simp only [pk_render, hline]
  · intro package_id licence group description url hs hg
    refine ⟨pk_parse_description env backend line _ _ _ _ _ htab hs, ?_⟩
    rw [hs] at hline
    simp only [pk_render, hg, hline]
  · intro n hn hs
    have h := pk_parse_percentage env backend line _ htab hs
    rw [pk_atoi_guint_decimal n hn] at h
    refine ⟨h, ?_⟩
    rw [hs] at hline
    simp only [pk_render, hline]
  · intro n hn hs
    have h := pk_parse_subpercentage env backend line _ htab hs
    rw [pk_atoi_guint_decimal n hn] at h
    refine ⟨h, ?_⟩
    rw [hs] at hline
    simp only [pk_render, hline]
  · intro code details hs hc hp hlen
    refine ⟨pk_parse_error env backend line code details details
      (g_vsnprintf_of_no_percent details hp hlen) htab hs, ?_⟩
    rw [hs] at hline
    simp only [pk_render, hc, hline]
  · intro restart details hs hr
    refine ⟨pk_parse_requirerestart env backend line _ _ htab hs, ?_⟩
    rw [hs] at hline
    simp only [pk_render, hr, hline]
  · intro status hs hst
    refine ⟨pk_parse_status env backend line _ htab hs, ?_⟩
    rw [hs] at hline
    simp only [pk_render, hst, hline]

theorem canonical_line_round_trip_witness :
    pk_has_tab "package\t1\tfoo;1.0;i386;fedora\tThe foo package" = true ∧
    pk_backend_parse_common_output pk_example_env pk_example_busy
        (some "package\t1\tfoo;1.0;i386;fedora\tThe foo package")
      = some ⟨{ pk_example_busy with last_package := some "foo;1.0;i386;fedora" }, true,
          [PkBackendEffect.emit
            (PkBackendSignal.package 1 "foo;1.0;i386;fedora" "The foo package")]⟩ ∧
    pk_render pk_example_text
        (PkBackendSignal.package 1 "foo;1.0;i386;fedora" "The foo package")
      = some "package\t1\tfoo;1.0;i386;fedora\tThe foo package" :=
  ⟨by decide,
   (canonical_line_round_trip pk_example_env pk_example_text pk_example_busy
      "package\t1\tfoo;1.0;i386;fedora\tThe foo package" (by decide)).1
      1 "foo;1.0;i386;fedora" "The foo package" (by decide) (by decide) (by decide)⟩

/-! ## The parsers: claims on the values of a line -/

theorem pk_atoi_guint_lt (nptr : String) : pk_atoi_guint nptr < 2 ^ 32 := by
  simp only [pk_atoi_guint]
  have h1 : (0 : Int) ≤ pk_strtol nptr % (2 : Int) ^ 32 := Int.emod_nonneg _ (by norm_num)
  have h2 : pk_strtol nptr % (2 : Int) ^ 32 < (2 : Int) ^ 32 := Int.emod_lt_of_pos _ (by norm_num)
  have h3 : ((2 : Nat) ^ 32 : Nat) = 4294967296 := by norm_num
  have h4 : ((2 : Int) ^ 32 : Int) = 4294967296 := by norm_num
  rw [h4] at h1 h2
  rw [h3, h4]
  omega

theorem pk_parse_package_invalid (env : PkBackendEnv) (backend : PkBackend) (line : String)
    (value package_id summary : String)
    (hid : env.pk_package_id_check package_id = false) (htab : pk_has_tab line = true)
    (hs : g_strsplit line (Char.ofNat 9) = ["package", value, package_id, summary]) :
    pk_backend_parse_common_output env backend (some line) = some ⟨backend, true, []⟩ := by
  unfold pk_backend_parse_common_output
  simp only
  rw [if_neg (by simp [htab]), hs]
  simp [hid]

/-- C31, as stated, fails: the parser of the error stream checks no range.  The line
`percentage<TAB>150` gives `percentage-changed` with 150, the line `subpercentage<TAB>-1`
gives `sub-percentage-changed` with `2 ^ 32 - 1`, and the line `percentage<TAB>abc`, whose
field is no number, gives `percentage-changed` with 0. -/
theorem percentage_out_of_range_emitted :
    (pk_backend_parse_common_error pk_example_env pk_example_busy
        (some "percentage\t150")).map (fun r => r.effects)
      = some [PkBackendEffect.emit (PkBackendSignal.percentage_changed 150)] ∧
    (pk_backend_parse_common_error pk_example_env pk_example_busy
        (some "subpercentage\t-1")).map (fun r => r.effects)
      = some [PkBackendEffect.emit (PkBackendSignal.sub_percentage_changed 4294967295)] ∧
    (pk_backend_parse_common_error pk_example_env pk_example_busy
        (some "percentage\tabc")).map (fun r => r.effects)
      = some [PkBackendEffect.emit (PkBackendSignal.percentage_changed 0)] := by
  decide

/-- C31, amended: the value of a `percentage` or `subpercentage` line is what `atoi` reads
from its field, stored in a `guint`.  For every line with a tab whose sections are
`percentage` (or `subpercentage`) and one field, whatever the field holds, the parser of
the error stream returns TRUE and emits exactly one `percentage-changed` (or
`sub-percentage-changed`) with that value, which is below `2 ^ 32`; the value is not
checked against 100.  When the field is the decimal numeral of a number up to 100, or of
any number below `2 ^ 32`, the value is that number. -/
theorem percentage_value_is_atoi (env : PkBackendEnv) (backend : PkBackend) (line : String)
    (field : String) (htab : pk_has_tab line = true) :
    (g_strsplit line (Char.ofNat 9) = ["percentage", field] →
      pk_backend_parse_common_error env backend (some line)
        = some ⟨{ backend with last_subpercentage := pk_atoi_guint field }, true,
            [PkBackendEffect.emit
              (PkBackendSignal.percentage_changed (pk_atoi_guint field))]⟩) ∧
    (g_strsplit line (Char.ofNat 9) = ["subpercentage", field] →
      pk_backend_parse_common_error env backend (some line)
        = some ⟨{ backend with last_subpercentage := pk_atoi_guint field }, true,
            [PkBackendEffect.emit
              (PkBackendSignal.sub_percentage_changed (pk_atoi_guint field))]⟩) ∧
    pk_atoi_guint field < 2 ^ 32 ∧
    (∀ n, n < 2 ^ 32 → field = pk_decimal n → pk_atoi_guint field = n) :=
  ⟨pk_parse_percentage env backend line field htab,
   pk_parse_subpercentage env backend line field htab,
   pk_atoi_guint_lt field,
   fun n hn hf => by rw [hf]; exact pk_atoi_guint_decimal n hn⟩

theorem percentage_value_is_atoi_witness :
    pk_has_tab "percentage\t50" = true ∧
    pk_backend_parse_common_error pk_example_env pk_example_busy (some "percentage\t50")
      = some ⟨{ pk_example_busy with last_subpercentage := 50 }, true,
          [PkBackendEffect.emit (PkBackendSignal.percentage_changed 50)]⟩ :=
  ⟨by decide,
   (percentage_value_is_atoi pk_example_env pk_example_busy "percentage\t50" "50"
      (by decide)).1 (by decide)⟩

/-- C32: a `package` line and the check of its identifier.  For every line of the output
stream with a tab whose sections are `package` and three fields, on every engine: when the
identifier passes `pk_package_id_check`, the parser emits exactly one `package` signal
with the value that `atoi` reads from the first field, the identifier and the summary,
and saves the identifier; when the check fails, the parser emits nothing, leaves the
engine as it is (the saved package and the exit tag among the rest) and returns TRUE, so
that the job goes on.  Hence the signal is emitted if and only if the check passes. -/
theorem package_line_checked (env : PkBackendEnv) (backend : PkBackend) (line : String)
    (info package_id summary : String) (htab : pk_has_tab line = true)
    (hs : g_strsplit line (Char.ofNat 9) = ["package", info, package_id, summary]) :
    (env.pk_package_id_check package_id = true →
      pk_backend_parse_common_output env backend (some line)
        = some ⟨{ backend with last_package := some package_id }, true,
            [PkBackendEffect.emit
              (PkBackendSignal.package (pk_atoi_guint info) package_id summary)]⟩) ∧
    (env.pk_package_id_check package_id = false →
      pk_backend_parse_common_output env backend (some line) = some ⟨backend, true, []⟩) ∧
    (∃ r, pk_backend_parse_common_output env backend (some line) = some r ∧
      (PkBackendEffect.emit (PkBackendSignal.package (pk_atoi_guint info) package_id summary)
          ∈ r.effects ↔ env.pk_package_id_check package_id = true)) := by
  have hyes := fun hid => pk_parse_package env backend line info package_id summary hid htab hs
  have hno := fun hid =>
    pk_parse_package_invalid env backend line info package_id summary hid htab hs
  refine ⟨hyes, hno, ?_⟩
  cases hid : env.pk_package_id_check package_id with
  | true => exact ⟨_, hyes hid, by simp⟩
  | false => exact ⟨_, hno hid, by simp⟩

theorem package_line_checked_witness :
    pk_has_tab "package\t1\tfoo\tThe foo package" = true ∧
    g_strsplit "package\t1\tfoo\tThe foo package" (Char.ofNat 9)
      = ["package", "1", "foo", "The foo package"] ∧
    pk_example_env.pk_package_id_check "foo" = false ∧
    pk_backend_parse_common_output pk_example_env pk_example_busy
        (some "package\t1\tfoo\tThe foo package")
      = some ⟨pk_example_busy, true, []⟩ :=
  ⟨by decide, by decide, by decide,
   (package_line_checked pk_example_env pk_example_busy "package\t1\tfoo\tThe foo package"
      "1" "foo" "The foo package" (by decide) (by decide)).2.1 (by decide)⟩

/-! ## The engine: claims on errors -/

theorem g_vsnprintf_verbatim (buffer : String) (h : '%' ∉ buffer.data) :
    g_vsnprintf 1024 buffer [] = some (String.mk (buffer.data.take 1023)) := by
  simp only [g_vsnprintf, pk_format_of_no_percent buffer.data h, Option.map_some']

theorem pk_parse_error_undefined (env : PkBackendEnv) (backend : PkBackend) (line : String)
    (code details : String) (hfmt : g_vsnprintf 1024 details [] = none)
    (htab : pk_has_tab line = true)
    (hs : g_strsplit line (Char.ofNat 9) = ["error", code, details]) :
    pk_backend_parse_common_error env backend (some line) = none := by
  unfold pk_backend_parse_common_error
  simp only
  rw [if_neg (by simp [htab]), hs]
  simp [pk_backend_error_code, hfmt]

/-- C36: an error code changes the exit tag only.  On every engine, for every code, format
and arguments, `pk_backend_error_code` is defined exactly when the expansion of the format
is, and then it returns TRUE, emits one `error-code` with the code and the expanded text,
and sets the exit tag to *failed*; the status, the role, the identifier, `assigned`,
`is_killable`, the spawn object, the saved percentage, sub-percentage and package and
the name stay as they are.  For a text without a percent sign and no arguments the
expansion is defined. -/
theorem error_code_changes_exit_only (backend : PkBackend) (code : PkErrorCodeEnum)
    (format : String) (args : List String) :
    pk_backend_error_code backend code format args
      = (g_vsnprintf 1024 format args).map (fun buffer =>
          ⟨{ backend with exit := PkExitEnum.PK_EXIT_ENUM_FAILED }, true,
            [PkBackendEffect.emit (PkBackendSignal.error_code code buffer)]⟩) ∧
    (∀ r, pk_backend_error_code backend code format args = some r →
      r.backend.exit = PkExitEnum.PK_EXIT_ENUM_FAILED ∧
      r.backend.status = backend.status ∧ r.backend.role = backend.role ∧
      r.backend.package_id = backend.package_id ∧ r.backend.assigned = backend.assigned ∧
      r.backend.is_killable = backend.is_killable ∧ r.backend.spawn = backend.spawn ∧
      r.backend.last_percentage = backend.last_percentage ∧
      r.backend.last_subpercentage = backend.last_subpercentage ∧
      r.backend.last_package = backend.last_package ∧ r.backend.name = backend.name) ∧
    ('%' ∉ format.data →
      pk_backend_error_code backend code format []
        = some ⟨{ backend with exit := PkExitEnum.PK_EXIT_ENUM_FAILED }, true,
            [PkBackendEffect.emit
              (PkBackendSignal.error_code code (String.mk (format.data.take 1023)))]⟩) := by
  have heq : pk_backend_error_code backend code format args
      = (g_vsnprintf 1024 format args).map (fun buffer =>
          ⟨{ backend with exit := PkExitEnum.PK_EXIT_ENUM_FAILED }, true,
            [PkBackendEffect.emit (PkBackendSignal.error_code code buffer)]⟩) := by
    simp only [pk_backend_error_code]
    cases g_vsnprintf 1024 format args <;> rfl
  refine ⟨heq, fun r hr => ?_, fun hp => ?_⟩
  · rw [heq] at hr
    simp only [Option.map_eq_some'] at hr
    obtain ⟨buffer, _, hb⟩ := hr
    subst hb
    exact ⟨rfl, rfl, rfl, rfl, rfl, rfl, rfl, rfl, rfl, rfl, rfl⟩
  · simp only [pk_backend_error_code, g_vsnprintf_verbatim format hp]

/-- C37: the text of an `error` line is used as a `printf` format.  On every engine, the
error-stream line `error<TAB>internal-error<TAB>100%% done` gives an `error-code` whose
text is `100% done`, not the text of the line; and the line
`error<TAB>internal-error<TAB>no such package %s` makes `g_vsnprintf` read an argument
that was never passed, which has no defined result.  A text without a percent sign is
passed on as it is, cut to 1023 characters. -/
theorem error_text_used_as_format (env : PkBackendEnv) (backend : PkBackend) :
    pk_backend_parse_common_error env backend (some "error\tinternal-error\t100%% done")
      = some ⟨{ backend with exit := PkExitEnum.PK_EXIT_ENUM_FAILED }, true,
          [PkBackendEffect.emit
            (PkBackendSignal.error_code (env.pk_error_enum_from_text "internal-error")
              "100% done")]⟩ ∧
    pk_backend_parse_common_error env backend
        (some "error\tinternal-error\tno such package %s") = none ∧
    (∀ line code details, pk_has_tab line = true →
      g_strsplit line (Char.ofNat 9) = ["error", code, details] →
      '%' ∉ details.data →
      pk_backend_parse_common_error env backend (some line)
        = some ⟨{ backend with exit := PkExitEnum.PK_EXIT_ENUM_FAILED }, true,
            [PkBackendEffect.emit
              (PkBackendSignal.error_code (env.pk_error_enum_from_text code)
                (String.mk (details.data.take 1023)))]⟩) := by
  refine ⟨?_, ?_, fun line code details htab hs hp => ?_⟩
  · exact pk_parse_error env backend _ "internal-error" "100%% done" "100% done"
      (by decide) (by decide) (by decide)
  · exact pk_parse_error_undefined env backend _ "internal-error" "no such package %s"
      (by decide) (by decide) (by decide)
  · exact pk_parse_error env backend line code details _ (g_vsnprintf_verbatim details hp)
      htab hs

theorem pk_format_spawn_failed (command : String) :
    g_vsnprintf 1024 "Spawn of helper '%s' failed" [command]
      = some (String.mk
          (("Spawn of helper '" ++ command ++ "' failed").data.take 1023)) := by
  have h : pk_format "Spawn of helper '%s' failed".data [command]
      = some ("Spawn of helper '" ++ command ++ "' failed").data := by
    simp only [String.data_append]
    rfl
  simp only [g_vsnprintf, h, Option.map_some']

/-- C34: a helper that cannot be launched.  On an engine without a spawn object, when
`pk_spawn_command` fails, `pk_backend_spawn_helper_internal`, the function that launches
the helper, returns FALSE, leaves no spawn object, emits exactly one `error-code`, with
*internal-error* and the text `Spawn of helper '<command>' failed`, sets the exit tag to
*failed*, joins the worker pool and schedules `finished`; the scheduled callback, run on
that engine, emits `finished` with *failed*.  So the signals delivered are `error-code`
and then `finished`.  This holds for every script and every argument, also for none. -/
theorem spawn_failure_reported (env : PkBackendEnv) (backend : PkBackend) (script : String)
    (argument : Option String) (hspawn : backend.spawn = false) :
    pk_backend_spawn_helper_internal env backend script argument false
      = some ⟨{ backend with spawn := false, exit := PkExitEnum.PK_EXIT_ENUM_FAILED }, false,
          [PkBackendEffect.spawn_command (pk_spawn_command_line env backend script argument),
           PkBackendEffect.emit
             (PkBackendSignal.error_code PkErrorCodeEnum.PK_ERROR_ENUM_INTERNAL_ERROR
               (String.mk (("Spawn of helper '" ++
                 pk_spawn_command_line env backend script argument
                   ++ "' failed").data.take 1023))),
           PkBackendEffect.thread_list_wait,
           PkBackendEffect.timeout_add 500]⟩ ∧
    (pk_backend_finished_delay
        { backend with spawn := false, exit := PkExitEnum.PK_EXIT_ENUM_FAILED }).effects
      = [PkBackendEffect.emit (PkBackendSignal.finished PkExitEnum.PK_EXIT_ENUM_FAILED)] := by
  refine ⟨?_, rfl⟩
  simp only [pk_backend_spawn_helper_internal, pk_spawn_command_line,
    pk_backend_spawn_helper_new, pk_backend_spawn_helper_delete, hspawn,
    Bool.false_eq_true, if_false, if_true, pk_backend_error_code]
  rw [pk_format_spawn_failed]
  rfl

theorem spawn_failure_reported_witness :
    pk_example_engine.backend.spawn = false ∧
    (pk_backend_spawn_helper_internal pk_example_env pk_example_engine.backend
        "search-name.py" (some "none foo") false).map
        (fun r => pk_signals (r.effects ++ (pk_backend_finished_delay r.backend).effects))
      = some [PkBackendSignal.error_code PkErrorCodeEnum.PK_ERROR_ENUM_INTERNAL_ERROR
            "Spawn of helper '/usr/share/PackageKit/helpers/dummy/search-name.py none foo' failed",
          PkBackendSignal.finished PkExitEnum.PK_EXIT_ENUM_FAILED] ∧
    (pk_backend_spawn_helper_internal pk_example_env pk_example_engine.backend
        "search-name.py" (some "none foo") false).map
        (fun r => (r.ret, r.backend.spawn, r.backend.exit))
      = some (false, false, PkExitEnum.PK_EXIT_ENUM_FAILED) :=
  ⟨rfl, by decide,
   by rw [(spawn_failure_reported pk_example_env pk_example_engine.backend "search-name.py"
      (some "none foo") rfl).1]; rfl⟩

/-- C35: one spawn object per engine.  The engine has one slot for the spawn object.
`pk_backend_spawn_helper_new` ends in the fatal `pk_error` when the slot is taken, and
fills it otherwise; so does every launch of a helper, which starts with it.
`pk_backend_spawn_helper_delete` ends in the fatal `pk_error` when the slot is empty, and
empties it otherwise.  The handler of the exit of the helper leaves the slot empty, and
the join of the worker pool and the scheduling of `finished` are the last things it does;
a launch that fails leaves the slot empty as well. -/
theorem one_spawn_object (env : PkBackendEnv) (backend : PkBackend) :
    (backend.spawn = true → pk_backend_spawn_helper_new backend = none) ∧
    (backend.spawn = false →
      pk_backend_spawn_helper_new backend = some ⟨{ backend with spawn := true }, true, []⟩) ∧
    (backend.spawn = false → pk_backend_spawn_helper_delete backend = none) ∧
    (backend.spawn = true →
      pk_backend_spawn_helper_delete backend
        = some ⟨{ backend with spawn := false }, true, []⟩) ∧
    (∀ script argument spawned, backend.spawn = true →
      pk_backend_spawn_helper_internal env backend script argument spawned = none) ∧
    (∀ exitcode r, pk_backend_spawn_finished_cb backend exitcode = some r →
      r.backend.spawn = false ∧
      ∃ pre, r.effects
        = pre ++ [PkBackendEffect.thread_list_wait, PkBackendEffect.timeout_add 500]) ∧
    (∀ script argument r,
      pk_backend_spawn_helper_internal env backend script argument false = some r →
      r.backend.spawn = false) := by
  refine ⟨fun h => ?_, fun h => ?_, fun h => ?_, fun h => ?_, fun script argument spawned h => ?_,
    fun exitcode r hr => ?_, fun script argument r hr => ?_⟩
  · simp [pk_backend_spawn_helper_new, h]
  · simp [pk_backend_spawn_helper_new, h]
  · simp [pk_backend_spawn_helper_delete, h]
  · simp [pk_backend_spawn_helper_delete, h]
  · simp [pk_backend_spawn_helper_internal, pk_backend_spawn_helper_new, h]
  · unfold pk_backend_spawn_finished_cb at hr
    cases hd : pk_backend_spawn_helper_delete backend with
    | none => rw [hd] at hr; exact absurd hr (by simp)
    | some r1 =>
      rw [hd] at hr
      simp only at hr
      simp only [pk_backend_spawn_helper_delete] at hd
      split_ifs at hd
      simp only [Option.some.injEq] at hd
      subst hd
      split_ifs at hr
      · simp only [pk_backend_error_code] at hr
        split at hr
        · exact absurd hr (by simp)
        · rename_i r2 he
          split at he
          · exact absurd he (by simp)
          · simp only [Option.some.injEq] at hr he
            subst hr
            rw [← he]
            exact ⟨rfl, _, rfl⟩
      · simp only [Option.some.injEq] at hr
        subst hr
        exact ⟨rfl, [], rfl⟩
  · unfold pk_backend_spawn_helper_internal at hr
    cases hsp : backend.spawn with
    | true => simp [pk_backend_spawn_helper_new, hsp] at hr
    | false =>
      simp only [pk_backend_spawn_helper_new, pk_backend_spawn_helper_delete, hsp,
        Bool.false_eq_true, Bool.true_eq_false, if_false, if_true] at hr
      split at hr
      · simp at hr
      · rename_i r3 he
        simp only [Option.some.injEq] at hr
        simp only [pk_backend_error_code] at he
        split at he
        · simp at he
        · simp only [Option.some.injEq] at he
          rw [← hr, ← he]
          rfl

/-! ## The engine: the advertised actions -/

theorem pk_mem_append_if (present : Bool) (value action : PkActionEnum)
    (elist : List PkActionEnum) :
    action ∈ pk_enum_list_append_if present value elist
      ↔ action ∈ elist ∨ (present = true ∧ action = value) := by
  cases present <;> simp [pk_enum_list_append_if, pk_enum_list_append]

theorem pk_nodup_append_if (present : Bool) (value : PkActionEnum)
    (elist : List PkActionEnum) :
    (pk_enum_list_append_if present value elist).Nodup
      ↔ elist.Nodup ∧ (present = true → value ∉ elist) := by
  cases present
  · simp [pk_enum_list_append_if]
  · simp only [pk_enum_list_append_if, pk_enum_list_append, if_true, true_implies]
    rw [List.nodup_append_comm]
    simp [List.nodup_cons, and_comm]

/-- C33: the advertised actions, and the entry that is left out.  For every plugin
descriptor, `pk_backend_get_actions` returns a list without repetition, in which the
action of each of the entries `cancel_job_try`, `get_depends`, `get_description`,
`get_requires`, `get_updates`, `install_package`, `refresh_cache`, `remove_package`,
`search_details`, `search_file`, `search_group`, `search_name`, `update_package` and
`update_system` occurs if and only if the entry is present.  The action of
`get_update_detail` never occurs: the function has no statement for that entry, so for
the plugin `pk_example_desc_detail`, which has the entry, the action is not advertised. -/
theorem get_actions_omits_update_detail (desc : PkBackendDesc) :
    (pk_backend_get_actions desc).Nodup ∧
    (∀ entry action, entry.action = some action →
      entry ≠ PkBackendEntry.get_update_detail →
      (action ∈ pk_backend_get_actions desc ↔ desc.has entry = true)) ∧
    PkActionEnum.PK_ACTION_ENUM_GET_UPDATE_DETAIL ∉ pk_backend_get_actions desc ∧
    pk_example_desc_detail.has PkBackendEntry.get_update_detail = true ∧
    PkBackendEntry.get_update_detail.action
      = some PkActionEnum.PK_ACTION_ENUM_GET_UPDATE_DETAIL ∧
    PkActionEnum.PK_ACTION_ENUM_GET_UPDATE_DETAIL
      ∉ pk_backend_get_actions pk_example_desc_detail := by
  have hmem : ∀ action, action ∈ pk_backend_get_actions desc ↔
      (desc.cancel_job_try.isSome = true ∧ action = PkActionEnum.PK_ACTION_ENUM_CANCEL_JOB) ∨
      (desc.get_depends.isSome = true ∧ action = PkActionEnum.PK_ACTION_ENUM_GET_DEPENDS) ∨
      (desc.get_description.isSome = true ∧
        action = PkActionEnum.PK_ACTION_ENUM_GET_DESCRIPTION) ∨
      (desc.get_requires.isSome = true ∧ action = PkActionEnum.PK_ACTION_ENUM_GET_REQUIRES) ∨
      (desc.get_updates.isSome = true ∧ action = PkActionEnum.PK_ACTION_ENUM_GET_UPDATES) ∨
      (desc.install_package.isSome = true ∧
        action = PkActionEnum.PK_ACTION_ENUM_INSTALL_PACKAGE) ∨
      (desc.refresh_cache.isSome = true ∧
        action = PkActionEnum.PK_ACTION_ENUM_REFRESH_CACHE) ∨
      (desc.remove_package.isSome = true ∧
        action = PkActionEnum.PK_ACTION_ENUM_REMOVE_PACKAGE) ∨
      (desc.search_details.isSome = true ∧
        action = PkActionEnum.PK_ACTION_ENUM_SEARCH_DETAILS) ∨
      (desc.search_file.isSome = true ∧ action = PkActionEnum.PK_ACTION_ENUM_SEARCH_FILE) ∨
      (desc.search_group.isSome = true ∧ action = PkActionEnum.PK_ACTION_ENUM_SEARCH_GROUP) ∨
      (desc.search_name.isSome = true ∧ action = PkActionEnum.PK_ACTION_ENUM_SEARCH_NAME) ∨
      (desc.update_package.isSome = true ∧
        action = PkActionEnum.PK_ACTION_ENUM_UPDATE_PACKAGE) ∨
      (desc.update_system.isSome = true ∧
        action = PkActionEnum.PK_ACTION_ENUM_UPDATE_SYSTEM) := by
    intro action
    simp only [pk_backend_get_actions, pk_mem_append_if, List.not_mem_nil, false_or, or_assoc]
  refine ⟨?_, fun entry action ha hne => ?_, ?_, rfl, rfl, by decide⟩
  · simp only [pk_backend_get_actions, pk_nodup_append_if, pk_mem_append_if, List.nodup_nil,
      List.not_mem_nil]
    simp
  · cases entry <;> simp only [PkBackendEntry.action, Option.some.injEq] at ha
    all_goals first
      | exact absurd rfl hne
      | (subst ha; rw [hmem]; simp [PkBackendDesc.has])
      | exact absurd ha (by simp)
  · rw [hmem]
    simp

/-! ## The task: assignment -/

/-- C40: a task is assigned once.  On a task that is not assigned, `pk_task_assign`
returns TRUE and sets `assigned`, changing nothing else; on a task that is assigned it
returns FALSE and changes nothing.  `pk_task_get_job_status` returns TRUE and stores the
status of the task if the task is assigned, and otherwise returns FALSE and leaves the
place of the result as it was; so it returns TRUE if and only if the task is assigned.
`pk_task_clear` returns TRUE and leaves `assigned` FALSE, so that the next
`pk_task_assign` returns TRUE again. -/
theorem task_assigned_once (task : PkTask) (status : PkTaskStatus) :
    (task.assigned = false → pk_task_assign task = ({ task with assigned := true }, true)) ∧
    (task.assigned = true → pk_task_assign task = (task, false)) ∧
    (task.assigned = true → pk_task_get_job_status task status = (true, task.status)) ∧
    (task.assigned = false → pk_task_get_job_status task status = (false, status)) ∧
    ((pk_task_get_job_status task status).1 = true ↔ task.assigned = true) ∧
    (pk_task_clear task).2 = true ∧
    (pk_task_clear task).1.assigned = false ∧
    pk_task_assign (pk_task_clear task).1
      = ({ (pk_task_clear task).1 with assigned := true }, true) ∧
    (pk_task_assign (pk_task_assign (pk_task_clear task).1).1).2 = false := by
  refine ⟨fun h => ?_, fun h => ?_, fun h => ?_, fun h => ?_, ?_, rfl, rfl, rfl, rfl⟩
  · simp [pk_task_assign, h]
  · simp [pk_task_assign, h]
  · simp [pk_task_get_job_status, h]
  · simp [pk_task_get_job_status, h]
  · cases h : task.assigned <;> simp [pk_task_get_job_status, h]

/-! ## The list: grace timers -/

theorem pk_mem_finished_items (tlist : PkTransactionList) (p : Nat) :
    p ∈ pk_finished_items tlist
      ↔ ∃ item ∈ tlist.array, item.ptr = p ∧ item.finished = true := by
  simp only [pk_finished_items, pk_item_grace, List.mem_map, List.mem_filter]
  constructor
  · rintro ⟨g, ⟨⟨item, hitem, hg⟩, hfin⟩, hp⟩
    subst hg
    exact ⟨item, hitem, hp, hfin⟩
  · rintro ⟨item, hitem, hp, hfin⟩
    exact ⟨(item.ptr, item.finished), ⟨⟨item, hitem, rfl⟩, hfin⟩, hp⟩

theorem pk_item_write_grace (tid : String) (f : PkTransactionItem → PkTransactionItem)
    (hf : ∀ x, pk_item_grace (f x) = pk_item_grace x) (array : List PkTransactionItem) :
    (pk_item_write tid f array).map pk_item_grace = array.map pk_item_grace := by
  induction array with
  | nil => rfl
  | cons x rest ih =>
    simp only [pk_item_write]
    split_ifs
    · simp [hf]
    · simp [ih]

theorem pk_dispatch_grace (run : Nat → Bool) (array : List PkTransactionItem) :
    (pk_transaction_list_dispatch run array).1.map pk_item_grace
      = array.map pk_item_grace := by
  have h := congrArg (List.map (fun x : PkTransactionItem => (x.ptr, x.finished)))
    (pk_dispatch_forget_running run array)
  simp only [List.map_map] at h
  exact h

theorem pk_dispatch_armed (run : Nat → Bool) (array : List PkTransactionItem) :
    pk_armed (pk_transaction_list_dispatch run array).2 = [] := by
  induction array with
  | nil => rfl
  | cons x rest ih =>
    simp only [pk_transaction_list_dispatch]
    split_ifs <;> simp [pk_armed, ih]

theorem pk_commit_grace (tlist : PkTransactionList) (tid : String) (run : Nat → Bool) :
    (pk_transaction_list_commit tlist tid run).tlist.array.map pk_item_grace
      = tlist.array.map pk_item_grace := by
  unfold pk_transaction_list_commit
  cases hl : pk_transaction_list_get_from_tid tlist tid with
  | none => simp
  | some item =>
    have hk1 := pk_item_write_grace tid (fun i => { i with committed := true })
      (fun _ => rfl) tlist.array
    have hk2 := pk_item_write_grace tid (fun i => { i with running := true })
      (fun _ => rfl) (pk_item_write tid (fun i => { i with committed := true }) tlist.array)
    simp only []
    split_ifs <;> simp [hk1, hk2]

theorem pk_finished_items_of_grace (a b : PkTransactionList)
    (h : a.array.map pk_item_grace = b.array.map pk_item_grace) :
    pk_finished_items a = pk_finished_items b := by
  simp only [pk_finished_items, h]

theorem pk_create_finished_items (tlist : PkTransactionList) (tid : String) (item : Nat)
    (connection set_tid : Bool) (r : PkTransactionList × Bool)
    (h : pk_transaction_list_create tlist tid item connection set_tid = some r) (q : Nat) :
    q ∈ pk_finished_items r.1 ↔ q ∈ pk_finished_items tlist := by
  unfold pk_transaction_list_create at h
  cases hl : pk_transaction_list_get_from_tid tlist tid with
  | some x =>
    simp only [hl, Option.some.injEq] at h
    rw [← h]
  | none =>
    simp only [hl] at h
    split_ifs at h
    simp only [Option.some.injEq] at h
    rw [← h]
    simp only [pk_mem_finished_items, List.mem_append, List.mem_singleton]
    constructor
    · rintro ⟨x, hx | hx, hp, hf⟩
      · exact ⟨x, hx, hp, hf⟩
      · subst hx
        simp at hf
    · rintro ⟨x, hx, hp, hf⟩
      exact ⟨x, Or.inl hx, hp, hf⟩

theorem pk_ptr_ne_of_nodup (pre post : List PkTransactionItem) (item : PkTransactionItem)
    (h : ((pre ++ item :: post).map (fun i => i.ptr)).Nodup) :
    (∀ x ∈ pre, x.ptr ≠ item.ptr) ∧ (∀ x ∈ post, x.ptr ≠ item.ptr) := by
  simp only [List.map_append, List.map_cons] at h
  rw [List.nodup_append] at h
  obtain ⟨_, h2, h3⟩ := h
  rw [List.nodup_cons] at h2
  constructor
  · intro x hx he
    exact h3 (List.mem_map.mpr ⟨x, hx, rfl⟩) (by rw [he]; exact List.mem_cons_self _ _) 
  · intro x hx he
    exact h2.1 (by rw [← he]; exact List.mem_map.mpr ⟨x, hx, rfl⟩)

theorem pk_remove_finished_items (tlist : PkTransactionList) (tid : String)
    (hwf : pk_well_formed tlist) (q : Nat) :
    q ∈ pk_finished_items (pk_transaction_list_remove tlist tid).1
      ↔ q ∈ pk_finished_items tlist := by
  unfold pk_transaction_list_remove
  cases hl : pk_transaction_list_get_from_tid tlist tid with
  | none => simp
  | some item =>
    simp only
    by_cases hf : item.finished = true
    · simp [hf]
    · simp only [hf, Bool.false_eq_true, if_false]
      obtain ⟨pre, post, harr, _, _⟩ := pk_get_from_tid_split tlist tid item hl
      have hne := pk_ptr_ne_of_nodup pre post item (by rw [← harr]; exact hwf.1)
      have hrem := pk_remove_split pre post item hne.1
      simp only [pk_transaction_list_remove_internal, harr, hrem, if_true]
      simp only [pk_mem_finished_items, harr, List.mem_append, List.mem_cons]
      constructor
      · rintro ⟨x, hx | hx, hp, hfx⟩
        · exact ⟨x, Or.inl hx, hp, hfx⟩
        · exact ⟨x, Or.inr (Or.inr hx), hp, hfx⟩
      · rintro ⟨x, hx | hx | hx, hp, hfx⟩
        · exact ⟨x, Or.inl hx, hp, hfx⟩
        · subst hx
          exact absurd hfx hf
        · exact ⟨x, Or.inr hx, hp, hfx⟩

theorem pk_finished_cb_timers (tlist : PkTransactionList) (transaction : PkTransaction)
    (run : Nat → Bool) (r : PkTransactionList × List PkEffect) (hwf : pk_well_formed tlist)
    (h : pk_transaction_list_transaction_finished_cb transaction tlist run = some r) :
    ∃ T, pk_transaction_list_get_from_tid tlist transaction.tid = some T ∧
      ((T.finished = true ∧ r = (tlist, [])) ∨
       (T.finished = false ∧ pk_armed r.2 = [T.ptr] ∧ T.ptr ∉ pk_finished_items tlist ∧
        ∀ q, q ∈ pk_finished_items r.1 ↔ q = T.ptr ∨ q ∈ pk_finished_items tlist)) := by
  cases hl : pk_transaction_list_get_from_tid tlist transaction.tid with
  | none => simp [pk_transaction_list_transaction_finished_cb, hl] at h
  | some T =>
    refine ⟨T, rfl, ?_⟩
    by_cases hf : T.finished = true
    · left
      simp only [pk_transaction_list_transaction_finished_cb, hl, hf, if_true,
        Option.some.injEq] at h
      exact ⟨hf, h.symm⟩
    · right
      have hf' : T.finished = false := by simpa using hf
      obtain ⟨pre, post, harr, hpre, hmatch⟩ := pk_get_from_tid_split tlist _ T hl
      rw [pk_finished_cb_split tlist transaction T run pre post hl hf' harr hpre hmatch] at h
      simp only [Option.some.injEq] at h
      have hne := pk_ptr_ne_of_nodup pre post T (by rw [← harr]; exact hwf.1)
      refine ⟨hf', ?_, ?_, fun q => ?_⟩
      · rw [← h]
        simp [pk_armed, pk_dispatch_armed]
      · rw [pk_mem_finished_items]
        rintro ⟨x, hx, hp, hfx⟩
        rw [harr] at hx
        rcases List.mem_append.mp hx with hx | hx
        · exact hne.1 x hx hp
        · rcases List.mem_cons.mp hx with hx | hx
          · subst hx
            exact hf hfx
          · exact hne.2 x hx hp
      · have hg : pk_finished_items r.1
            = pk_finished_items ⟨pre ++ { T with finished := true } :: post⟩ := by
          rw [← h]
          exact pk_finished_items_of_grace _ _ (pk_dispatch_grace run _)
        rw [hg]
        simp only [pk_mem_finished_items, harr, List.mem_append, List.mem_cons]
        constructor
        · rintro ⟨x, hx | hx | hx, hp, hfx⟩
          · exact Or.inr ⟨x, Or.inl hx, hp, hfx⟩
          · subst hx
            exact Or.inl hp.symm
          · exact Or.inr ⟨x, Or.inr (Or.inr hx), hp, hfx⟩
        · rintro (hq | ⟨x, hx | hx | hx, hp, hfx⟩)
          · exact ⟨{ T with finished := true }, Or.inr (Or.inl rfl), hq.symm, rfl⟩
          · exact ⟨x, Or.inl hx, hp, hfx⟩
          · subst hx
            exact absurd hfx hf
          · exact ⟨x, Or.inr (Or.inr hx), hp, hfx⟩

theorem pk_timeout_finished_items (tlist : PkTransactionList) (p : Nat)
    (hwf : pk_well_formed tlist) (hp : p ∈ pk_finished_items tlist) :
    (∀ q, q ∈ pk_finished_items (pk_transaction_list_remove_item_timeout tlist p).1
      ↔ q ≠ p ∧ q ∈ pk_finished_items tlist) ∧
    ∀ x ∈ (pk_transaction_list_remove_item_timeout tlist p).1.array, x.ptr ≠ p := by
  obtain ⟨item, hitem, hptr, hfin⟩ := (pk_mem_finished_items tlist p).mp hp
  obtain ⟨pre, post, harr⟩ := List.append_of_mem hitem
  have hne := pk_ptr_ne_of_nodup pre post item (by rw [← harr]; exact hwf.1)
  have hrem := pk_remove_split pre post item hne.1
  rw [hptr] at hrem
  have hres : (pk_transaction_list_remove_item_timeout tlist p).1 = ⟨pre ++ post⟩ := by
    simp only [pk_transaction_list_remove_item_timeout, pk_transaction_list_remove_internal,
      harr, hrem, if_true]
  rw [hres]
  constructor
  · intro q
    simp only [pk_mem_finished_items, harr, List.mem_append, List.mem_cons]
    constructor
    · rintro ⟨x, hx | hx, hq, hfx⟩
      · exact ⟨fun he => hne.1 x hx (by rw [hq, he, hptr]), x, Or.inl hx, hq, hfx⟩
      · exact ⟨fun he => hne.2 x hx (by rw [hq, he, hptr]), x, Or.inr (Or.inr hx), hq, hfx⟩
    · rintro ⟨hqp, x, hx | hx | hx, hq, hfx⟩
      · exact ⟨x, Or.inl hx, hq, hfx⟩
      · subst hx
        exact absurd (hq.symm.trans hptr) hqp
      · exact ⟨x, Or.inr hx, hq, hfx⟩
  · intro x hx
    rcases List.mem_append.mp hx with hx | hx
    · rw [← hptr]
      exact hne.1 x hx
    · rw [← hptr]
      exact hne.2 x hx

theorem pk_step_timers_match (s s' : PkState) (e : PkEvent)
    (hwf : pk_well_formed s.tlist) (hm : pk_timers_match s) (h : s.step e = some s') :
    pk_timers_match s' := by
  obtain ⟨hnd, hmem⟩ := hm
  cases e with
  | create tid item =>
    simp only [PkState.step] at h
    split_ifs at h
    cases hc : pk_transaction_list_create s.tlist tid item true true with
    | none => rw [hc] at h; exact absurd h (by simp)
    | some r =>
      rw [hc] at h
      simp only [Option.some.injEq] at h
      subst h
      exact ⟨hnd, fun p => (hmem p).trans
        (pk_create_finished_items s.tlist tid item true true r hc p).symm⟩
  | commit tid run =>
    simp only [PkState.step, Option.some.injEq] at h
    subst h
    refine ⟨hnd, fun p => ?_⟩
    simp only []
    rw [pk_finished_items_of_grace _ s.tlist (pk_commit_grace s.tlist tid run)]
    exact hmem p
  | remove tid =>
    simp only [PkState.step, Option.some.injEq] at h
    subst h
    exact ⟨hnd, fun p => (hmem p).trans (pk_remove_finished_items s.tlist tid hwf p).symm⟩
  | finished transaction run =>
    simp only [PkState.step] at h
    split_ifs at h
    cases hc : pk_transaction_list_transaction_finished_cb transaction s.tlist run with
    | none => rw [hc] at h; exact absurd h (by simp)
    | some r =>
      rw [hc] at h
      simp only [Option.some.injEq] at h
      subst h
      obtain ⟨T, _, ⟨_, hr⟩ | ⟨_, harm, hnot, hfin⟩⟩ :=
        pk_finished_cb_timers s.tlist transaction run r hwf hc
      · subst hr
        simp only [pk_armed, List.append_nil]
        exact ⟨hnd, hmem⟩
      · simp only [harm]
        constructor
        · rw [List.nodup_append]
          refine ⟨hnd, List.nodup_singleton _, ?_⟩
          intro a ha hb
          rw [List.mem_singleton] at hb
          subst hb
          exact hnot ((hmem _).mp ha)
        · intro p
          rw [List.mem_append, List.mem_singleton, hfin p, hmem p]
          exact or_comm
  | timeout item =>
    simp only [PkState.step] at h
    split_ifs at h with hin
    simp only [Option.some.injEq] at h
    subst h
    obtain ⟨hq, _⟩ := pk_timeout_finished_items s.tlist item hwf ((hmem item).mp hin)
    refine ⟨hnd.erase item, fun p => ?_⟩
    simp only []
    rw [hnd.mem_erase_iff, hq p, hmem p]

theorem pk_reachable_timers_match (s : PkState) (h : PkReachable s) : pk_timers_match s := by
  induction h with
  | init =>
    refine ⟨List.nodup_nil, fun p => ?_⟩
    simp [PkState.init, pk_transaction_list_init, pk_finished_items]
  | step s s' e hs hstep ih =>
    exact pk_step_timers_match s s' e (pk_reachable_well_formed s hs) ih hstep

/-! ## The list: claims on `finished` and the grace timers -/

/-- C39: a second `finished` signal is ignored.  In every reachable state, when the item
of the transaction is finished already, the `finished` callback changes nothing in the
list and has no effect: no `changed` signal, no grace timer, no transaction started; the
event leaves the state as it is.  So no timer is pending twice, and a timer is pending for
an address exactly when the array holds a finished item at that address; when a timer
fires, the item is gone and no timer for its address is left, so that no second timer
step can remove it. -/
theorem second_finished_ignored (s : PkState) (hs : PkReachable s) :
    (∀ transaction item run,
      pk_transaction_list_get_from_tid s.tlist transaction.tid = some item →
      item.finished = true →
      pk_transaction_list_transaction_finished_cb transaction s.tlist run
        = some (s.tlist, []) ∧
      (item.transaction = some transaction →
        s.step (PkEvent.finished transaction run) = some s)) ∧
    s.timeouts.Nodup ∧
    (∀ p, p ∈ s.timeouts ↔ ∃ item ∈ s.tlist.array, item.ptr = p ∧ item.finished = true) ∧
    (∀ p s', s.step (PkEvent.timeout p) = some s' →
      p ∉ s'.timeouts ∧ (∀ item ∈ s'.tlist.array, item.ptr ≠ p) ∧
      s'.step (PkEvent.timeout p) = none) := by
  have hwf := pk_reachable_well_formed s hs
  obtain ⟨hnd, hmem⟩ := pk_reachable_timers_match s hs
  refine ⟨fun transaction item run hl hf => ?_, hnd,
    fun p => (hmem p).trans (pk_mem_finished_items s.tlist p), fun p s' hstep => ?_⟩
  · have hcb : pk_transaction_list_transaction_finished_cb transaction s.tlist run
        = some (s.tlist, []) := by
      simp [pk_transaction_list_transaction_finished_cb, hl, hf]
    refine ⟨hcb, fun ht => ?_⟩
    have hany : s.tlist.array.any (fun i => decide (i.transaction = some transaction))
        = true := by
      rw [List.any_eq_true]
      exact ⟨item, List.mem_of_find?_eq_some hl, by simp [ht]⟩
    simp only [PkState.step, hany, if_true, hcb, pk_armed, List.append_nil]
  · simp only [PkState.step] at hstep
    split_ifs at hstep with hin
    simp only [Option.some.injEq] at hstep
    subst hstep
    obtain ⟨_, hgone⟩ := pk_timeout_finished_items s.tlist p hwf ((hmem p).mp hin)
    have hnot : p ∉ s.timeouts.erase p := fun hp => (hnd.mem_erase_iff.mp hp).1 rfl
    refine ⟨hnot, hgone, ?_⟩
    simp only [PkState.step, hnot, if_false]

theorem second_finished_ignored_witness :
    PkState.run PkState.init pk_example_run_and_finish = some pk_example_finished ∧
    pk_transaction_list_transaction_finished_cb ⟨"/1_aaaa", PkRoleEnum.PK_ROLE_ENUM_UNKNOWN⟩
        pk_example_finished.tlist pk_run_ok
      = some (pk_example_finished.tlist, []) :=
  ⟨by decide,
   ((second_finished_ignored pk_example_finished
      (pk_reachable_of_run pk_example_run_and_finish PkState.init pk_example_finished
        PkReachable.init (by decide))).1
      ⟨"/1_aaaa", PkRoleEnum.PK_ROLE_ENUM_UNKNOWN⟩ pk_example_retired pk_run_ok
      (by decide) rfl).1⟩

/-! ## The list: a start that fails -/

theorem pk_item_write_mem_fixed (tid : String) (f : PkTransactionItem → PkTransactionItem)
    (x : PkTransactionItem) (hfx : f x = x) (array : List PkTransactionItem)
    (hx : x ∈ array) : x ∈ pk_item_write tid f array := by
  induction array with
  | nil => simp at hx
  | cons y rest ih =>
    simp only [pk_item_write]
    rcases List.mem_cons.mp hx with he | hr
    · subst he
      split_ifs
      · rw [hfx]
        exact List.mem_cons_self _ _
      · exact List.mem_cons_self _ _
    · split_ifs
      · exact List.mem_cons_of_mem _ hr
      · exact List.mem_cons_of_mem _ (ih hr)

theorem pk_dispatch_mem_not_queued (run : Nat → Bool) (x : PkTransactionItem)
    (hq : pk_item_queued x = false) (array : List PkTransactionItem) (hx : x ∈ array) :
    x ∈ (pk_transaction_list_dispatch run array).1 := by
  induction array with
  | nil => simp at hx
  | cons y rest ih =>
    simp only [pk_transaction_list_dispatch]
    rcases List.mem_cons.mp hx with he | hr
    · subst he
      have hc : ¬ ((x.committed && !x.running && !x.finished) = true) := by
        simpa [pk_item_queued] using hq
      rw [if_neg hc]
      exact List.mem_cons_self _ _
    · split_ifs
      · exact List.mem_cons_of_mem _ hr
      · exact List.mem_cons_of_mem _ (ih hr)
      · exact List.mem_cons_of_mem _ (ih hr)

theorem pk_matches_tid (tlist : PkTransactionList) (hwf : pk_well_formed tlist) (tid : String)
    (item : PkTransactionItem) (hitem : item ∈ tlist.array)
    (hm : pk_tid_matches tid item = true) : item.tid = tid := by
  have h := hwf.2.2 item hitem
  simp only [pk_tid_matches, h, egg_strequal, decide_eq_true_eq] at hm
  exact hm

theorem pk_commit_blocked (tlist : PkTransactionList) (tid : String) (run : Nat → Bool)
    (x : PkTransactionItem) (hx : x ∈ tlist.array) (hp : pk_item_in_progress x = true) :
    pk_transaction_list_commit tlist tid run
      = (match pk_transaction_list_get_from_tid tlist tid with
         | none => ⟨tlist, false, []⟩
         | some _ =>
           ⟨⟨pk_item_write tid (fun i => { i with committed := true }) tlist.array⟩, true,
             [PkEffect.changed]⟩) := by
  cases hl : pk_transaction_list_get_from_tid tlist tid with
  | none => simp [pk_transaction_list_commit, hl]
  | some item =>
    obtain ⟨pre, post, harr, hpre, hmatch⟩ := pk_get_from_tid_split tlist tid item hl
    rw [pk_commit_split tlist tid item run pre post hl harr hpre hmatch]
    have hpos : pk_transaction_list_number_running
        ⟨pre ++ { item with committed := true } :: post⟩ ≠ 0 := by
      rw [pk_number_running_eq]
      apply Nat.pos_iff_ne_zero.mp
      rw [List.countP_pos_iff]
      rw [harr] at hx
      rcases List.mem_append.mp hx with h1 | h1
      · exact ⟨x, List.mem_append.mpr (Or.inl h1), hp⟩
      · rcases List.mem_cons.mp h1 with h2 | h2
        · subst h2
          refine ⟨{ x with committed := true }, by simp, ?_⟩
          simp only [pk_item_in_progress, Bool.and_eq_true] at hp ⊢
          exact ⟨⟨trivial, hp.1.2⟩, hp.2⟩
        · exact ⟨x, by simp [h2], hp⟩
    rw [if_neg hpos, harr, pk_item_write_split tid _ pre post item hpre hmatch]

theorem pk_mem_of_ne_middle (pre post : List PkTransactionItem) (x y : PkTransactionItem)
    (hx : x ∈ pre ++ y :: post) (hne : x ≠ y) : x ∈ pre ++ post := by
  rcases List.mem_append.mp hx with h | h
  · exact List.mem_append.mpr (Or.inl h)
  · rcases List.mem_cons.mp h with h | h
    · exact absurd h hne
    · exact List.mem_append.mpr (Or.inr h)

theorem pk_step_keeps (s s' : PkState) (e : PkEvent) (x : PkTransactionItem)
    (hs : PkReachable s) (hx : x ∈ s.tlist.array) (hp : pk_item_in_progress x = true)
    (he : e.spares x.tid) (h : s.step e = some s') : x ∈ s'.tlist.array := by
  have hwf := pk_reachable_well_formed s hs
  have hxf : x.finished = false := by
    simp only [pk_item_in_progress, Bool.and_eq_true] at hp
    simpa using hp.2
  cases e with
  | create tid item =>
    simp only [PkState.step] at h
    split_ifs at h
    cases hc : pk_transaction_list_create s.tlist tid item true true with
    | none => rw [hc] at h; exact absurd h (by simp)
    | some r =>
      rw [hc] at h
      simp only [Option.some.injEq] at h
      subst h
      unfold pk_transaction_list_create at hc
      cases hl : pk_transaction_list_get_from_tid s.tlist tid with
      | some y =>
        simp only [hl, Option.some.injEq] at hc
        rw [← hc]
        exact hx
      | none =>
        simp only [hl] at hc
        split_ifs at hc
        simp only [Option.some.injEq] at hc
        rw [← hc]
        exact List.mem_append.mpr (Or.inl hx)
  | commit tid run =>
    simp only [PkState.step, Option.some.injEq] at h
    subst h
    rw [pk_commit_blocked s.tlist tid run x hx hp]
    cases pk_transaction_list_get_from_tid s.tlist tid with
    | none => exact hx
    | some item =>
      have hc : x.committed = true := by
        simp only [pk_item_in_progress, Bool.and_eq_true] at hp
        exact hp.1.1
      refine pk_item_write_mem_fixed tid _ x ?_ s.tlist.array hx
      cases x
      simp only at hc
      simp [hc]
  | remove tid =>
    simp only [PkState.step, Option.some.injEq] at h
    subst h
    simp only [PkEvent.spares] at he
    unfold pk_transaction_list_remove
    cases hl : pk_transaction_list_get_from_tid s.tlist tid with
    | none => exact hx
    | some item =>
      simp only
      split_ifs
      · exact hx
      · obtain ⟨pre, post, harr, _, hmatch⟩ := pk_get_from_tid_split s.tlist tid item hl
        have hitem : item ∈ s.tlist.array := by rw [harr]; simp
        have hne := pk_ptr_ne_of_nodup pre post item (by rw [← harr]; exact hwf.1)
        have hrem := pk_remove_split pre post item hne.1
        simp only [pk_transaction_list_remove_internal, harr, hrem, if_true]
        refine pk_mem_of_ne_middle pre post x item (by rw [← harr]; exact hx) ?_
        intro hxe
        exact he (by rw [hxe] at *; exact (pk_matches_tid s.tlist hwf tid item hitem hmatch).symm)
  | finished transaction run =>
    simp only [PkState.step] at h
    split_ifs at h
    cases hc : pk_transaction_list_transaction_finished_cb transaction s.tlist run with
    | none => rw [hc] at h; exact absurd h (by simp)
    | some r =>
      rw [hc] at h
      simp only [Option.some.injEq] at h
      subst h
      simp only [PkEvent.spares] at he
      cases hl : pk_transaction_list_get_from_tid s.tlist transaction.tid with
      | none => simp [pk_transaction_list_transaction_finished_cb, hl] at hc
      | some T =>
        by_cases hf : T.finished = true
        · simp only [pk_transaction_list_transaction_finished_cb, hl, hf, if_true,
            Option.some.injEq] at hc
          rw [← hc]
          exact hx
        · have hf' : T.finished = false := by simpa using hf
          obtain ⟨pre, post, harr, hpre, hmatch⟩ := pk_get_from_tid_split s.tlist _ T hl
          rw [pk_finished_cb_split s.tlist transaction T run pre post hl hf' harr hpre hmatch]
            at hc
          simp only [Option.some.injEq] at hc
          rw [← hc]
          have hT : T ∈ s.tlist.array := by rw [harr]; simp
          have hne : x ≠ T := by
            intro hxe
            exact he (by
              rw [hxe]
              exact (pk_matches_tid s.tlist hwf _ T hT hmatch).symm)
          have hq : pk_item_queued x = false := by
            simp only [pk_item_in_progress, Bool.and_eq_true] at hp
            simp [pk_item_queued, hp.1.2]
          refine pk_dispatch_mem_not_queued run x hq _ ?_
          rw [harr] at hx
          rcases List.mem_append.mp hx with h1 | h1
          · exact List.mem_append.mpr (Or.inl h1)
          · rcases List.mem_cons.mp h1 with h2 | h2
            · exact absurd h2 hne
            · exact List.mem_append.mpr (Or.inr (List.mem_cons_of_mem _ h2))
  | timeout item =>
    simp only [PkState.step] at h
    split_ifs at h with hin
    simp only [Option.some.injEq] at h
    subst h
    obtain ⟨_, hmem⟩ := pk_reachable_timers_match s hs
    obtain ⟨y, hy, hptr, hfin⟩ := (pk_mem_finished_items s.tlist item).mp ((hmem item).mp hin)
    obtain ⟨pre, post, harr⟩ := List.append_of_mem hy
    have hne := pk_ptr_ne_of_nodup pre post y (by rw [← harr]; exact hwf.1)
    have hrem := pk_remove_split pre post y hne.1
    rw [hptr] at hrem
    simp only [pk_transaction_list_remove_item_timeout, pk_transaction_list_remove_internal,
      harr, hrem, if_true]
    refine pk_mem_of_ne_middle pre post x y (by rw [← harr]; exact hx) ?_
    intro hxe
    rw [hxe, hfin] at hxf
    exact absurd hxf (by simp)

theorem pk_run_keeps (events : List PkEvent) (s s' : PkState) (x : PkTransactionItem)
    (hs : PkReachable s) (hx : x ∈ s.tlist.array) (hp : pk_item_in_progress x = true)
    (he : ∀ e ∈ events, e.spares x.tid) (h : PkState.run s events = some s') :
    x ∈ s'.tlist.array := by
  induction events generalizing s with
  | nil =>
    simp only [PkState.run, Option.some.injEq] at h
    rw [← h]
    exact hx
  | cons e rest ih =>
    simp only [PkState.run] at h
    cases hstep : s.step e with
    | none => rw [hstep] at h; exact absurd h (by simp)
    | some s1 =>
      rw [hstep] at h
      exact ih s1 (PkReachable.step s s1 e hs hstep)
        (pk_step_keeps s s1 e x hs hx hp (he e (List.mem_cons_self _ _)) hstep)
        (fun e' he' => he e' (List.mem_cons_of_mem _ he')) h

/-- C38, as stated, fails: the failed item stops blocking without a `finished` signal
when it is removed.  After `/1_aaaa` and `/2_bbbb` are created, the commit of `/1_aaaa`
finds nothing running, `pk_transaction_run` fails, and the commit returns FALSE leaving
the item committed and running; then `/1_aaaa` is removed, and the commit of `/2_bbbb`
starts `/2_bbbb`, although no `finished` signal came for `/1_aaaa`. -/
theorem failed_item_removed_unblocks :
    pk_transaction_list_commit pk_example_two_created.tlist "/1_aaaa" pk_run_fails
      = ⟨⟨[{ pk_example_item_a with committed := true, running := true },
           pk_example_item_b]⟩, false,
          [PkEffect.changed, PkEffect.transaction_run 1]⟩ ∧
    PkState.run pk_example_two_created
        [PkEvent.commit "/1_aaaa" pk_run_fails, PkEvent.remove "/1_aaaa"]
      = some ⟨⟨[pk_example_item_b]⟩, []⟩ ∧
    pk_transaction_list_commit ⟨[pk_example_item_b]⟩ "/2_bbbb" pk_run_ok
      = ⟨⟨[{ pk_example_item_b with committed := true, running := true }]⟩, true,
          [PkEffect.changed, PkEffect.transaction_run 2]⟩ := by
  decide

/-- C38, amended: a start that fails blocks the commits until the item is finished or
removed.  In a reachable state, when `commit` of the TID of an unfinished item finds
nothing in progress and `pk_transaction_run` returns FALSE for the item, `commit` returns
FALSE after it emitted `changed` and called `pk_transaction_run`, and it leaves the item
committed and running, and not finished: the item counts as in progress.  After any
events other than the `finished` signal of that transaction and the removal of that TID,
the item is still in the array as it was left, and every `commit`, of any TID, starts
nothing: it sets the `committed` flag of its item and emits `changed`, or returns FALSE
when it finds no item, and never calls `pk_transaction_run`. -/
theorem failed_start_blocks_commits (s : PkState) (hs : PkReachable s) (tid : String)
    (item : PkTransactionItem) (run : Nat → Bool)
    (hl : pk_transaction_list_get_from_tid s.tlist tid = some item)
    (hfin : item.finished = false)
    (hnone : pk_transaction_list_number_running
      ⟨pk_item_write tid (fun i => { i with committed := true }) s.tlist.array⟩ = 0)
    (hrun : run item.ptr = false) :
    (pk_transaction_list_commit s.tlist tid run).ret = false ∧
    (pk_transaction_list_commit s.tlist tid run).effects
      = [PkEffect.changed, PkEffect.transaction_run item.ptr] ∧
    { item with committed := true, running := true }
      ∈ (pk_transaction_list_commit s.tlist tid run).tlist.array ∧
    pk_item_in_progress { item with committed := true, running := true } = true ∧
    ∀ events s', (∀ e ∈ events, e.spares tid) →
      PkState.run s (PkEvent.commit tid run :: events) = some s' →
      { item with committed := true, running := true } ∈ s'.tlist.array ∧
      ∀ tid' run', pk_transaction_list_commit s'.tlist tid' run'
        = (match pk_transaction_list_get_from_tid s'.tlist tid' with
           | none => ⟨s'.tlist, false, []⟩
           | some _ =>
             ⟨⟨pk_item_write tid' (fun i => { i with committed := true }) s'.tlist.array⟩,
               true, [PkEffect.changed]⟩) := by
  have hwf := pk_reachable_well_formed s hs
  obtain ⟨pre, post, harr, hpre, hmatch⟩ := pk_get_from_tid_split s.tlist tid item hl
  have hitem : item ∈ s.tlist.array := by rw [harr]; simp
  have htid : item.tid = tid := pk_matches_tid s.tlist hwf tid item hitem hmatch
  rw [harr, pk_item_write_split tid _ pre post item hpre hmatch] at hnone
  have hcommit := pk_commit_split s.tlist tid item run pre post hl harr hpre hmatch
  rw [if_pos hnone, hrun] at hcommit
  have hprog : pk_item_in_progress { item with committed := true, running := true }
      = true := by
    simp [pk_item_in_progress, hfin]
  have hin : { item with committed := true, running := true }
      ∈ (pk_transaction_list_commit s.tlist tid run).tlist.array := by
    rw [hcommit]
    simp
  refine ⟨by rw [hcommit], by rw [hcommit], hin, hprog, fun events s' hev hrun' => ?_⟩
  simp only [PkState.run] at hrun'
  have hstep : s.step (PkEvent.commit tid run)
      = some { s with tlist := (pk_transaction_list_commit s.tlist tid run).tlist } := rfl
  rw [hstep] at hrun'
  simp only at hrun'
  have hs1 := PkReachable.step s _ (PkEvent.commit tid run) hs hstep
  have hkeep := pk_run_keeps events _ s' { item with committed := true, running := true }
    hs1 hin hprog (fun e he => by simpa [htid] using hev e he) hrun'
  exact ⟨hkeep, fun tid' run' => pk_commit_blocked s'.tlist tid' run' _ hkeep hprog⟩

theorem failed_start_blocks_commits_witness :
    PkState.run PkState.init [PkEvent.create "/1_aaaa" 1, PkEvent.create "/2_bbbb" 2]
      = some pk_example_two_created ∧
    pk_transaction_list_get_from_tid pk_example_two_created.tlist "/1_aaaa"
      = some pk_example_item_a ∧
    (pk_transaction_list_commit pk_example_two_created.tlist "/1_aaaa" pk_run_fails).ret
      = false :=
  ⟨by decide, by decide,
   (failed_start_blocks_commits pk_example_two_created
      (pk_reachable_of_run [PkEvent.create "/1_aaaa" 1, PkEvent.create "/2_bbbb" 2]
        PkState.init pk_example_two_created PkReachable.init (by decide))
      "/1_aaaa" pk_example_item_a pk_run_fails (by decide) (by decide) (by decide)
      (by decide)).1⟩

end PackageKit
